import Mathlib

/-!
# redditclone-rest-api: vote aggregation and authentication

Shallow embedding of `pkg/models`, of
`PostMongoDBRepository.UpvotePost` (`pkg/post/repository/mongo/post_mongo.go`),
of `middleware.ValidateJWTToken` (`pkg/middleware/auth.go`), of
`SessionRedisManager` (`pkg/session/repository/redis/session_redis.go`) and of
`UserHandler.Signup`, `UserHandler.Login` and `createUserJWT`
(`pkg/user/delivery/handler.go`).

Conventions of the embedding

* Go `int` is the 64-bit two's-complement integer.  Fields of type `int` are
  Lean `Int`s; every arithmetic operation the source performs on them is
  followed by `wrapInt`.  `isGoInt x` says that `x` is a value a Go `int` can
  hold.  Slice lengths and indices are bounded by the slice length and are not
  wrapped.
* `[]*T` is a `List T`: the elements are the pointed-to records (no nil
  element, no aliasing).  A nilable `*User` is an `Option User`.
* A Go `error` result is an `Option Error`, `none` being `nil`.
* `time.Time` and `primitive.ObjectID` values are never inspected by the code
  embedded here and are represented by integers.
-/

set_option linter.dupNamespace false

namespace RedditClone

/-! ## Go `int` -/

/-- Two's-complement wrap-around of an integer into the range of Go's 64-bit `int`. -/
def wrapInt (x : Int) : Int :=
  (x + 9223372036854775808) % 18446744073709551616 - 9223372036854775808

/-- The values a Go `int` can hold. -/
def isGoInt (x : Int) : Prop :=
  -9223372036854775808 ≤ x ∧ x ≤ 9223372036854775807

instance (x : Int) : Decidable (isGoInt x) := by
  unfold isGoInt
  infer_instance

/-! ## `pkg/models` -/

abbrev ObjectID := Nat

abbrev Time := Int

/-- The error values of `models/errors.go`. -/
inductive Error where
  | ErrNoSession
  | ErrNoUser
  | ErrWrongCredentials
  | ErrAlreadyCreated
  | ErrCorruptedCommentID
  | ErrNoComment
  | ErrDeleteComment
  | ErrCorruptedPostID
  | ErrUnrecognizedRate
  | ErrNoPost
  | ErrUpdatePost
  | ErrDeletePost
  | ErrIncorrectPostCategory
deriving DecidableEq, Repr

structure User where
  ID : Int
  Login : String
  Password : String
deriving DecidableEq, Repr, Inhabited

structure Vote where
  Author : User
  AuthorID : Int
  Vote : Int
deriving DecidableEq, Repr, Inhabited

structure Comment where
  Created : Time
  Author : Option User
  Text : String
  ID : ObjectID
deriving DecidableEq, Repr

structure Post where
  Score : Int
  Views : Int
  Type_ : String
  Title : String
  Author : User
  Category : String
  Text : String
  URL : String
  Votes : List Vote
  Comments : List Comment
  Created : Time
  UpvotePercentage : Int
  ID : ObjectID
deriving DecidableEq, Repr

/-! ## The `slices` functions used by the repository -/

/-- Loop of `slices.IndexFunc`, started at index `i`. -/
def indexFuncFrom {α : Type} (f : α → Bool) : List α → Int → Int
  | [], _ => -1
  | x :: xs, i => if f x then i else indexFuncFrom f xs (i + 1)

/-- `slices.IndexFunc(s, f)`: the first index whose element satisfies `f`, or `-1`. -/
def IndexFunc {α : Type} (s : List α) (f : α → Bool) : Int :=
  indexFuncFrom f s 0

/-- `slices.Delete(s, i, j)`: `s` without the elements `s[i:j]`. -/
def Delete {α : Type} (s : List α) (i j : Int) : List α :=
  s.take i.toNat ++ s.drop j.toNat

/-! ## The posts collection

The MongoDB collection behind `repo.DB` is external to the repository.  It is
represented by the documents it holds, by whether the deployment answers a
write with an error, and by the update commands it has received.  `UpdateOne`
follows the driver's contract: `MatchedCount` is the number of documents
matched by the filter, `ModifiedCount` the number of documents the operation
changed (a `$set` to the values already stored changes nothing).
-/

/-- BSON image of a `User`: `Password` carries the tag `bson:"-"`. -/
def bsonUser (u : User) : User :=
  { u with Password := "" }

/-- BSON image of a `Vote`. -/
def bsonVote (v : Vote) : Vote :=
  { v with Author := bsonUser v.Author }

/-- The `$set` document built by `UpvotePost`. -/
structure VoteSet where
  votes : List Vote
  score : Int
  upvotePercentage : Int
deriving DecidableEq, Repr

/-- One `UpdateOne` command: the `_id` of the filter and the `$set` document. -/
structure UpdateCommand where
  filterID : ObjectID
  set : VoteSet
deriving DecidableEq, Repr

structure UpdateResult where
  MatchedCount : Int
  ModifiedCount : Int
deriving DecidableEq, Repr

structure Collection where
  docs : List Post
  failing : Bool
  received : List UpdateCommand
deriving DecidableEq, Repr

/-- Effect of a `$set` of the three vote fields on a stored document. -/
def applySet (s : VoteSet) (d : Post) : Post :=
  { d with Votes := s.votes.map bsonVote, Score := s.score,
           UpvotePercentage := s.upvotePercentage }

/-- Rewrite the first document whose `_id` is `id`. -/
def updateFirst (id : ObjectID) (s : VoteSet) : List Post → List Post
  | [] => []
  | d :: ds => if d.ID = id then applySet s d :: ds else d :: updateFirst id s ds

/-- `Collection.UpdateOne(ctx, {"_id": id}, {"$set": s})`; `none` is a non-nil `err`. -/
def Collection.UpdateOne (c : Collection) (id : ObjectID) (s : VoteSet) :
    Collection × Option UpdateResult :=
  let c1 : Collection := { c with received := c.received ++ [⟨id, s⟩] }
  if c.failing then (c1, none)
  else
    match c.docs.find? (fun d => d.ID = id) with
    | none => (c1, some ⟨0, 0⟩)
    | some d =>
      ({ c1 with docs := updateFirst id s c.docs },
       some ⟨1, if applySet s d = d then 0 else 1⟩)

/-! ## `PostMongoDBRepository` -/

structure PostMongoDBRepository where
  DB : Collection
deriving DecidableEq, Repr

/-- What a call of `UpvotePost` leaves behind: the returned error, the post
behind the `*models.Post` argument, and the repository. -/
structure UpvoteOutcome where
  err : Option Error
  post : Post
  repo : PostMongoDBRepository
deriving DecidableEq, Repr

/-- Lines 122-146 of `UpvotePost`: the update of the post in memory.  The index
returned by `IndexFunc` is within the slice whenever it is not `-1`
(`IndexFunc_spec`), so `post.Votes[voteIndex]` never takes the default. -/
def UpvotePost.inMemory (user : User) (post : Post) (rate : Int) : Post :=
  let newUpvote : Vote := { Author := user, AuthorID := user.ID, Vote := rate }
  let voteIndex := IndexFunc post.Votes (fun vote => vote.Author.ID == user.ID)
  let post1 : Post :=
    if voteIndex != -1 then
      { post with
          Score := wrapInt (post.Score - (post.Votes.getD voteIndex.toNat default).Vote),
          Votes := Delete post.Votes voteIndex (voteIndex + 1) }
    else post
  let post2 : Post :=
    if rate == 1 || rate == -1 then
      { post1 with
          Votes := post1.Votes ++ [newUpvote],
          Score := wrapInt (post1.Score + newUpvote.Vote) }
    else post1
  if post2.Score < 0 || post2.Votes.length == 0 then
    { post2 with UpvotePercentage := 0 }
  else
    { post2 with
        UpvotePercentage := wrapInt (Int.tdiv post2.Score (post2.Votes.length : Int) * 100) }

/-- `PostMongoDBRepository.UpvotePost(user, post, rate)`. -/
def PostMongoDBRepository.UpvotePost (repo : PostMongoDBRepository) (user : User)
    (post : Post) (rate : Int) : UpvoteOutcome :=
  if rate > 1 || rate < -1 then
    { err := some Error.ErrUnrecognizedRate, post := post, repo := repo }
  else
    let post1 := UpvotePost.inMemory user post rate
    let (db, res) := repo.DB.UpdateOne post1.ID
      { votes := post1.Votes, score := post1.Score,
        upvotePercentage := post1.UpvotePercentage }
    match res with
    | none => { err := some Error.ErrUpdatePost, post := post1, repo := { DB := db } }
    | some r =>
      if r.ModifiedCount == 0 then
        { err := some Error.ErrNoPost, post := post1, repo := { DB := db } }
      else
        { err := none, post := post1, repo := { DB := db } }

/-! ## Notions used to state the properties -/

/-- The test `UpvotePost` applies to find the voter's record. -/
def byUser (user : User) : Vote → Bool :=
  fun vote => vote.Author.ID == user.ID

/-- The record `UpvotePost` builds for the voter. -/
def newVote (user : User) (rate : Int) : Vote :=
  { Author := user, AuthorID := user.ID, Vote := rate }

/-- Score once the voter's first record, if any, has been taken out. -/
def scoreWithout (user : User) (post : Post) : Int :=
  match post.Votes.find? (byUser user) with
  | some v => wrapInt (post.Score - v.Vote)
  | none => post.Score

/-- Lines 132-135: the voter's first record is taken out of the post. -/
def withdraw (user : User) (post : Post) : Post :=
  { post with Score := scoreWithout user post, Votes := post.Votes.eraseP (byUser user) }

/-- Lines 137-140: a record is appended for a rate of `1` or `-1`. -/
def record (user : User) (rate : Int) (post : Post) : Post :=
  if rate = 1 ∨ rate = -1 then
    { post with Votes := post.Votes ++ [newVote user rate],
                Score := wrapInt (post.Score + rate) }
  else post

/-- Lines 142-146: the percentage is recomputed. -/
def recompute (post : Post) : Post :=
  if post.Score < 0 ∨ post.Votes.length = 0 then
    { post with UpvotePercentage := 0 }
  else
    { post with
        UpvotePercentage := wrapInt (Int.tdiv post.Score (post.Votes.length : Int) * 100) }

/-- Exact sum of the `Vote` values of a list of records. -/
def exactSum (vs : List Vote) : Int :=
  (vs.map (fun v => v.Vote)).sum

/-- Sum of the `Vote` values as a Go loop `sum += v.Vote` over the slice computes it. -/
def sumVotes (vs : List Vote) : Int :=
  vs.foldl (fun acc v => wrapInt (acc + v.Vote)) 0

/-! ## Sample data -/

def userA : User :=
  { ID := 1, Login := "alex12345", Password := "$2a$10$hash" }

def userB : User :=
  { ID := 2, Login := "bob", Password := "" }

/-- A post as `CreateNewPost` stores it for `userA`. -/
def freshPost : Post :=
  { Score := 1, Views := 1, Type_ := "text", Title := "some title", Author := bsonUser userA,
    Category := "news", Text := "post content", URL := "",
    Votes := [{ Author := bsonUser userA, AuthorID := 1, Vote := 1 }], Comments := [],
    Created := 1641038400, UpvotePercentage := 100, ID := 7 }

/-- A post nobody has voted on. -/
def blankPost : Post :=
  { freshPost with Score := 0, Votes := [], UpvotePercentage := 0 }

/-- A repository whose collection holds `freshPost` and accepts writes. -/
def liveRepo : PostMongoDBRepository :=
  { DB := { docs := [freshPost], failing := false, received := [] } }

/-- The author IDs of the records of a vote list, in order (`vote.Author.ID`,
the key `UpvotePost` compares). -/
def voterIDs (vs : List Vote) : List Int :=
  vs.map (fun v => v.Author.ID)

/-- A post on which `userA` has voted down. -/
def downPost : Post :=
  { freshPost with
      Score := -1,
      Votes := [{ Author := bsonUser userA, AuthorID := 1, Vote := -1 }],
      UpvotePercentage := 0 }

/-- The next call of `UpvotePost`, on the post and repository a call left behind. -/
def UpvoteOutcome.next (o : UpvoteOutcome) (user : User) (rate : Int) : UpvoteOutcome :=
  o.repo.UpvotePost user o.post rate

def userC : User :=
  { ID := 3, Login := "carol", Password := "" }

/-- A post with one vote up and one vote down. -/
def mixedPost : Post :=
  { freshPost with
      Score := 0,
      Votes := [{ Author := bsonUser userA, AuthorID := 1, Vote := 1 },
                { Author := bsonUser userB, AuthorID := 2, Vote := -1 }],
      UpvotePercentage := 0 }

/-- The `$set` document `UpvotePost` sends for a post. -/
def voteSetOf (post : Post) : VoteSet :=
  { votes := post.Votes, score := post.Score, upvotePercentage := post.UpvotePercentage }

/-! ## `strings` and `strconv`

Go strings are Lean `String`s.  The separator of `strings.Split` is the
one-character string `" "` in the source and is passed as a `Char`.
-/

/-- Loop of `strings.Split` on the characters of the string. -/
def splitChars (sep : Char) : List Char → List (List Char)
  | [] => [[]]
  | c :: cs =>
    if c = sep then [] :: splitChars sep cs
    else
      match splitChars sep cs with
      | [] => [[c]]
      | p :: ps => (c :: p) :: ps

/-- `strings.Split(s, sep)` for a one-character separator. -/
def Split (s : String) (sep : Char) : List String :=
  (splitChars sep s.data).map String.mk

/-- Value of a decimal digit, `none` for any other character. -/
def digitValue (c : Char) : Option Nat :=
  if c = '0' then some 0 else if c = '1' then some 1 else if c = '2' then some 2
  else if c = '3' then some 3 else if c = '4' then some 4 else if c = '5' then some 5
  else if c = '6' then some 6 else if c = '7' then some 7 else if c = '8' then some 8
  else if c = '9' then some 9 else none

/-- The decimal digit of a number below ten. -/
def digitChar (d : Nat) : Char :=
  match d with
  | 0 => '0' | 1 => '1' | 2 => '2' | 3 => '3' | 4 => '4'
  | 5 => '5' | 6 => '6' | 7 => '7' | 8 => '8' | _ => '9'

/-- Digit loop of `strconv.ParseUint` in base 10: `none` on a character that is
not a digit. -/
def parseDigits : List Char → Nat → Option Nat
  | [], acc => some acc
  | c :: cs, acc =>
    match digitValue c with
    | none => none
    | some d => parseDigits cs (acc * 10 + d)

/-- `strconv.Atoi(s)`: an optional sign and at least one decimal digit, the
value within the range of `int`; `none` is a non-nil error. -/
def Atoi (s : String) : Option Int :=
  let signed : Bool × List Char :=
    match s.data with
    | '-' :: rest => (true, rest)
    | '+' :: rest => (false, rest)
    | rest => (false, rest)
  if signed.2 = [] then none
  else
    match parseDigits signed.2 0 with
    | none => none
    | some n =>
      let v : Int := if signed.1 then -(n : Int) else (n : Int)
      if isGoInt v then some v else none

/-- Decimal digits of `n`, least significant first; `fuel` bounds the number of digits. -/
def digitsRev : Nat → Nat → List Char
  | 0, _ => []
  | fuel + 1, n =>
    digitChar (n % 10) :: (if n / 10 = 0 then [] else digitsRev fuel (n / 10))

/-- Decimal digits of `n`, most significant first, without leading zeros. -/
def formatNat (n : Nat) : List Char :=
  (digitsRev (n + 1) n).reverse

/-- `strconv.Itoa(i)`. -/
def Itoa (i : Int) : String :=
  if i < 0 then String.mk ('-' :: formatNat (-i).toNat) else String.mk (formatNat i.toNat)

/-! ## `models.Session` and Go `error` values -/

structure Session where
  ID : Int
  JWT : String
  UserID : Int
  ExpiresAt : Time
deriving DecidableEq, Repr

/-- The `error` values the session and user code hands around: the variables of
`models/errors.go`, `redis.ErrNil`, and errors of redigo, `encoding/json` and
the user repository, which carry a message only. -/
inductive GoError where
  | models (e : Error)
  | redisNil
  | redis (message : String)
  | json (message : String)
  | other (message : String)
deriving DecidableEq, Repr

/-- The text passed to `errors.New` in `models/errors.go`. -/
def Error.message : Error → String
  | .ErrNoSession => "cant find such session"
  | .ErrNoUser => "no user found"
  | .ErrWrongCredentials => "wrong login or password"
  | .ErrAlreadyCreated => "already created"
  | .ErrCorruptedCommentID => "bad comment id"
  | .ErrNoComment => "cant find such comment"
  | .ErrDeleteComment => "cant delete comment"
  | .ErrCorruptedPostID => "bad post id"
  | .ErrUnrecognizedRate => "unrecognized rate"
  | .ErrNoPost => "cant find such post"
  | .ErrUpdatePost => "cant update post"
  | .ErrDeletePost => "cant delete post"
  | .ErrIncorrectPostCategory => "incorrect post category"

/-- `err.Error()`. -/
def GoError.message : GoError → String
  | .models e => e.message
  | .redisNil => "redigo: nil returned"
  | .redis m => m
  | .json m => m
  | .other m => m

/-- `time.Time.AddDate(0, 0, days)` on an instant counted in Unix seconds, in a
location whose UTC offset does not change over those days. -/
def AddDate (t : Time) (days : Int) : Time :=
  t + days * 86400

/-! ## JSON Web Tokens

`github.com/dgrijalva/jwt-go` is external to the repository.  A token is
represented by what the library extracts from a well-formed token string: the
signing method named by the header, the claims, and the key under which the
signature segment is the valid signature of header and payload (`none` when
there is no such key, as for a payload changed after signing).  The text
encoding of tokens is a parameter, `TokenCodec`.  `jwtParse` follows
`Parser.ParseWithClaims`: decode, call the key function, validate `exp`, `iat`
and `nbf`, verify the signature.
-/

/-- The Go type of a `jwt.SigningMethod`. -/
inductive MethodKind where
  | SigningMethodHMAC
  | SigningMethodRSA
  | SigningMethodRSAPSS
  | SigningMethodECDSA
  | signingMethodNone
deriving DecidableEq, Repr

structure SigningMethod where
  kind : MethodKind
  Name : String
deriving DecidableEq, Repr

/-- `jwt.SigningMethodHS256`. -/
def SigningMethodHS256 : SigningMethod :=
  { kind := .SigningMethodHMAC, Name := "HS256" }

/-- `method.Alg()`. -/
def SigningMethod.Alg (m : SigningMethod) : String :=
  m.Name

/-- A JSON value inside an object of the claims; what lies deeper is not told apart. -/
inductive FieldValue where
  | null
  | bool (b : Bool)
  | number (n : Int)
  | string (s : String)
  | nested
deriving DecidableEq, Repr

/-- A value of `jwt.MapClaims`, as `encoding/json` decodes it into `interface{}`. -/
inductive ClaimValue where
  | null
  | bool (b : Bool)
  | number (n : Int)
  | string (s : String)
  | array
  | object (fields : List (String × FieldValue))
deriving DecidableEq, Repr

abbrev MapClaims := List (String × ClaimValue)

/-- `jwt.Token`. -/
structure Token where
  Method : SigningMethod
  Claims : MapClaims
  SignedWith : Option String
deriving DecidableEq, Repr

/-- The text encoding of tokens: `encode` is `Token.SignedString`, `decode` is
`Parser.ParseUnverified` together with the signature segment, an error message
standing for a string that is not a token. -/
structure TokenCodec where
  encode : Token → String
  decode : String → Except String Token

/-- `claims[name]` when it is a number. -/
def numberClaim (claims : MapClaims) (name : String) : Option Int :=
  match claims.lookup name with
  | some (.number n) => some n
  | _ => none

/-- `MapClaims.Valid()` at the instant `now`: the message of the validation
error, `none` when the claims are valid.  A claim that is absent, not a number
or 0 is not checked. -/
def claimsValid (claims : MapClaims) (now : Time) : Option String :=
  let expOK : Bool :=
    match numberClaim claims "exp" with
    | some exp => exp == 0 || now ≤ exp
    | none => true
  let iatOK : Bool :=
    match numberClaim claims "iat" with
    | some iat => iat == 0 || now ≥ iat
    | none => true
  let nbfOK : Bool :=
    match numberClaim claims "nbf" with
    | some nbf => nbf == 0 || now ≥ nbf
    | none => true
  let e1 : Option String := if expOK then none else some "Token is expired"
  let e2 : Option String := if iatOK then e1 else some "Token used before issued"
  if nbfOK then e2 else some "Token is not valid yet"

/-- `token.Method.Verify(signingString, signature, key)` for a `[]byte` key:
only the HMAC methods accept such a key. -/
def Token.Verify (token : Token) (key : String) : Bool :=
  token.Method.kind == .SigningMethodHMAC && token.SignedWith == some key

/-- `jwt.Parse(tokenString, keyFunc)` at the instant `now`: the valid token, or
the message of the error. -/
def jwtParse (codec : TokenCodec) (now : Time) (tokenString : String)
    (keyFunc : Token → Except String String) : Except String Token :=
  match codec.decode tokenString with
  | .error msg => .error msg
  | .ok token =>
    match keyFunc token with
    | .error msg => .error msg
    | .ok key =>
      if token.Verify key then
        match claimsValid token.Claims now with
        | some msg => .error msg
        | none => .ok token
      else .error "signature is invalid"

/-! ## The session store

The Redis server behind `redisConn` is external to the repository.  It is
represented by its entries, each with the instant at which it expires, by its
clock, and by whether the connection fails.  `Do` answers `SET key value EX
seconds` with the status `OK`, `GET key` with the value or a nil reply, and
`DEL key` with the number of keys removed.  `redisString`, `redisBytes` and
`redisInt` are redigo's reply helpers.  The process clock read by `Create` is
the clock of the connection.
-/

/-- A byte string held by the store or returned by it: the JSON text of a
session, or any other text. -/
inductive Bytes where
  | text (s : String)
  | sessionJSON (s : Session)
deriving DecidableEq, Repr

inductive Reply where
  | nil
  | status (s : String)
  | integer (n : Int)
  | bulk (b : Bytes)
  | error (message : String)
deriving DecidableEq, Repr

inductive Command where
  | SET (key : String) (value : Bytes) (seconds : Int)
  | GET (key : String)
  | DEL (key : String)
deriving DecidableEq, Repr

structure Entry where
  key : String
  value : Bytes
  expireAt : Time
deriving DecidableEq, Repr

structure RedisConn where
  entries : List Entry
  now : Time
  broken : Bool
deriving DecidableEq, Repr

/-- The entry under `key` that has not expired. -/
def RedisConn.live (c : RedisConn) (key : String) : Option Entry :=
  c.entries.find? (fun e => e.key = key ∧ c.now < e.expireAt)

/-- `redisConn.Do(command...)`: the reply and the error. -/
def RedisConn.Do (c : RedisConn) (cmd : Command) : RedisConn × Reply × Option GoError :=
  if c.broken then (c, .nil, some (.redis "connection failed"))
  else
    match cmd with
    | .SET key value seconds =>
      if seconds ≤ 0 then (c, .error "ERR invalid expire time in 'set' command", none)
      else
        ({ c with entries :=
            { key := key, value := value, expireAt := c.now + seconds } ::
              c.entries.filter (fun e => e.key ≠ key) },
         .status "OK", none)
    | .GET key =>
      match c.live key with
      | some e => (c, .bulk e.value, none)
      | none => (c, .nil, none)
    | .DEL key =>
      match c.live key with
      | some _ => ({ c with entries := c.entries.filter (fun e => e.key ≠ key) }, .integer 1, none)
      | none => ({ c with entries := c.entries.filter (fun e => e.key ≠ key) }, .integer 0, none)

/-- `redis.String(reply, err)`. -/
def redisString (r : Reply × Option GoError) : Bytes × Option GoError :=
  match r with
  | (_, some err) => (.text "", some err)
  | (.bulk b, none) => (b, none)
  | (.status s, none) => (.text s, none)
  | (.nil, none) => (.text "", some .redisNil)
  | (.error m, none) => (.text "", some (.redis m))
  | (.integer _, none) => (.text "", some (.redis "redigo: unexpected type for String, got type int64"))

/-- `redis.Bytes(reply, err)`; `none` is a nil slice. -/
def redisBytes (r : Reply × Option GoError) : Option Bytes × Option GoError :=
  match r with
  | (_, some err) => (none, some err)
  | (.bulk b, none) => (some b, none)
  | (.status s, none) => (some (.text s), none)
  | (.nil, none) => (none, some .redisNil)
  | (.error m, none) => (none, some (.redis m))
  | (.integer _, none) => (none, some (.redis "redigo: unexpected type for Bytes, got type int64"))

/-- `redis.Int(reply, err)`.  For a bulk reply that is not a number in range,
`strconv.ParseInt` names the text in its message and returns the nearest
`int` for a number out of range; the value 0 and a fixed message stand for
both here. -/
def redisInt (r : Reply × Option GoError) : Int × Option GoError :=
  match r with
  | (_, some err) => (0, some err)
  | (.integer n, none) => (n, none)
  | (.bulk (.text s), none) =>
    match Atoi s with
    | some n => (n, none)
    | none => (0, some (.other "strconv.ParseInt: invalid syntax"))
  | (.bulk (.sessionJSON _), none) => (0, some (.other "strconv.ParseInt: invalid syntax"))
  | (.nil, none) => (0, some .redisNil)
  | (.error m, none) => (0, some (.redis m))
  | (.status _, none) => (0, some (.redis "redigo: unexpected type for Int, got type string"))

/-- `json.Unmarshal(data, session)`. -/
def unmarshalSession (data : Bytes) : Except GoError Session :=
  match data with
  | .sessionJSON s => .ok s
  | .text _ => .error (.json "invalid character")

/-! ## `SessionRedisManager` -/

structure SessionRedisManager where
  redisConn : RedisConn
deriving DecidableEq, Repr

/-- The key `"sessions:" + strconv.Itoa(userID)`. -/
def sessionKey (userID : Int) : String :=
  "sessions:" ++ Itoa userID

/-- `SessionRedisManager.Create(JWTToken, userID)`. -/
def SessionRedisManager.Create (sm : SessionRedisManager) (JWTToken : String)
    (userID : Int) : SessionRedisManager × Option GoError :=
  let mkey := sessionKey userID
  let newSession : Session :=
    { ID := 1, JWT := JWTToken, UserID := userID, ExpiresAt := AddDate sm.redisConn.now 4 }
  let dataSerialized := Bytes.sessionJSON newSession
  let (conn, reply) := sm.redisConn.Do (.SET mkey dataSerialized (4 * 24 * 60 * 60))
  let (result, err) := redisString reply
  if err != none || result != .text "OK" then
    ({ redisConn := conn }, err)
  else
    ({ redisConn := conn }, none)

/-- `SessionRedisManager.Check(userID)`. -/
def SessionRedisManager.Check (sm : SessionRedisManager) (userID : Int) :
    SessionRedisManager × Option Session × Option GoError :=
  let mkey := sessionKey userID
  let (conn, reply) := sm.redisConn.Do (.GET mkey)
  match redisBytes reply with
  | (_, some err) =>
    if err == .redisNil then ({ redisConn := conn }, none, some (.models .ErrNoSession))
    else ({ redisConn := conn }, none, some err)
  | (none, none) => ({ redisConn := conn }, none, some (.json "unexpected end of JSON input"))
  | (some data, none) =>
    match unmarshalSession data with
    | .error err => ({ redisConn := conn }, none, some err)
    | .ok session => ({ redisConn := conn }, some session, none)

/-- `SessionRedisManager.Delete(userID)`. -/
def SessionRedisManager.Delete (sm : SessionRedisManager) (userID : Int) :
    SessionRedisManager × Option GoError :=
  let mkey := sessionKey userID
  let (conn, reply) := sm.redisConn.Do (.DEL mkey)
  match redisInt reply with
  | (_, some err) =>
    if err == .redisNil then ({ redisConn := conn }, some (.models .ErrNoSession))
    else ({ redisConn := conn }, some err)
  | (_, none) => ({ redisConn := conn }, none)

/-! ## `middleware.ValidateJWTToken` -/

/-- What the middleware does with the request: it answers through
`tools.JSONError(w, status, message, _)` and returns, or it calls
`next.ServeHTTP` with `UserIDContextKey` set to `userID` in the context, or a
failed type assertion panics. -/
inductive Outcome where
  | rejected (status : Int) (message : String)
  | served (userID : Int)
  | panicked
deriving DecidableEq, Repr

/-- The calls the middleware makes, in order. -/
inductive AuthEvent where
  | parse (tokenString : String)
  | check (userID : Int)
  | next (userID : Int)
deriving DecidableEq, Repr

structure AuthRun where
  outcome : Outcome
  events : List AuthEvent
deriving DecidableEq, Repr

/-- The key function handed to `jwt.Parse` (lines 36-42): the key, or an error message. -/
def keyFunc (tokenKey : String) (token : Token) : Except String String :=
  if token.Method.kind != .SigningMethodHMAC || token.Method.Alg != "HS256" then
    .error "bad sign method"
  else .ok tokenKey

/-- The handler returned by `ValidateJWTToken(repo, next)`, applied to a request
whose `Authorization` header is `authorization` (`""` when absent), `tokenKey`
being `os.Getenv("TOKEN_KEY")` and `now` the clock of the token library.
`token.Claims` is always a `jwt.MapClaims` after `jwt.Parse`, so the branch
`"no payload"` is never taken. -/
def ValidateJWTToken (codec : TokenCodec) (tokenKey : String) (now : Time)
    (repo : SessionRedisManager) (authorization : String) : AuthRun :=
  let tokenString := authorization
  if tokenString == "" then
    { outcome := .rejected 401 "missing token", events := [] }
  else
    match Split tokenString ' ' with
    | [scheme, pureToken] =>
      if scheme != "Bearer" then
        { outcome := .rejected 401 "bad token format", events := [] }
      else
        match jwtParse codec now pureToken (keyFunc tokenKey) with
        | .error msg =>
          { outcome := .rejected 401 (msg ++ " | bad token"), events := [.parse pureToken] }
        | .ok token =>
          match token.Claims.lookup "user" with
          | some (.object claimsUser) =>
            match claimsUser.lookup "id" with
            | some (.string userIDString) =>
              match Atoi userIDString with
              | none =>
                { outcome := .rejected 500 "type cast error", events := [.parse pureToken] }
              | some userID =>
                match (repo.Check userID).2.2 with
                | some _ =>
                  { outcome := .rejected 401 "no session",
                    events := [.parse pureToken, .check userID] }
                | none =>
                  { outcome := .served userID,
                    events := [.parse pureToken, .check userID, .next userID] }
            | _ => { outcome := .panicked, events := [.parse pureToken] }
          | _ => { outcome := .panicked, events := [.parse pureToken] }
    | _ => { outcome := .rejected 401 "bad token format", events := [] }

/-! ## `UserHandler` -/

structure AuthForm where
  Login : String
  Password : String
deriving DecidableEq, Repr

/-- The request body as the handlers see it: `io.ReadAll` fails, `json.Unmarshal`
fails, or the form is decoded. -/
inductive Body where
  | readError (message : String)
  | malformed
  | form (authForm : AuthForm)
deriving DecidableEq, Repr

/-- The `http.ResponseWriter`: the error its `Write` returns, if any. -/
structure ResponseWriter where
  writeErr : Option String
deriving DecidableEq, Repr

/-- An answer written to `w`: the body `{"token": tokenString}` under the status
200, or a call of `tools.JSONError(w, status, message, _)`. -/
inductive Response where
  | token (tokenString : String)
  | error (status : Int) (message : String)
deriving DecidableEq, Repr

/-- The status code of a response. -/
def Response.status : Response → Int
  | .token _ => 200
  | .error status _ => status

/-- The interface `UserRepo`. -/
structure UserRepo where
  GetUserFromRepo : String → String → Except GoError User
  CreateUser : String → String → Except GoError User
  GetUserByID : Int → Except GoError User

/-- The interface `SessionManager`, over the state `σ` of its implementation. -/
structure SessionManager (σ : Type) where
  Create : σ → String → Int → σ × Option GoError
  Check : σ → Int → σ × Option Session × Option GoError
  Delete : σ → Int → σ × Option GoError

/-- `SessionRedisManager` as a `SessionManager`. -/
def redisSessions : SessionManager SessionRedisManager :=
  { Create := SessionRedisManager.Create,
    Check := SessionRedisManager.Check,
    Delete := SessionRedisManager.Delete }

structure UserHandler (σ : Type) where
  UserRepo : UserRepo
  SessionRepo : SessionManager σ

/-- The calls a handler makes on its repositories, in order. -/
inductive RepoCall where
  | CreateUser (login password : String)
  | GetUserFromRepo (login password : String)
  | Check (userID : Int)
  | Create (JWTToken : String) (userID : Int)
deriving DecidableEq, Repr

/-- What a handler leaves behind: the answers it wrote to `w`, in order, the
calls it made, and the state of the session repository. -/
structure HandlerRun (σ : Type) where
  writes : List Response
  calls : List RepoCall
  sessions : σ

/-- The token `createUserJWT` builds before signing; `iatNow` and `expNow` are
the two readings of `time.Now()`. -/
def userToken (tokenKey : String) (iatNow expNow : Time) (user : User) : Token :=
  { Method := SigningMethodHS256,
    Claims :=
      [("user", .object [("username", .string user.Login), ("id", .string (Itoa user.ID))]),
       ("iat", .number iatNow),
       ("exp", .number (AddDate expNow 4))],
    SignedWith := some tokenKey }

/-- `createUserJWT(user)`; signing with a `[]byte` key returns no error. -/
def createUserJWT (codec : TokenCodec) (tokenKey : String) (iatNow expNow : Time)
    (user : User) : String × Option GoError :=
  (codec.encode (userToken tokenKey iatNow expNow user), none)

/-- Lines 62-74 of `Signup` and 130-142 of `Login`: the token is written, and
`tools.JSONError` is called when `w.Write` returns an error. -/
def writeToken (w : ResponseWriter) (tokenString : String) : List Response :=
  match w.writeErr with
  | some msg => [.token tokenString, .error 500 msg]
  | none => [.token tokenString]

/-- `UserHandler.Signup(w, r)`. -/
def UserHandler.Signup {σ : Type} (h : UserHandler σ) (codec : TokenCodec) (tokenKey : String)
    (iatNow expNow : Time) (w : ResponseWriter) (sessions : σ) (body : Body) :
    HandlerRun σ :=
  match body with
  | .readError msg => { writes := [.error 500 msg], calls := [], sessions := sessions }
  | .malformed => { writes := [.error 401 "bad login or pass"], calls := [], sessions := sessions }
  | .form authForm =>
    match h.UserRepo.CreateUser authForm.Login authForm.Password with
    | .error err =>
      { writes := [.error 401 ("couldnt create user:" ++ err.message)],
        calls := [.CreateUser authForm.Login authForm.Password], sessions := sessions }
    | .ok user =>
      match createUserJWT codec tokenKey iatNow expNow user with
      | (_, some err) =>
        { writes := [.error 500 err.message],
          calls := [.CreateUser authForm.Login authForm.Password], sessions := sessions }
      | (tokenString, none) =>
        match h.SessionRepo.Create sessions tokenString user.ID with
        | (sessions1, some err) =>
          { writes := [.error 500 err.message],
            calls := [.CreateUser authForm.Login authForm.Password,
                      .Create tokenString user.ID],
            sessions := sessions1 }
        | (sessions1, none) =>
          { writes := writeToken w tokenString,
            calls := [.CreateUser authForm.Login authForm.Password,
                      .Create tokenString user.ID],
            sessions := sessions1 }

/-- `UserHandler.Login(w, r)`. -/
def UserHandler.Login {σ : Type} (h : UserHandler σ) (codec : TokenCodec) (tokenKey : String)
    (iatNow expNow : Time) (w : ResponseWriter) (sessions : σ) (body : Body) :
    HandlerRun σ :=
  match body with
  | .readError msg => { writes := [.error 500 msg], calls := [], sessions := sessions }
  | .malformed => { writes := [.error 400 "cant unpack payload"], calls := [], sessions := sessions }
  | .form authForm =>
    match h.UserRepo.GetUserFromRepo authForm.Login authForm.Password with
    | .error err =>
      { writes := [.error 400 err.message],
        calls := [.GetUserFromRepo authForm.Login authForm.Password], sessions := sessions }
    | .ok user =>
      match createUserJWT codec tokenKey iatNow expNow user with
      | (_, some err) =>
        { writes := [.error 500 err.message],
          calls := [.GetUserFromRepo authForm.Login authForm.Password], sessions := sessions }
      | (tokenString, none) =>
        match h.SessionRepo.Check sessions user.ID with
        | (sessions1, _, err) =>
          if err = some (.models .ErrNoSession) then
            match h.SessionRepo.Create sessions1 tokenString user.ID with
            | (sessions2, some _) =>
              { writes := [.error 500 Error.ErrNoSession.message],
                calls := [.GetUserFromRepo authForm.Login authForm.Password,
                          .Check user.ID, .Create tokenString user.ID],
                sessions := sessions2 }
            | (sessions2, none) =>
              { writes := writeToken w tokenString,
                calls := [.GetUserFromRepo authForm.Login authForm.Password,
                          .Check user.ID, .Create tokenString user.ID],
                sessions := sessions2 }
          else
            match err with
            | some e =>
              { writes := [.error 500 e.message],
                calls := [.GetUserFromRepo authForm.Login authForm.Password, .Check user.ID],
                sessions := sessions1 }
            | none =>
              { writes := writeToken w tokenString,
                calls := [.GetUserFromRepo authForm.Login authForm.Password, .Check user.ID],
                sessions := sessions1 }

/-! ## Notions and sample data for sessions and tokens -/

/-- The session store `seconds` later. -/
def SessionRedisManager.later (sm : SessionRedisManager) (seconds : Int) : SessionRedisManager :=
  { redisConn := { sm.redisConn with now := sm.redisConn.now + seconds } }

/-- The entry `Create` writes. -/
def createdEntry (sm : SessionRedisManager) (JWTToken : String) (userID : Int) : Entry :=
  { key := sessionKey userID,
    value := .sessionJSON
      { ID := 1, JWT := JWTToken, UserID := userID, ExpiresAt := AddDate sm.redisConn.now 4 },
    expireAt := sm.redisConn.now + 345600 }

/-- The header value is `Bearer`, one space, and a token without a space (the
token may be empty). -/
def isBearerForm (authorization : String) : Prop :=
  ∃ token : String, ' ' ∉ token.data ∧ authorization = "Bearer " ++ token

/-- The header value is exactly `Bearer`, one space, and a token: a string that
is not empty and holds no space. -/
def isBearerToken (authorization : String) : Prop :=
  ∃ token : String, token ≠ "" ∧ ' ' ∉ token.data ∧ authorization = "Bearer " ++ token

/-- A header value as a request read by `net/http` carries it: the server trims
the spaces around the value of a header line, so the value does not end with a
space. -/
def isFieldValue (authorization : String) : Prop :=
  authorization.data.getLast? ≠ some ' '

/-- The token `createUserJWT` issues for `userA` at the instant 1700000000 under the key `secret`. -/
def sampleToken : Token :=
  userToken "secret" 1700000000 1700000000 userA

/-- The same token with the method `none` and no signature. -/
def unsignedToken : Token :=
  { sampleToken with
      Method := { kind := .signingMethodNone, Name := "none" }, SignedWith := none }

/-- A signed token whose `user.id` is not a number. -/
def badIDToken : Token :=
  { sampleToken with
      Claims := [("user", .object [("username", .string "alex12345"), ("id", .string "abc")]),
                 ("iat", .number 1700000000), ("exp", .number 1700345600)] }

/-- A signed token without a `user` claim. -/
def noUserToken : Token :=
  { sampleToken with
      Claims := [("iat", .number 1700000000), ("exp", .number 1700345600)] }

/-- A codec that knows four token strings. -/
def sampleCodec : TokenCodec :=
  { encode := fun t =>
      if t = sampleToken then "hhh.ppp.sss"
      else if t = unsignedToken then "hhh.ppp."
      else if t = badIDToken then "hhh.bad.sss"
      else "hhh.nouser.sss",
    decode := fun s =>
      if s = "hhh.ppp.sss" then .ok sampleToken
      else if s = "hhh.ppp." then .ok unsignedToken
      else if s = "hhh.bad.sss" then .ok badIDToken
      else if s = "hhh.nouser.sss" then .ok noUserToken
      else .error "token contains an invalid number of segments" }

/-- A session store without entries. -/
def emptySessions : SessionRedisManager :=
  { redisConn := { entries := [], now := 1700000000, broken := false } }

/-- A user repository that knows `alex12345`. -/
def sampleUsers : UserRepo :=
  { GetUserFromRepo := fun login pass =>
      if login = "alex12345" ∧ pass = "alex12345" then .ok userA
      else .error (.models .ErrNoUser),
    CreateUser := fun login pass =>
      if login = "alex12345" then .error (.models .ErrAlreadyCreated)
      else .ok { ID := 2, Login := login, Password := pass },
    GetUserByID := fun userID =>
      if userID = 1 then .ok userA else .error (.models .ErrNoUser) }

/-- The user handler over the Redis session store. -/
def sampleHandler : UserHandler SessionRedisManager :=
  { UserRepo := sampleUsers, SessionRepo := redisSessions }

/-! ## Notions and sample data for the frame of `UpvotePost` and the session keys -/

/-- The post with its three vote fields blanked: two posts have the same frame
when they agree on every field other than `Score`, `Votes` and `UpvotePercentage`. -/
def Post.frame (p : Post) : Post :=
  { p with Score := 0, Votes := [], UpvotePercentage := 0 }

/-- A repository whose collection holds `freshPost` and answers writes with an error. -/
def failingRepo : PostMongoDBRepository :=
  { DB := { docs := [freshPost], failing := true, received := [] } }

/-- A repository whose collection is empty and accepts writes. -/
def emptyRepo : PostMongoDBRepository :=
  { DB := { docs := [], failing := false, received := [] } }

/-- A working store that holds, for user 1, a session with another token. -/
def otherTokenSessions : SessionRedisManager :=
  (emptySessions.Create "another.token.string" 1).1

/-! ## `GetAllPosts` and `CreateNewPost`

`Find` and `InsertOne` of the collection follow the driver's contract: `Find`
returns the documents that carry, under every key of the filter, the value of
the filter (all documents for the empty filter); `InsertOne` stores the
document unless the collection answers with an error or already holds a
document with the same `_id`.
-/

/-- The map `validPostCategories`. -/
def validPostCategories : List (String × Bool) :=
  [("music", true), ("funny", true), ("videos", true), ("programming", true),
   ("news", true), ("fashion", true)]

/-- A `bson.M` filter with string values. -/
abbrev Filter := List (String × String)

/-- The value a stored post carries under a key of a filter. -/
def Post.field (d : Post) (key : String) : Option String :=
  if key = "category" then some d.Category
  else if key = "author.username" then some d.Author.Login
  else none

/-- Whether a stored post matches a filter. -/
def matchesFilter (filter : Filter) (d : Post) : Bool :=
  filter.all (fun kv => d.field kv.1 == some kv.2)

/-- `Collection.Find(ctx, filter)` followed by `cursor.All`. -/
def Collection.Find (c : Collection) (filter : Filter) : Except GoError (List Post) :=
  if c.failing then .error (.other "find failed")
  else .ok (c.docs.filter (matchesFilter filter))

/-- `Collection.InsertOne(ctx, doc)`. -/
def Collection.InsertOne (c : Collection) (doc : Post) : Collection × Option GoError :=
  if c.failing then (c, some (.other "insert failed"))
  else if c.docs.any (fun d => d.ID = doc.ID) then
    (c, some (.other "E11000 duplicate key error"))
  else ({ c with docs := c.docs ++ [doc] }, none)

/-- What `GetAllPosts` returns (`none` is a nil slice), and the filters it
queried the collection with. -/
structure GetAllPostsOutcome where
  posts : Option (List Post)
  err : Option GoError
  queries : List Filter
deriving DecidableEq, Repr

/-- Lines 46-56 of `GetAllPosts`: the query with the filter built. -/
def GetAllPosts.query (repo : PostMongoDBRepository) (filter : Filter) : GetAllPostsOutcome :=
  match repo.DB.Find filter with
  | .error err => { posts := none, err := some err, queries := [filter] }
  | .ok posts => { posts := some posts, err := none, queries := [filter] }

/-- `PostMongoDBRepository.GetAllPosts(category, username)`. -/
def PostMongoDBRepository.GetAllPosts (repo : PostMongoDBRepository)
    (category username : String) : GetAllPostsOutcome :=
  if category != "" then
    if (validPostCategories.lookup category).isNone then
      { posts := none, err := some (.models .ErrIncorrectPostCategory), queries := [] }
    else GetAllPosts.query repo [("category", category)]
  else if username != "" then GetAllPosts.query repo [("author.username", username)]
  else GetAllPosts.query repo []

/-- What `CreateNewPost` leaves behind: the returned post, the error, and the repository. -/
structure CreateOutcome where
  post : Option Post
  err : Option GoError
  repo : PostMongoDBRepository
deriving DecidableEq, Repr

/-- `PostMongoDBRepository.CreateNewPost(category, title, postType, url, text,
user)`; `newID` is the value of `primitive.NewObjectID()` and `now` the value
of `time.Now()`.  The post is the document as BSON carries it: `Password` is
not encoded.  Marshalling and unmarshalling this document return no error. -/
def PostMongoDBRepository.CreateNewPost (repo : PostMongoDBRepository)
    (category title postType url text : String) (user : User) (newID : ObjectID)
    (now : Time) : CreateOutcome :=
  let newPost : Post :=
    { ID := newID, Score := 1, Views := 1, Type_ := postType, Title := title,
      Author := bsonUser user, Category := category, Text := text, URL := url,
      Created := now, UpvotePercentage := 100,
      Votes := [bsonVote { Author := user, AuthorID := user.ID, Vote := 1 }],
      Comments := [] }
  match repo.DB.InsertOne newPost with
  | (db, some err) => { post := none, err := some err, repo := { DB := db } }
  | (db, none) => { post := some newPost, err := none, repo := { DB := db } }

/-! ## `PostHandler.Delete` -/

/-- The methods of the interface `PostRepo` that `PostHandler.Delete` calls,
over the state `π` of the implementation. -/
structure PostRepo (π : Type) where
  GetPostByID : π → String → π × Except GoError Post
  DeletePost : π → Post → π × Option GoError

/-- The method of the interface `CommentRepo` that `PostHandler.Delete` calls,
over the state `κ` of the implementation. -/
structure CommentRepo (κ : Type) where
  DeleteComment : κ → Comment → κ × Option GoError

structure PostHandler (π κ : Type) where
  CommentRepo : CommentRepo κ
  PostRepo : PostRepo π
  UserRepo : UserRepo

/-- The calls `PostHandler.Delete` makes on its repositories. -/
inductive PostCall where
  | GetPostByID (postID : String)
  | DeleteComment (comment : Comment)
  | DeletePost (post : Post)
deriving DecidableEq, Repr

/-- An answer `PostHandler.Delete` writes to `w`: the body `{"message":
"success"}` under the status 200, or a call of `tools.JSONError(w, status,
message, _)`. -/
inductive PostAnswer where
  | success
  | error (status : Int) (message : String)
deriving DecidableEq, Repr

/-- What `PostHandler.Delete` leaves behind: the answers written, the calls
made, and the states of the two repositories. -/
structure DeleteRun (π κ : Type) where
  writes : List PostAnswer
  calls : List PostCall
  posts : π
  comments : κ

/-- The loop of lines 126-132: the comments are deleted in order until a call
fails; the flag tells whether one failed. -/
def deleteComments {κ : Type} (repo : CommentRepo κ) : κ → List Comment → κ × List PostCall × Bool
  | comments, [] => (comments, [], false)
  | comments, comment :: rest =>
    match repo.DeleteComment comments comment with
    | (comments1, some _) => (comments1, [.DeleteComment comment], true)
    | (comments1, none) =>
      match deleteComments repo comments1 rest with
      | (comments2, calls, failed) => (comments2, .DeleteComment comment :: calls, failed)

/-- `PostHandler.Delete(w, r)`; `postID` is `mux.Vars(r)["postID"]` and
`ctxUserID` the `int` under `UserIDContextKey` in the context of the request,
`none` when there is none. -/
def PostHandler.Delete {π κ : Type} (h : PostHandler π κ) (w : ResponseWriter) (posts : π)
    (comments : κ) (postID : String) (ctxUserID : Option Int) : DeleteRun π κ :=
  match h.PostRepo.GetPostByID posts postID with
  | (posts1, .error err) =>
    { writes := [.error 500 err.message], calls := [.GetPostByID postID],
      posts := posts1, comments := comments }
  | (posts1, .ok post) =>
    match ctxUserID with
    | none =>
      { writes := [.error 401 "you should authorize first"], calls := [.GetPostByID postID],
        posts := posts1, comments := comments }
    | some userID =>
      if userID != post.Author.ID then
        { writes := [.error 403 "you are not allowed to delete this post"],
          calls := [.GetPostByID postID], posts := posts1, comments := comments }
      else
        match deleteComments h.CommentRepo comments post.Comments with
        | (comments1, calls, true) =>
          { writes := [.error 500 "cant delete post comment"],
            calls := .GetPostByID postID :: calls, posts := posts1, comments := comments1 }
        | (comments1, calls, false) =>
          match h.PostRepo.DeletePost posts1 post with
          | (posts2, some _) =>
            { writes := [.error 403 "cant delete such post"],
              calls := .GetPostByID postID :: (calls ++ [.DeletePost post]),
              posts := posts2, comments := comments1 }
          | (posts2, none) =>
            { writes :=
                (match w.writeErr with
                 | some msg => [.success, .error 500 msg]
                 | none => [.success]),
              calls := .GetPostByID postID :: (calls ++ [.DeletePost post]),
              posts := posts2, comments := comments1 }

/-! ## `GetPostByID` and the stored votes -/

/-- The function `fromHexChar` of `encoding/hex`: the value of a hexadecimal
digit, `none` for any other character. -/
def hexValue (c : Char) : Option Nat :=
  let n := c.toNat
  if 48 ≤ n ∧ n ≤ 57 then some (n - 48)
  else if 97 ≤ n ∧ n ≤ 102 then some (n - 87)
  else if 65 ≤ n ∧ n ≤ 70 then some (n - 55)
  else none

/-- The number written by a list of hexadecimal digits, after `acc`. -/
def parseHex : List Char → Nat → Option Nat
  | [], acc => some acc
  | c :: cs, acc =>
    match hexValue c with
    | some v => parseHex cs (acc * 16 + v)
    | none => none

/-- `primitive.ObjectIDFromHex(s)`: the twelve bytes written by 24 hexadecimal
digits, `none` for a non-nil `err`.  A string of 24 bytes that decodes has 24
characters, and a string with a character of more than one byte does not
decode, so the length is counted in characters. -/
def ObjectIDFromHex (s : String) : Option ObjectID :=
  if s.length != 24 then none else parseHex s.data 0

/-- `PostMongoDBRepository.GetPostByID(id)`; `FindOne` reads the collection
and leaves it as it is. -/
def PostMongoDBRepository.GetPostByID (repo : PostMongoDBRepository) (id : String) :
    Except GoError Post :=
  match ObjectIDFromHex id with
  | none => .error (.models .ErrCorruptedPostID)
  | some primitiveID =>
    if repo.DB.failing then .error (.other "find failed")
    else
      match repo.DB.docs.find? (fun d => d.ID = primitiveID) with
      | none => .error (.models .ErrNoPost)
      | some post => .ok post

/-- The document stored under an `_id`. -/
def PostMongoDBRepository.stored (repo : PostMongoDBRepository) (id : ObjectID) : Option Post :=
  repo.DB.docs.find? (fun d => d.ID = id)

/-- The voters of the post stored under an `_id`. -/
def PostMongoDBRepository.storedVoters (repo : PostMongoDBRepository) (id : ObjectID) :
    List Int :=
  match repo.stored id with
  | some d => voterIDs d.Votes
  | none => []

/-- A second post, by `userB`, nobody has voted on. -/
def secondPost : Post :=
  { blankPost with ID := 8, Author := userB, Title := "another title" }

/-- A repository whose collection holds two posts and accepts writes. -/
def twoPostRepo : PostMongoDBRepository :=
  { DB := { docs := [freshPost, secondPost], failing := false, received := [] } }

/-- The post `freshPost` as stored once `userB` has voted it up. -/
def votedPost : Post :=
  { freshPost with
      Score := 2,
      Votes := [{ Author := bsonUser userA, AuthorID := 1, Vote := 1 },
                { Author := bsonUser userB, AuthorID := 2, Vote := 1 }],
      UpvotePercentage := 100 }

/-! ## The MongoDB repositories behind `PostHandler.Delete` -/

/-- `Collection.DeleteOne(ctx, {"_id": id})`: the first document under the
`_id` is removed; the count is `DeletedCount`, `none` a non-nil `err`. -/
def Collection.DeleteOne (c : Collection) (id : ObjectID) : Collection × Option Int :=
  if c.failing then (c, none)
  else
    match c.docs.find? (fun d => d.ID = id) with
    | none => (c, some 0)
    | some _ => ({ c with docs := c.docs.eraseP (fun d => d.ID = id) }, some 1)

/-- `PostMongoDBRepository.DeletePost(post)`. -/
def PostMongoDBRepository.DeletePost (repo : PostMongoDBRepository) (post : Post) :
    PostMongoDBRepository × Option Error :=
  match repo.DB.DeleteOne post.ID with
  | (db, none) => ({ DB := db }, some .ErrDeletePost)
  | (db, some DeletedCount) =>
    if DeletedCount == 0 then ({ DB := db }, some .ErrNoPost) else ({ DB := db }, none)

/-- The comments collection: the documents it holds and whether the deployment
answers with an error. -/
structure CommentCollection where
  docs : List Comment
  failing : Bool
deriving DecidableEq, Repr

/-- `Collection.DeleteOne(ctx, {"_id": id})` on the comments collection. -/
def CommentCollection.DeleteOne (c : CommentCollection) (id : ObjectID) :
    CommentCollection × Option Int :=
  if c.failing then (c, none)
  else
    match c.docs.find? (fun d => d.ID = id) with
    | none => (c, some 0)
    | some _ => ({ c with docs := c.docs.eraseP (fun d => d.ID = id) }, some 1)

structure CommentMongoDBRepository where
  DB : CommentCollection
deriving DecidableEq, Repr

/-- `CommentMongoDBRepository.DeleteComment(comment)`. -/
def CommentMongoDBRepository.DeleteComment (repo : CommentMongoDBRepository)
    (comment : Comment) : CommentMongoDBRepository × Option Error :=
  match repo.DB.DeleteOne comment.ID with
  | (db, none) => ({ DB := db }, some .ErrDeleteComment)
  | (db, some DeletedCount) =>
    if DeletedCount == 0 then ({ DB := db }, some .ErrNoComment) else ({ DB := db }, none)

/-- `PostMongoDBRepository` as a `PostRepo`. -/
def mongoPosts : PostRepo PostMongoDBRepository :=
  { GetPostByID := fun repo id => (repo, repo.GetPostByID id),
    DeletePost := fun repo post =>
      ((repo.DeletePost post).1, (repo.DeletePost post).2.map GoError.models) }

/-- `CommentMongoDBRepository` as a `CommentRepo`. -/
def mongoComments : CommentRepo CommentMongoDBRepository :=
  { DeleteComment := fun repo comment =>
      ((repo.DeleteComment comment).1, (repo.DeleteComment comment).2.map GoError.models) }

/-- The post handler over the MongoDB repositories. -/
def mongoPostHandler : PostHandler PostMongoDBRepository CommentMongoDBRepository :=
  { CommentRepo := mongoComments, PostRepo := mongoPosts, UserRepo := sampleUsers }

/-- A comment of `userB`. -/
def sampleComment : Comment :=
  { Created := 1641038500, Author := some userB, Text := "first", ID := 21 }

/-- The post `freshPost` with one comment. -/
def commentedPost : Post :=
  { freshPost with Comments := [sampleComment] }

/-- A repository whose collection holds the commented post and a second post. -/
def commentedRepo : PostMongoDBRepository :=
  { DB := { docs := [commentedPost, secondPost], failing := false, received := [] } }

/-- A comment repository whose collection holds the comment. -/
def commentStore : CommentMongoDBRepository :=
  { DB := { docs := [sampleComment], failing := false } }

/-! ## Lemmas on the `slices` functions -/

theorem indexFuncFrom_spec {α : Type} (f : α → Bool) (s : List α) (i : Int) :
    (s.find? f = none ∧ indexFuncFrom f s i = -1) ∨
    (∃ (n : Nat) (v : α), s.find? f = some v ∧ indexFuncFrom f s i = i + n ∧
      s[n]? = some v ∧ s.take n ++ s.drop (n + 1) = s.eraseP f) := by
  induction s generalizing i with
  | nil => left; simp [indexFuncFrom]
  | cons x xs ih =>
    by_cases hx : f x = true
    · right
      refine ⟨0, x, ?_, ?_, ?_, ?_⟩ <;> simp [indexFuncFrom, hx]
    · have hx2 : f x = false := by simpa using hx
      rcases ih (i + 1) with ⟨h1, h2⟩ | ⟨n, v, h1, h2, h3, h4⟩
      · left
        simp [indexFuncFrom, hx2, h1, h2]
      · right
        refine ⟨n + 1, v, ?_, ?_, ?_, ?_⟩
        · simp [hx2, h1]
        · simp [indexFuncFrom, hx2, h2]; ring
        · simpa using h3
        · simp [hx2, h4]

/-- What `slices.IndexFunc` followed by `slices.Delete` computes. -/
theorem IndexFunc_spec {α : Type} (f : α → Bool) (s : List α) (d : α) :
    (s.find? f = none ∧ IndexFunc s f = -1) ∨
    (∃ v : α, s.find? f = some v ∧ IndexFunc s f ≠ -1 ∧
      s.getD (IndexFunc s f).toNat d = v ∧
      Delete s (IndexFunc s f) (IndexFunc s f + 1) = s.eraseP f) := by
  rcases indexFuncFrom_spec f s 0 with ⟨h1, h2⟩ | ⟨n, v, h1, h2, h3, h4⟩
  · left; exact ⟨h1, h2⟩
  · right
    have hidx : IndexFunc s f = (n : Int) := by simp [IndexFunc, h2]
    refine ⟨v, h1, ?_, ?_, ?_⟩
    · rw [hidx]; omega
    · rw [hidx]; simp [List.getD, h3]
    · rw [hidx]
      have : ((n : Int) + 1).toNat = n + 1 := by omega
      simp [Delete, this, h4]

/-! ## The in-memory update, field by field -/

theorem inMemory_eq (user : User) (post : Post) (rate : Int) :
    UpvotePost.inMemory user post rate = recompute (record user rate (withdraw user post)) := by
  have key := IndexFunc_spec (fun vote : Vote => vote.Author.ID == user.ID) post.Votes default
  have hrec : ∀ p : Post,
      (if (rate == 1 || rate == -1) = true then
        { p with Votes := p.Votes ++ [{ Author := user, AuthorID := user.ID, Vote := rate }],
                 Score := wrapInt (p.Score + rate) }
       else p) = record user rate p := by
    intro p
    simp [record, newVote]
  have hfin : ∀ p : Post,
      (if (decide (p.Score < 0) || p.Votes.length == 0) = true then
        { p with UpvotePercentage := 0 }
       else
        { p with
            UpvotePercentage := wrapInt (Int.tdiv p.Score (p.Votes.length : Int) * 100) }) =
        recompute p := by
    intro p
    simp [recompute]
  rcases key with ⟨h1, h2⟩ | ⟨v, h1, h2, h3, h4⟩
  · have hw : withdraw user post = post := by
      have h5 : post.Votes.eraseP (byUser user) = post.Votes := by
        rw [List.eraseP_of_forall_not]
        intro a ha
        have := List.find?_eq_none.mp h1 a ha
        simpa [byUser] using this
      have h6 : scoreWithout user post = post.Score := by
        unfold scoreWithout byUser
        rw [h1]
      simp [withdraw, h5, h6]
    rw [hw]
    unfold UpvotePost.inMemory
    simp only [h2, bne_self_eq_false, Bool.false_eq_true, if_false]
    rw [← hfin, ← hrec]
  · have hw : withdraw user post =
        { post with Score := wrapInt (post.Score - v.Vote),
                    Votes := post.Votes.eraseP (fun vote : Vote => vote.Author.ID == user.ID) } := by
      have h6 : scoreWithout user post = wrapInt (post.Score - v.Vote) := by
        unfold scoreWithout byUser
        rw [h1]
      simp only [withdraw, h6]
      rfl
    rw [hw]
    have hb : (IndexFunc post.Votes (fun vote : Vote => vote.Author.ID == user.ID) != -1) = true := by
      simpa using h2
    unfold UpvotePost.inMemory
    simp only [hb, if_true, h3, h4]
    rw [← hfin, ← hrec]

theorem inMemory_Votes (user : User) (post : Post) (rate : Int) :
    (UpvotePost.inMemory user post rate).Votes =
      post.Votes.eraseP (byUser user) ++
        (if rate = 1 ∨ rate = -1 then [newVote user rate] else []) := by
  rw [inMemory_eq]
  unfold recompute record withdraw
  split <;> split <;> simp

theorem inMemory_Score (user : User) (post : Post) (rate : Int) :
    (UpvotePost.inMemory user post rate).Score =
      if rate = 1 ∨ rate = -1 then wrapInt (scoreWithout user post + rate)
      else scoreWithout user post := by
  rw [inMemory_eq]
  unfold recompute record withdraw
  split <;> split <;> simp

theorem inMemory_UpvotePercentage (user : User) (post : Post) (rate : Int) :
    (UpvotePost.inMemory user post rate).UpvotePercentage =
      if (UpvotePost.inMemory user post rate).Score < 0 ∨
          (UpvotePost.inMemory user post rate).Votes.length = 0 then 0
      else wrapInt (Int.tdiv (UpvotePost.inMemory user post rate).Score
        ((UpvotePost.inMemory user post rate).Votes.length : Int) * 100) := by
  rw [inMemory_eq]
  generalize record user rate (withdraw user post) = p
  unfold recompute
  split <;> simp_all

/-! ## Arithmetic of Go `int` -/

theorem wrapInt_isGoInt (x : Int) : isGoInt (wrapInt x) := by
  unfold isGoInt wrapInt
  omega

theorem wrapInt_of_isGoInt {x : Int} (h : isGoInt x) : wrapInt x = x := by
  unfold isGoInt at h
  unfold wrapInt
  omega

theorem wrapInt_wrapInt (x : Int) : wrapInt (wrapInt x) = wrapInt x :=
  wrapInt_of_isGoInt (wrapInt_isGoInt x)

theorem wrapInt_add_left (a b : Int) : wrapInt (wrapInt a + b) = wrapInt (a + b) := by
  unfold wrapInt
  omega

theorem wrapInt_sub_left (a b : Int) : wrapInt (wrapInt a - b) = wrapInt (a - b) := by
  unfold wrapInt
  omega

/-! ## Sums of votes -/

theorem foldl_wrap (vs : List Vote) (a : Int) :
    vs.foldl (fun acc v => wrapInt (acc + v.Vote)) (wrapInt a) = wrapInt (a + exactSum vs) := by
  induction vs generalizing a with
  | nil => simp [exactSum]
  | cons v vs ih =>
    simp only [List.foldl_cons, wrapInt_add_left, ih]
    simp [exactSum, add_assoc]

theorem sumVotes_eq (vs : List Vote) : sumVotes vs = wrapInt (exactSum vs) := by
  have h := foldl_wrap vs 0
  have h0 : wrapInt 0 = 0 := by decide
  rw [h0] at h
  simpa [sumVotes] using h

theorem exactSum_append (xs ys : List Vote) : exactSum (xs ++ ys) = exactSum xs + exactSum ys := by
  simp [exactSum]

theorem exactSum_eraseP (f : Vote → Bool) (vs : List Vote) :
    exactSum (vs.eraseP f) =
      exactSum vs - (match vs.find? f with | some v => v.Vote | none => 0) := by
  induction vs with
  | nil => simp [exactSum]
  | cons x xs ih =>
    by_cases hx : f x = true
    · simp [List.eraseP_cons, hx, exactSum]
    · have hx2 : f x = false := by simpa using hx
      simp only [List.eraseP_cons, hx2, List.find?_cons]
      simp only [exactSum, List.map_cons, List.sum_cons] at ih ⊢
      simp only [cond_false, Bool.false_eq_true, if_false, List.map_cons, List.sum_cons]
      rw [ih]
      ring

/-- With `Score` the Go sum of the votes, the score left by `withdraw` is the
Go sum of the remaining votes. -/
theorem scoreWithout_sum (user : User) (post : Post)
    (h : post.Score = wrapInt (exactSum post.Votes)) :
    scoreWithout user post = wrapInt (exactSum (post.Votes.eraseP (byUser user))) := by
  rw [exactSum_eraseP]
  unfold scoreWithout
  cases post.Votes.find? (byUser user) with
  | none => simp [h]
  | some v => simp only [h, wrapInt_sub_left]

/-! ## `UpvotePost` and its in-memory update -/

theorem UpvotePost_post (repo : PostMongoDBRepository) (user : User) (post : Post)
    (rate : Int) (h : rate = -1 ∨ rate = 0 ∨ rate = 1) :
    (repo.UpvotePost user post rate).post = UpvotePost.inMemory user post rate := by
  have hr : (decide (rate > 1) || decide (rate < -1)) = false := by
    rcases h with h | h | h <;> subst h <;> decide
  unfold PostMongoDBRepository.UpvotePost
  simp only [hr, Bool.false_eq_true, if_false]
  split
  · rfl
  · split <;> rfl

/-! ## Score is the sum of the votes -/

/-- The in-memory update keeps `Score` equal to the Go sum of the votes. -/
theorem inMemory_score_sum (user : User) (post : Post) (rate : Int)
    (hsum : post.Score = wrapInt (exactSum post.Votes)) :
    (UpvotePost.inMemory user post rate).Score =
      wrapInt (exactSum (UpvotePost.inMemory user post rate).Votes) := by
  rw [inMemory_Score, inMemory_Votes, exactSum_append, scoreWithout_sum user post hsum]
  by_cases hr : rate = 1 ∨ rate = -1
  · simp only [hr, if_true, wrapInt_add_left]
    simp [exactSum, newVote]
  · simp only [hr, if_false]
    simp [exactSum]

/-- C1. Score-sum invariant of `UpvotePost`: when `post.Score` equals the sum of
the `Vote` values of `post.Votes` (the sum a Go loop over the slice computes),
then for every user and every rate among -1, 0, 1 the post left by
`UpvotePost` again has `Score` equal to the sum of the `Vote` values of its
`Votes`. -/
theorem UpvotePost_score_is_sum (repo : PostMongoDBRepository) (user : User) (post : Post)
    (rate : Int) (hrate : rate = -1 ∨ rate = 0 ∨ rate = 1)
    (hsum : post.Score = sumVotes post.Votes) :
    (repo.UpvotePost user post rate).post.Score =
      sumVotes (repo.UpvotePost user post rate).post.Votes := by
  rw [UpvotePost_post repo user post rate hrate, sumVotes_eq]
  rw [sumVotes_eq] at hsum
  exact inMemory_score_sum user post rate hsum

theorem UpvotePost_score_is_sum_witness :
    ((-1 : Int) = -1 ∨ (-1 : Int) = 0 ∨ (-1 : Int) = 1) ∧
    freshPost.Score = sumVotes freshPost.Votes ∧
    (liveRepo.UpvotePost userB freshPost (-1)).post.Score =
      sumVotes (liveRepo.UpvotePost userB freshPost (-1)).post.Votes :=
  ⟨by decide, by decide,
    UpvotePost_score_is_sum liveRepo userB freshPost (-1) (by decide) (by decide)⟩

/-! ## One record per voter -/

theorem voterIDs_eraseP (user : User) (vs : List Vote) :
    voterIDs (vs.eraseP (byUser user)) = (voterIDs vs).erase user.ID := by
  induction vs with
  | nil => simp [voterIDs]
  | cons x xs ih =>
    by_cases hx : x.Author.ID = user.ID
    · simp [voterIDs, byUser, List.eraseP_cons, hx]
    · have hb : byUser user x = false := by simpa [byUser] using hx
      have : voterIDs (x :: xs) = x.Author.ID :: voterIDs xs := rfl
      rw [List.eraseP_cons, hb, this, List.erase_cons_tail (by simpa using hx)]
      simp only [cond_false, Bool.false_eq_true, if_false]
      show x.Author.ID :: voterIDs (xs.eraseP (byUser user)) = _
      rw [ih]

theorem voterIDs_inMemory (user : User) (post : Post) (rate : Int) :
    voterIDs (UpvotePost.inMemory user post rate).Votes =
      (voterIDs post.Votes).erase user.ID ++
        (if rate = 1 ∨ rate = -1 then [user.ID] else []) := by
  rw [inMemory_Votes]
  unfold voterIDs
  rw [List.map_append]
  congr 1
  · exact voterIDs_eraseP user post.Votes
  · split <;> simp [newVote]

/-- C2. One-vote-per-voter invariant of `UpvotePost`: when the author IDs of the
records of `post.Votes` are pairwise distinct, then for every user and every
rate among -1, 0, 1 the author IDs of the records left by `UpvotePost` are still
pairwise distinct, and the voting user occurs exactly once among them when the
rate is 1 or -1 and not at all when the rate is 0.  Moreover, if every record
had `AuthorID` equal to `Author.ID` before, every record has afterwards, so the
same holds with `AuthorID` as the key. -/
theorem UpvotePost_one_vote_per_voter (repo : PostMongoDBRepository) (user : User)
    (post : Post) (rate : Int) (hrate : rate = -1 ∨ rate = 0 ∨ rate = 1)
    (hone : (voterIDs post.Votes).Nodup) :
    (voterIDs (repo.UpvotePost user post rate).post.Votes).Nodup ∧
    (voterIDs (repo.UpvotePost user post rate).post.Votes).count user.ID =
      (if rate = 0 then 0 else 1) ∧
    ((∀ v ∈ post.Votes, v.AuthorID = v.Author.ID) →
      ∀ v ∈ (repo.UpvotePost user post rate).post.Votes, v.AuthorID = v.Author.ID) := by
  rw [UpvotePost_post repo user post rate hrate]
  have hnot : user.ID ∉ (voterIDs post.Votes).erase user.ID := by
    intro h
    exact ((List.Nodup.mem_erase_iff hone).mp h).1 rfl
  have hcount : ((voterIDs post.Votes).erase user.ID).count user.ID = 0 :=
    List.count_eq_zero_of_not_mem hnot
  refine ⟨?_, ?_, ?_⟩
  · rw [voterIDs_inMemory]
    split
    · rw [List.nodup_append]
      refine ⟨hone.erase _, by simp, ?_⟩
      intro a ha hb
      simp only [List.mem_singleton] at hb
      subst hb
      exact hnot ha
    · simpa using hone.erase _
  · rw [voterIDs_inMemory, List.count_append, hcount]
    rcases hrate with h | h | h <;> subst h <;> simp
  · intro hall v hv
    rw [inMemory_Votes, List.mem_append] at hv
    rcases hv with hv | hv
    · exact hall v (List.mem_of_mem_eraseP hv)
    · split at hv
      · simp only [List.mem_singleton] at hv
        subst hv
        rfl
      · simp at hv

theorem UpvotePost_one_vote_per_voter_witness :
    ((1 : Int) = -1 ∨ (1 : Int) = 0 ∨ (1 : Int) = 1) ∧
    (voterIDs freshPost.Votes).Nodup ∧
    (voterIDs (liveRepo.UpvotePost userB freshPost 1).post.Votes).Nodup ∧
    (voterIDs (liveRepo.UpvotePost userB freshPost 1).post.Votes).count userB.ID =
      (if (1 : Int) = 0 then 0 else 1) ∧
    ((∀ v ∈ freshPost.Votes, v.AuthorID = v.Author.ID) →
      ∀ v ∈ (liveRepo.UpvotePost userB freshPost 1).post.Votes, v.AuthorID = v.Author.ID) :=
  ⟨by decide, by decide,
    UpvotePost_one_vote_per_voter liveRepo userB freshPost 1 (by decide) (by decide)⟩

/-! ## Rejected rates -/

theorem UpvotePost_err_of_valid (repo : PostMongoDBRepository) (user : User) (post : Post)
    (rate : Int) (h : rate = -1 ∨ rate = 0 ∨ rate = 1) :
    (repo.UpvotePost user post rate).err ≠ some Error.ErrUnrecognizedRate := by
  have hr : (decide (rate > 1) || decide (rate < -1)) = false := by
    rcases h with h | h | h <;> subst h <;> decide
  unfold PostMongoDBRepository.UpvotePost
  simp only [hr, Bool.false_eq_true, if_false]
  split
  · simp
  · split <;> simp

theorem UpvotePost_of_invalid (repo : PostMongoDBRepository) (user : User) (post : Post)
    (rate : Int) (h : ¬(rate = -1 ∨ rate = 0 ∨ rate = 1)) :
    repo.UpvotePost user post rate =
      { err := some Error.ErrUnrecognizedRate, post := post, repo := repo } := by
  have hr : (decide (rate > 1) || decide (rate < -1)) = true := by
    simp only [Bool.or_eq_true, decide_eq_true_eq]
    omega
  unfold PostMongoDBRepository.UpvotePost
  simp only [hr, if_true]

/-- C3. `UpvotePost` returns `ErrUnrecognizedRate` if and only if the rate is not
one of -1, 0, 1; for such a rate the post (in particular its `Score`, `Votes`
and `UpvotePercentage`) is left unchanged and the collection has received no
update command and holds the same documents. -/
theorem UpvotePost_unrecognized_rate (repo : PostMongoDBRepository) (user : User)
    (post : Post) (rate : Int) :
    ((repo.UpvotePost user post rate).err = some Error.ErrUnrecognizedRate ↔
      ¬(rate = -1 ∨ rate = 0 ∨ rate = 1)) ∧
    (¬(rate = -1 ∨ rate = 0 ∨ rate = 1) →
      (repo.UpvotePost user post rate).post.Score = post.Score ∧
      (repo.UpvotePost user post rate).post.Votes = post.Votes ∧
      (repo.UpvotePost user post rate).post.UpvotePercentage = post.UpvotePercentage ∧
      (repo.UpvotePost user post rate).post = post ∧
      (repo.UpvotePost user post rate).repo.DB.received = repo.DB.received ∧
      (repo.UpvotePost user post rate).repo = repo) := by
  constructor
  · constructor
    · intro he hv
      exact UpvotePost_err_of_valid repo user post rate hv he
    · intro hv
      rw [UpvotePost_of_invalid repo user post rate hv]
  · intro hv
    rw [UpvotePost_of_invalid repo user post rate hv]
    exact ⟨rfl, rfl, rfl, rfl, rfl, rfl⟩

theorem UpvotePost_unrecognized_rate_witness :
    ¬((-2 : Int) = -1 ∨ (-2 : Int) = 0 ∨ (-2 : Int) = 1) ∧
    (liveRepo.UpvotePost userA freshPost (-2)).err = some Error.ErrUnrecognizedRate ∧
    (liveRepo.UpvotePost userA freshPost (-2)).post.Score = freshPost.Score ∧
    (liveRepo.UpvotePost userA freshPost (-2)).post.Votes = freshPost.Votes ∧
    (liveRepo.UpvotePost userA freshPost (-2)).post.UpvotePercentage =
      freshPost.UpvotePercentage ∧
    (liveRepo.UpvotePost userA freshPost (-2)).post = freshPost ∧
    (liveRepo.UpvotePost userA freshPost (-2)).repo.DB.received = liveRepo.DB.received ∧
    (liveRepo.UpvotePost userA freshPost (-2)).repo = liveRepo :=
  ⟨by decide,
    (UpvotePost_unrecognized_rate liveRepo userA freshPost (-2)).1.mpr (by decide),
    (UpvotePost_unrecognized_rate liveRepo userA freshPost (-2)).2 (by decide)⟩

/-! ## Casting the same vote twice -/

theorem no_record_after_eraseP (user : User) (vs : List Vote)
    (hone : (voterIDs vs).count user.ID ≤ 1) :
    ∀ v ∈ vs.eraseP (byUser user), ¬ (byUser user v = true) := by
  intro v hv hb
  have hmem : user.ID ∈ voterIDs (vs.eraseP (byUser user)) := by
    unfold voterIDs
    rw [List.mem_map]
    exact ⟨v, hv, by simpa [byUser] using hb⟩
  rw [voterIDs_eraseP] at hmem
  have hc : ((voterIDs vs).erase user.ID).count user.ID = 0 := by
    rw [List.count_erase_self]
    omega
  exact (List.count_eq_zero.mp hc) hmem

theorem byUser_newVote (user : User) (rate : Int) : byUser user (newVote user rate) = true := by
  simp [byUser, newVote]

/-- The in-memory update when the voter's only record is the last one. -/
theorem inMemory_last (user : User) (post : Post) (rate r0 : Int) (l : List Vote)
    (hl : ∀ v ∈ l, ¬ (byUser user v = true)) (hv : post.Votes = l ++ [newVote user r0]) :
    (UpvotePost.inMemory user post rate).Votes =
        l ++ (if rate = 1 ∨ rate = -1 then [newVote user rate] else []) ∧
    (UpvotePost.inMemory user post rate).Score =
        (if rate = 1 ∨ rate = -1 then wrapInt (wrapInt (post.Score - r0) + rate)
         else wrapInt (post.Score - r0)) := by
  have he : post.Votes.eraseP (byUser user) = l := by
    rw [hv, List.eraseP_append_right _ hl]
    simp [List.eraseP_cons, byUser_newVote]
  have hf : post.Votes.find? (byUser user) = some (newVote user r0) := by
    rw [hv, List.find?_append]
    have : l.find? (byUser user) = none := by
      rw [List.find?_eq_none]
      exact hl
    simp [this, byUser_newVote]
  have hs : scoreWithout user post = wrapInt (post.Score - r0) := by
    unfold scoreWithout
    rw [hf]
    rfl
  rw [inMemory_Votes, inMemory_Score, he, hs]
  exact ⟨rfl, rfl⟩

/-- C4. Idempotent replace: for every post and user `u`, the post holding at
most one record of `u` as every post of the data model does (a new post
holds one vote, and a vote replaces the voter's record), applying
`UpvotePost(u, post, r)` twice in a row with `r = +1` (or twice with `r = -1`)
leaves, after the second call, `Score` and `Votes` equal to their values after
the first call, and `Votes` holds exactly one record of `u`, with `Vote = r`. -/
theorem UpvotePost_repeat_same_rate (repo : PostMongoDBRepository) (user : User)
    (post : Post) (rate : Int) (hrate : rate = 1 ∨ rate = -1)
    (hone : (voterIDs post.Votes).count user.ID ≤ 1) :
    ((repo.UpvotePost user post rate).repo.UpvotePost user
        (repo.UpvotePost user post rate).post rate).post.Score =
      (repo.UpvotePost user post rate).post.Score ∧
    ((repo.UpvotePost user post rate).repo.UpvotePost user
        (repo.UpvotePost user post rate).post rate).post.Votes =
      (repo.UpvotePost user post rate).post.Votes ∧
    ((repo.UpvotePost user post rate).repo.UpvotePost user
        (repo.UpvotePost user post rate).post rate).post.Votes.filter (byUser user) =
      [newVote user rate] := by
  have hvalid : rate = -1 ∨ rate = 0 ∨ rate = 1 := by
    rcases hrate with h | h
    · exact Or.inr (Or.inr h)
    · exact Or.inl h
  have hl := no_record_after_eraseP user post.Votes hone
  have hV1 : (UpvotePost.inMemory user post rate).Votes =
      post.Votes.eraseP (byUser user) ++ [newVote user rate] := by
    rw [inMemory_Votes, if_pos hrate]
  have hS1 : (UpvotePost.inMemory user post rate).Score =
      wrapInt (scoreWithout user post + rate) := by
    rw [inMemory_Score, if_pos hrate]
  obtain ⟨hV2, hS2⟩ := inMemory_last user (UpvotePost.inMemory user post rate) rate rate
    (post.Votes.eraseP (byUser user)) hl hV1
  rw [if_pos hrate] at hV2 hS2
  rw [UpvotePost_post _ user _ rate hvalid, UpvotePost_post repo user post rate hvalid]
  refine ⟨?_, ?_, ?_⟩
  · rw [hS2, hS1, wrapInt_sub_left, add_sub_cancel_right, wrapInt_add_left]
  · rw [hV2, hV1]
  · rw [hV2, List.filter_append]
    have : (post.Votes.eraseP (byUser user)).filter (byUser user) = [] := by
      rw [List.filter_eq_nil_iff]
      exact hl
    simp [this, byUser_newVote]

theorem UpvotePost_repeat_same_rate_witness :
    ((1 : Int) = 1 ∨ (1 : Int) = -1) ∧
    (voterIDs downPost.Votes).count userA.ID ≤ 1 ∧
    ((liveRepo.UpvotePost userA downPost 1).repo.UpvotePost userA
        (liveRepo.UpvotePost userA downPost 1).post 1).post.Score =
      (liveRepo.UpvotePost userA downPost 1).post.Score ∧
    ((liveRepo.UpvotePost userA downPost 1).repo.UpvotePost userA
        (liveRepo.UpvotePost userA downPost 1).post 1).post.Votes =
      (liveRepo.UpvotePost userA downPost 1).post.Votes ∧
    ((liveRepo.UpvotePost userA downPost 1).repo.UpvotePost userA
        (liveRepo.UpvotePost userA downPost 1).post 1).post.Votes.filter (byUser userA) =
      [newVote userA 1] :=
  ⟨by decide, by decide,
    UpvotePost_repeat_same_rate liveRepo userA downPost 1 (by decide) (by decide)⟩

/-! ## Voting and taking the vote back -/

theorem no_record_of_not_mem (user : User) (vs : List Vote)
    (hnew : user.ID ∉ voterIDs vs) : ∀ v ∈ vs, ¬ (byUser user v = true) := by
  intro v hv hb
  apply hnew
  unfold voterIDs
  rw [List.mem_map]
  exact ⟨v, hv, by simpa [byUser] using hb⟩

/-- The in-memory update for a voter without a record. -/
theorem inMemory_new_voter (user : User) (post : Post) (rate : Int)
    (hnew : user.ID ∉ voterIDs post.Votes) :
    (UpvotePost.inMemory user post rate).Votes =
        post.Votes ++ (if rate = 1 ∨ rate = -1 then [newVote user rate] else []) ∧
    (UpvotePost.inMemory user post rate).Score =
        (if rate = 1 ∨ rate = -1 then wrapInt (post.Score + rate) else post.Score) := by
  have hl := no_record_of_not_mem user post.Votes hnew
  have he : post.Votes.eraseP (byUser user) = post.Votes :=
    List.eraseP_of_forall_not hl
  have hf : post.Votes.find? (byUser user) = none := by
    rw [List.find?_eq_none]
    exact hl
  have hs : scoreWithout user post = post.Score := by
    unfold scoreWithout
    rw [hf]
  rw [inMemory_Votes, inMemory_Score, he, hs]
  exact ⟨rfl, rfl⟩

/-- C5 does not hold for every post: when the voter already has a `-1` record,
`+1` followed by `0` ends with score 0 and no votes, while the post started
with score -1 and one record. -/
theorem UpvotePost_unvote_counterexample :
    downPost.Score = -1 ∧ downPost.Votes.length = 1 ∧
    ((liveRepo.UpvotePost userA downPost 1).repo.UpvotePost userA
      (liveRepo.UpvotePost userA downPost 1).post 0).post.Score = 0 ∧
    ((liveRepo.UpvotePost userA downPost 1).repo.UpvotePost userA
      (liveRepo.UpvotePost userA downPost 1).post 0).post.Votes = [] := by
  decide

/-- C5 (amended). Vote-then-unvote round trip: for every post on which user `u`
has no record (`Score` being a Go `int`), `UpvotePost(u, post, +1)` followed by
`UpvotePost(u, post, 0)` restores `Score` and `Votes` (same records in the same
order) to what they were before the first call. -/
theorem UpvotePost_vote_then_unvote (repo : PostMongoDBRepository) (user : User)
    (post : Post) (hscore : isGoInt post.Score)
    (hnew : user.ID ∉ voterIDs post.Votes) :
    ((repo.UpvotePost user post 1).repo.UpvotePost user
        (repo.UpvotePost user post 1).post 0).post.Score = post.Score ∧
    ((repo.UpvotePost user post 1).repo.UpvotePost user
        (repo.UpvotePost user post 1).post 0).post.Votes = post.Votes := by
  obtain ⟨hV1, hS1⟩ := inMemory_new_voter user post 1 hnew
  simp only [true_or, if_true] at hV1 hS1
  obtain ⟨hV2, hS2⟩ := inMemory_last user (UpvotePost.inMemory user post 1) 0 1
    post.Votes (no_record_of_not_mem user post.Votes hnew) hV1
  have h0 : ¬ ((0 : Int) = 1 ∨ (0 : Int) = -1) := by decide
  simp only [h0, if_false, List.append_nil] at hV2 hS2
  rw [UpvotePost_post _ user _ 0 (Or.inr (Or.inl rfl)),
    UpvotePost_post repo user post 1 (Or.inr (Or.inr rfl))]
  refine ⟨?_, hV2⟩
  rw [hS2, hS1, wrapInt_sub_left, add_sub_cancel_right]
  exact wrapInt_of_isGoInt hscore

theorem UpvotePost_vote_then_unvote_witness :
    isGoInt freshPost.Score ∧ userB.ID ∉ voterIDs freshPost.Votes ∧
    ((liveRepo.UpvotePost userB freshPost 1).repo.UpvotePost userB
        (liveRepo.UpvotePost userB freshPost 1).post 0).post.Score = freshPost.Score ∧
    ((liveRepo.UpvotePost userB freshPost 1).repo.UpvotePost userB
        (liveRepo.UpvotePost userB freshPost 1).post 0).post.Votes = freshPost.Votes :=
  ⟨by decide, by decide,
    UpvotePost_vote_then_unvote liveRepo userB freshPost (by decide) (by decide)⟩

/-! ## The worked example of the specification -/

theorem next_post (o : UpvoteOutcome) (user : User) (rate : Int)
    (h : rate = -1 ∨ rate = 0 ∨ rate = 1) :
    (o.next user rate).post = UpvotePost.inMemory user o.post rate :=
  UpvotePost_post o.repo user o.post rate h

/-- C6. Worked example: starting from a post with `Score = 0` and no votes,
`UpvotePost(A, post, +1)` gives `Score = 1` and `UpvotePercentage = 100`; then
`UpvotePost(B, post, -1)` with `B` different from `A` gives `Score = 0` with 2
votes and `UpvotePercentage = 0`; then `UpvotePost(A, post, 0)` gives
`Score = -1` with 1 vote and `UpvotePercentage = 0`. -/
theorem UpvotePost_worked_example (repo : PostMongoDBRepository) (a b : User) (post : Post)
    (hab : a.ID ≠ b.ID) (hscore : post.Score = 0) (hvotes : post.Votes = []) :
    (repo.UpvotePost a post 1).post.Score = 1 ∧
    (repo.UpvotePost a post 1).post.UpvotePercentage = 100 ∧
    ((repo.UpvotePost a post 1).next b (-1)).post.Score = 0 ∧
    ((repo.UpvotePost a post 1).next b (-1)).post.Votes.length = 2 ∧
    ((repo.UpvotePost a post 1).next b (-1)).post.UpvotePercentage = 0 ∧
    (((repo.UpvotePost a post 1).next b (-1)).next a 0).post.Score = -1 ∧
    (((repo.UpvotePost a post 1).next b (-1)).next a 0).post.Votes.length = 1 ∧
    (((repo.UpvotePost a post 1).next b (-1)).next a 0).post.UpvotePercentage = 0 := by
  have e1 : (repo.UpvotePost a post 1).post = UpvotePost.inMemory a post 1 :=
    UpvotePost_post repo a post 1 (by decide)
  have e2 : ((repo.UpvotePost a post 1).next b (-1)).post =
      UpvotePost.inMemory b (UpvotePost.inMemory a post 1) (-1) := by
    rw [next_post _ b (-1) (by decide), e1]
  have e3 : (((repo.UpvotePost a post 1).next b (-1)).next a 0).post =
      UpvotePost.inMemory a (UpvotePost.inMemory b (UpvotePost.inMemory a post 1) (-1)) 0 := by
    rw [next_post _ a 0 (by decide), e2]
  -- first call
  obtain ⟨hV1, hS1⟩ := inMemory_new_voter a post 1 (by simp [hvotes, voterIDs])
  simp only [true_or, if_true, hvotes, hscore, List.nil_append] at hV1 hS1
  have hS1' : (UpvotePost.inMemory a post 1).Score = 1 := by rw [hS1]; decide
  have hP1 := inMemory_UpvotePercentage a post 1
  rw [hV1, hS1'] at hP1
  -- second call
  obtain ⟨hV2, hS2⟩ := inMemory_new_voter b (UpvotePost.inMemory a post 1) (-1)
    (by simpa [hV1, voterIDs, newVote] using Ne.symm hab)
  simp only [or_true, if_true, hV1, hS1'] at hV2 hS2
  have hS2' : (UpvotePost.inMemory b (UpvotePost.inMemory a post 1) (-1)).Score = 0 := by
    rw [hS2]; decide
  have hP2 := inMemory_UpvotePercentage b (UpvotePost.inMemory a post 1) (-1)
  rw [hV2, hS2'] at hP2
  -- third call
  have hV3 := inMemory_Votes a (UpvotePost.inMemory b (UpvotePost.inMemory a post 1) (-1)) 0
  have hS3 := inMemory_Score a (UpvotePost.inMemory b (UpvotePost.inMemory a post 1) (-1)) 0
  have hP3 := inMemory_UpvotePercentage a
    (UpvotePost.inMemory b (UpvotePost.inMemory a post 1) (-1)) 0
  have hsw : scoreWithout a (UpvotePost.inMemory b (UpvotePost.inMemory a post 1) (-1)) = -1 := by
    unfold scoreWithout
    rw [hV2, hS2']
    simp only [List.cons_append, List.nil_append, List.find?_cons, byUser_newVote]
    show wrapInt (0 - 1) = -1
    decide
  have h0 : ¬ ((0 : Int) = 1 ∨ (0 : Int) = -1) := by decide
  rw [hV2] at hV3
  simp only [h0, if_false, List.append_nil, List.nil_append, List.cons_append,
    List.eraseP_cons, byUser_newVote, cond_true] at hV3
  rw [hsw] at hS3
  simp only [h0, if_false] at hS3
  rw [hV3, hS3] at hP3
  rw [e1, e2, e3]
  refine ⟨hS1', ?_, hS2', ?_, ?_, hS3, ?_, ?_⟩
  · rw [hP1]
    show (if (1 : Int) < 0 ∨ (1 : Nat) = 0 then (0 : Int)
      else wrapInt (Int.tdiv 1 ((1 : Nat) : Int) * 100)) = 100
    decide
  · rw [hV2]; rfl
  · rw [hP2]
    show (if (0 : Int) < 0 ∨ (2 : Nat) = 0 then (0 : Int)
      else wrapInt (Int.tdiv 0 ((2 : Nat) : Int) * 100)) = 0
    decide
  · rw [hV3]; rfl
  · rw [hP3]
    show (if (-1 : Int) < 0 ∨ (1 : Nat) = 0 then (0 : Int)
      else wrapInt (Int.tdiv (-1) ((1 : Nat) : Int) * 100)) = 0
    decide

theorem UpvotePost_worked_example_witness :
    userA.ID ≠ userB.ID ∧ blankPost.Score = 0 ∧ blankPost.Votes = [] ∧
    (liveRepo.UpvotePost userA blankPost 1).post.Score = 1 ∧
    (liveRepo.UpvotePost userA blankPost 1).post.UpvotePercentage = 100 ∧
    ((liveRepo.UpvotePost userA blankPost 1).next userB (-1)).post.Score = 0 ∧
    ((liveRepo.UpvotePost userA blankPost 1).next userB (-1)).post.Votes.length = 2 ∧
    ((liveRepo.UpvotePost userA blankPost 1).next userB (-1)).post.UpvotePercentage = 0 ∧
    (((liveRepo.UpvotePost userA blankPost 1).next userB (-1)).next userA 0).post.Score = -1 ∧
    (((liveRepo.UpvotePost userA blankPost 1).next userB (-1)).next userA 0).post.Votes.length
      = 1 ∧
    (((liveRepo.UpvotePost userA blankPost 1).next userB (-1)).next userA 0).post.UpvotePercentage
      = 0 :=
  ⟨by decide, by decide, by decide,
    UpvotePost_worked_example liveRepo userA userB blankPost (by decide) (by decide)
      (by decide)⟩

/-! ## The approval percentage -/

/-- C7. Approval-percentage formula: for every post, user and rate among -1, 0,
1, after `UpvotePost` the field `UpvotePercentage` is 0 when the new `Score` is
negative or the new `Votes` is empty, and otherwise is `Score / len(Votes) * 100`
in Go `int` arithmetic, the division truncating and done before the
multiplication; whenever that product fits in an `int` it is the exact product.
With `Score = 1` and 3 votes the result is 0, not 33. -/
theorem UpvotePost_percentage_formula (repo : PostMongoDBRepository) (user : User)
    (post : Post) (rate : Int) (hrate : rate = -1 ∨ rate = 0 ∨ rate = 1) :
    (repo.UpvotePost user post rate).post.UpvotePercentage =
      (if (repo.UpvotePost user post rate).post.Score < 0 ∨
          (repo.UpvotePost user post rate).post.Votes.length = 0 then 0
       else wrapInt (Int.tdiv (repo.UpvotePost user post rate).post.Score
          ((repo.UpvotePost user post rate).post.Votes.length : Int) * 100)) ∧
    (isGoInt (Int.tdiv (repo.UpvotePost user post rate).post.Score
          ((repo.UpvotePost user post rate).post.Votes.length : Int) * 100) →
      (repo.UpvotePost user post rate).post.UpvotePercentage =
        (if (repo.UpvotePost user post rate).post.Score < 0 ∨
            (repo.UpvotePost user post rate).post.Votes.length = 0 then 0
         else Int.tdiv (repo.UpvotePost user post rate).post.Score
            ((repo.UpvotePost user post rate).post.Votes.length : Int) * 100)) ∧
    ((liveRepo.UpvotePost userC mixedPost 1).post.Score = 1 ∧
      (liveRepo.UpvotePost userC mixedPost 1).post.Votes.length = 3 ∧
      (liveRepo.UpvotePost userC mixedPost 1).post.UpvotePercentage = 0) := by
  rw [UpvotePost_post repo user post rate hrate]
  refine ⟨inMemory_UpvotePercentage user post rate, ?_, by decide⟩
  intro hfit
  rw [inMemory_UpvotePercentage user post rate, wrapInt_of_isGoInt hfit]

theorem UpvotePost_percentage_formula_witness :
    ((1 : Int) = -1 ∨ (1 : Int) = 0 ∨ (1 : Int) = 1) ∧
    (liveRepo.UpvotePost userB freshPost 1).post.Score = 2 ∧
    (liveRepo.UpvotePost userB freshPost 1).post.Votes.length = 2 ∧
    (liveRepo.UpvotePost userB freshPost 1).post.UpvotePercentage =
      (if (liveRepo.UpvotePost userB freshPost 1).post.Score < 0 ∨
          (liveRepo.UpvotePost userB freshPost 1).post.Votes.length = 0 then 0
       else Int.tdiv (liveRepo.UpvotePost userB freshPost 1).post.Score
          ((liveRepo.UpvotePost userB freshPost 1).post.Votes.length : Int) * 100) :=
  ⟨by decide, by decide, by decide,
    (UpvotePost_percentage_formula liveRepo userB freshPost 1 (by decide)).2.1 (by decide)⟩

/-! ## Range of the approval percentage -/

theorem exactSum_bounds (vs : List Vote)
    (h : ∀ v ∈ vs, v.Vote = -1 ∨ v.Vote = 0 ∨ v.Vote = 1) :
    -(vs.length : Int) ≤ exactSum vs ∧ exactSum vs ≤ (vs.length : Int) := by
  induction vs with
  | nil => simp [exactSum]
  | cons x xs ih =>
    have hx := h x (List.mem_cons_self x xs)
    have hxs := ih (fun v hv => h v (List.mem_cons_of_mem x hv))
    simp only [exactSum, List.map_cons, List.sum_cons, List.length_cons, Nat.cast_add,
      Nat.cast_one] at hxs ⊢
    omega

theorem inMemory_vote_values (user : User) (post : Post) (rate : Int)
    (hrate : rate = -1 ∨ rate = 0 ∨ rate = 1)
    (h : ∀ v ∈ post.Votes, v.Vote = -1 ∨ v.Vote = 0 ∨ v.Vote = 1) :
    ∀ v ∈ (UpvotePost.inMemory user post rate).Votes, v.Vote = -1 ∨ v.Vote = 0 ∨ v.Vote = 1 := by
  intro v hv
  rw [inMemory_Votes, List.mem_append] at hv
  rcases hv with hv | hv
  · exact h v (List.mem_of_mem_eraseP hv)
  · split at hv
    · simp only [List.mem_singleton] at hv
      subst hv
      exact hrate
    · simp at hv

theorem wrapInt_le_of_abs_le (x : Int) (n : Nat) (h1 : -(n : Int) ≤ x) (h2 : x ≤ (n : Int)) :
    wrapInt x ≤ (n : Int) := by
  unfold wrapInt
  omega

/-- For a post whose score is the Go sum of votes of value -1, 0 or 1, the
percentage computed by the in-memory update is 0 or 100. -/
theorem inMemory_percentage_two_valued (user : User) (post : Post) (rate : Int)
    (hrate : rate = -1 ∨ rate = 0 ∨ rate = 1)
    (hsum : post.Score = wrapInt (exactSum post.Votes))
    (hvals : ∀ v ∈ post.Votes, v.Vote = -1 ∨ v.Vote = 0 ∨ v.Vote = 1) :
    (UpvotePost.inMemory user post rate).UpvotePercentage = 0 ∨
    (UpvotePost.inMemory user post rate).UpvotePercentage = 100 := by
  have hS := inMemory_score_sum user post rate hsum
  have hb := exactSum_bounds _ (inMemory_vote_values user post rate hrate hvals)
  have hle : (UpvotePost.inMemory user post rate).Score ≤
      ((UpvotePost.inMemory user post rate).Votes.length : Int) := by
    rw [hS]
    exact wrapInt_le_of_abs_le _ _ hb.1 hb.2
  rw [inMemory_UpvotePercentage]
  generalize (UpvotePost.inMemory user post rate).Score = s at hle ⊢
  generalize (UpvotePost.inMemory user post rate).Votes.length = n at hle ⊢
  split
  · exact Or.inl rfl
  · rename_i hc
    have hs : 0 ≤ s := by
      by_contra hneg
      exact hc (Or.inl (by omega))
    have hn : 0 < (n : Int) := by
      have : n ≠ 0 := fun h0 => hc (Or.inr h0)
      omega
    rw [Int.tdiv_eq_ediv hs (le_of_lt hn)]
    have h0 : 0 ≤ s / (n : Int) := Int.ediv_nonneg hs (le_of_lt hn)
    have h1 : s / (n : Int) ≤ 1 := Int.ediv_le_of_le_mul hn (by omega)
    have hcases : s / (n : Int) = 0 ∨ s / (n : Int) = 1 := by omega
    rcases hcases with h | h <;> rw [h]
    · left; decide
    · right; decide

/-- C8. Range of the approval percentage: for every post, user and rate among
-1, 0, 1, the post being one of the data model (its `Score` is the sum of the
`Vote` values of its `Votes`, each of them -1, 0 or 1, as on every post
`CreateNewPost` and `UpvotePost` produce), the `UpvotePercentage` computed by
`UpvotePost` is between 0 and 100 inclusive. -/
theorem UpvotePost_percentage_range (repo : PostMongoDBRepository) (user : User)
    (post : Post) (rate : Int) (hrate : rate = -1 ∨ rate = 0 ∨ rate = 1)
    (hsum : post.Score = sumVotes post.Votes)
    (hvals : ∀ v ∈ post.Votes, v.Vote = -1 ∨ v.Vote = 0 ∨ v.Vote = 1) :
    0 ≤ (repo.UpvotePost user post rate).post.UpvotePercentage ∧
    (repo.UpvotePost user post rate).post.UpvotePercentage ≤ 100 := by
  rw [UpvotePost_post repo user post rate hrate]
  rw [sumVotes_eq] at hsum
  rcases inMemory_percentage_two_valued user post rate hrate hsum hvals with h | h <;>
    rw [h] <;> decide

theorem UpvotePost_percentage_range_witness :
    ((1 : Int) = -1 ∨ (1 : Int) = 0 ∨ (1 : Int) = 1) ∧
    freshPost.Score = sumVotes freshPost.Votes ∧
    (∀ v ∈ freshPost.Votes, v.Vote = -1 ∨ v.Vote = 0 ∨ v.Vote = 1) ∧
    0 ≤ (liveRepo.UpvotePost userB freshPost 1).post.UpvotePercentage ∧
    (liveRepo.UpvotePost userB freshPost 1).post.UpvotePercentage ≤ 100 :=
  ⟨by decide, by decide, by decide,
    UpvotePost_percentage_range liveRepo userB freshPost 1 (by decide) (by decide)
      (by decide)⟩

/-! ## Rate 0 removes and is never stored -/

/-- The in-memory update when the voter's first record is `v`, between `l1` and `l2`. -/
theorem inMemory_split (user : User) (post : Post) (rate : Int) (l1 l2 : List Vote) (v : Vote)
    (hv : post.Votes = l1 ++ v :: l2) (hid : v.Author.ID = user.ID)
    (hl : user.ID ∉ voterIDs l1) :
    (UpvotePost.inMemory user post rate).Votes =
        l1 ++ l2 ++ (if rate = 1 ∨ rate = -1 then [newVote user rate] else []) ∧
    (UpvotePost.inMemory user post rate).Score =
        (if rate = 1 ∨ rate = -1 then wrapInt (wrapInt (post.Score - v.Vote) + rate)
         else wrapInt (post.Score - v.Vote)) := by
  have hl1 := no_record_of_not_mem user l1 hl
  have hb : byUser user v = true := by simpa [byUser] using hid
  have he : post.Votes.eraseP (byUser user) = l1 ++ l2 := by
    rw [hv, List.eraseP_append_right _ hl1]
    simp [List.eraseP_cons, hb]
  have hf : post.Votes.find? (byUser user) = some v := by
    rw [hv, List.find?_append]
    have : l1.find? (byUser user) = none := by
      rw [List.find?_eq_none]
      exact hl1
    simp [this, hb]
  have hs : scoreWithout user post = wrapInt (post.Score - v.Vote) := by
    unfold scoreWithout
    rw [hf]
  rw [inMemory_Votes, inMemory_Score, he, hs]
  exact ⟨rfl, rfl⟩

/-- C9. Rate 0 is pure removal and is never stored.  `UpvotePost(u, post, 0)`
leaves `Votes` and `Score` as they are when `u` has no record; when `u`'s first
record is `v`, it leaves `Votes` without `v` (the other records in order,
nothing appended) and `Score` lowered by `v.Vote`.  For every rate among -1, 0,
1: if no record of `Votes` had `Vote = 0` before the call, none has
afterwards. -/
theorem UpvotePost_zero_is_removal (repo : PostMongoDBRepository) (user : User) (post : Post) :
    (user.ID ∉ voterIDs post.Votes →
      (repo.UpvotePost user post 0).post.Votes = post.Votes ∧
      (repo.UpvotePost user post 0).post.Score = post.Score) ∧
    (∀ (l1 l2 : List Vote) (v : Vote),
      post.Votes = l1 ++ v :: l2 → v.Author.ID = user.ID → user.ID ∉ voterIDs l1 →
      (repo.UpvotePost user post 0).post.Votes = l1 ++ l2 ∧
      (repo.UpvotePost user post 0).post.Score = wrapInt (post.Score - v.Vote)) ∧
    (∀ rate : Int, (rate = -1 ∨ rate = 0 ∨ rate = 1) →
      (∀ w ∈ post.Votes, w.Vote ≠ 0) →
      ∀ w ∈ (repo.UpvotePost user post rate).post.Votes, w.Vote ≠ 0) := by
  have h0 : ¬ ((0 : Int) = 1 ∨ (0 : Int) = -1) := by decide
  refine ⟨?_, ?_, ?_⟩
  · intro hnew
    rw [UpvotePost_post repo user post 0 (Or.inr (Or.inl rfl))]
    obtain ⟨hV, hS⟩ := inMemory_new_voter user post 0 hnew
    simp only [h0, if_false, List.append_nil] at hV hS
    exact ⟨hV, hS⟩
  · intro l1 l2 v hv hid hl
    rw [UpvotePost_post repo user post 0 (Or.inr (Or.inl rfl))]
    obtain ⟨hV, hS⟩ := inMemory_split user post 0 l1 l2 v hv hid hl
    simp only [h0, if_false, List.append_nil] at hV hS
    exact ⟨hV, hS⟩
  · intro rate hrate hnz w hw
    rw [UpvotePost_post repo user post rate hrate, inMemory_Votes, List.mem_append] at hw
    rcases hw with hw | hw
    · exact hnz w (List.mem_of_mem_eraseP hw)
    · split at hw
      · rename_i hr
        simp only [List.mem_singleton] at hw
        subst hw
        show rate ≠ 0
        omega
      · simp at hw

theorem UpvotePost_zero_is_removal_witness :
    (userC.ID ∉ voterIDs mixedPost.Votes ∧
      (liveRepo.UpvotePost userC mixedPost 0).post.Votes = mixedPost.Votes ∧
      (liveRepo.UpvotePost userC mixedPost 0).post.Score = mixedPost.Score) ∧
    (mixedPost.Votes =
        [] ++ { Author := bsonUser userA, AuthorID := 1, Vote := 1 } ::
          [{ Author := bsonUser userB, AuthorID := 2, Vote := -1 }] ∧
      (liveRepo.UpvotePost userA mixedPost 0).post.Votes =
        [] ++ [{ Author := bsonUser userB, AuthorID := 2, Vote := -1 }] ∧
      (liveRepo.UpvotePost userA mixedPost 0).post.Score = wrapInt (mixedPost.Score - 1)) ∧
    ((∀ w ∈ mixedPost.Votes, w.Vote ≠ 0) ∧
      ∀ w ∈ (liveRepo.UpvotePost userA mixedPost 0).post.Votes, w.Vote ≠ 0) :=
  ⟨⟨by decide, (UpvotePost_zero_is_removal liveRepo userC mixedPost).1 (by decide)⟩,
   ⟨by decide,
    (UpvotePost_zero_is_removal liveRepo userA mixedPost).2.1 []
      [{ Author := bsonUser userB, AuthorID := 2, Vote := -1 }]
      { Author := bsonUser userA, AuthorID := 1, Vote := 1 } (by decide) (by decide)
      (by decide)⟩,
   ⟨by decide,
    (UpvotePost_zero_is_removal liveRepo userA mixedPost).2.2 0 (by decide) (by decide)⟩⟩

/-! ## The persist step -/

/-- The error `UpvotePost` returns for a valid rate, in terms of the collection. -/
theorem UpvotePost_err (repo : PostMongoDBRepository) (user : User) (post : Post)
    (rate : Int) (hrate : rate = -1 ∨ rate = 0 ∨ rate = 1) :
    (repo.UpvotePost user post rate).err =
      if repo.DB.failing = true then some Error.ErrUpdatePost
      else
        match repo.DB.docs.find? (fun d => d.ID = (UpvotePost.inMemory user post rate).ID) with
        | none => some Error.ErrNoPost
        | some d =>
          if applySet (voteSetOf (UpvotePost.inMemory user post rate)) d = d then
            some Error.ErrNoPost
          else none := by
  have hr : (decide (rate > 1) || decide (rate < -1)) = false := by
    rcases hrate with h | h | h <;> subst h <;> decide
  unfold PostMongoDBRepository.UpvotePost Collection.UpdateOne
  simp only [hr, Bool.false_eq_true, if_false]
  by_cases hf : repo.DB.failing = true
  · simp [hf]
  · simp only [hf, if_false]
    cases hfind : repo.DB.docs.find? (fun d => d.ID = (UpvotePost.inMemory user post rate).ID) with
    | none => simp
    | some d =>
      by_cases hsame : applySet (voteSetOf (UpvotePost.inMemory user post rate)) d = d
      · have hsame2 := hsame
        unfold voteSetOf at hsame2
        simp [hsame, hsame2]
      · have hsame2 := hsame
        unfold voteSetOf at hsame2
        simp [hsame, hsame2]

/-- C10, at the failing input.  The collection holds `freshPost` and accepts
writes; `userA`, whose `+1` is the only vote on it, upvotes it again.  The
written `votes`, `score` and `upvotePercentage` equal the stored ones, the
update reports `MatchedCount = 1` and `ModifiedCount = 0`, and `UpvotePost`
returns `ErrNoPost` although the post is in the collection (and still is
afterwards). -/
theorem UpvotePost_unchanged_write_reports_ErrNoPost :
    liveRepo.DB.failing = false ∧
    liveRepo.DB.docs.find? (fun d => d.ID = freshPost.ID) = some freshPost ∧
    (liveRepo.DB.UpdateOne freshPost.ID
      (voteSetOf (UpvotePost.inMemory userA freshPost 1))).2 = some ⟨1, 0⟩ ∧
    (liveRepo.UpvotePost userA freshPost 1).err = some Error.ErrNoPost ∧
    (liveRepo.UpvotePost userA freshPost 1).repo.DB.docs = [freshPost] := by
  decide

/-! ## Lemmas on `strings.Split` -/

theorem splitChars_ne_nil (sep : Char) (cs : List Char) : splitChars sep cs ≠ [] := by
  cases cs with
  | nil => simp [splitChars]
  | cons c cs =>
    unfold splitChars
    split
    · simp
    · split <;> simp

theorem splitChars_no_sep (sep : Char) (b : List Char) (h : sep ∉ b) :
    splitChars sep b = [b] := by
  induction b with
  | nil => rfl
  | cons c cs ih =>
    have hc : c ≠ sep := fun e => h (by simp [e])
    have hcs : sep ∉ cs := fun e => h (List.mem_cons_of_mem c e)
    simp [splitChars, hc, ih hcs]

theorem splitChars_append (sep : Char) (a b : List Char) (h : sep ∉ a) :
    splitChars sep (a ++ sep :: b) = a :: splitChars sep b := by
  induction a with
  | nil => simp [splitChars]
  | cons c cs ih =>
    have hc : c ≠ sep := fun e => h (by simp [e])
    have hcs : sep ∉ cs := fun e => h (List.mem_cons_of_mem c e)
    simp [splitChars, hc, ih hcs]

/-- A split into a single part: the separator does not occur. -/
theorem splitChars_eq_singleton (sep : Char) (cs b : List Char)
    (h : splitChars sep cs = [b]) : cs = b ∧ sep ∉ b := by
  induction cs generalizing b with
  | nil =>
    simp [splitChars] at h
    subst h
    simp
  | cons c cs ih =>
    unfold splitChars at h
    split at h
    · simp at h
      exact absurd h.2 (splitChars_ne_nil sep cs)
    · rename_i hc
      split at h
      · rename_i hnil
        exact absurd hnil (splitChars_ne_nil sep cs)
      · rename_i p ps hp
        simp at h
        obtain ⟨h1, h2⟩ := h
        subst h2
        obtain ⟨e1, e2⟩ := ih p hp
        subst h1
        subst e1
        refine ⟨rfl, ?_⟩
        intro hm
        rcases List.mem_cons.mp hm with e | e
        · exact hc e.symm
        · exact e2 e

/-- A split into a first part and more: the string is the first part, the
separator, and a rest that splits into the other parts. -/
theorem splitChars_eq_cons (sep : Char) (cs a : List Char) (r : List Char)
    (rest : List (List Char)) (h : splitChars sep cs = a :: r :: rest) :
    ∃ tail, cs = a ++ sep :: tail ∧ sep ∉ a ∧ splitChars sep tail = r :: rest := by
  induction cs generalizing a with
  | nil => simp [splitChars] at h
  | cons c cs ih =>
    unfold splitChars at h
    split at h
    · rename_i hc
      simp at h
      obtain ⟨h1, h2⟩ := h
      subst h1
      exact ⟨cs, by simp [hc], by simp, h2⟩
    · rename_i hc
      split at h
      · rename_i hnil
        exact absurd hnil (splitChars_ne_nil sep cs)
      · rename_i p ps hp
        simp at h
        obtain ⟨h1, h2⟩ := h
        subst h2
        subst h1
        obtain ⟨tail, e1, e2, e3⟩ := ih p hp
        refine ⟨tail, by simp [e1], ?_, e3⟩
        intro hm
        rcases List.mem_cons.mp hm with e | e
        · exact hc e.symm
        · exact e2 e

/-- `strings.Split(s, " ")` has exactly two parts, the first being `a`, exactly
when `s` is `a`, one space, and a rest without a space. -/
theorem Split_eq_pair (s a b : String) (sep : Char) :
    Split s sep = [a, b] ↔ (s = a ++ String.singleton sep ++ b ∧ sep ∉ a.data ∧ sep ∉ b.data) := by
  constructor
  · intro h
    unfold Split at h
    match hs : splitChars sep s.data with
    | [] => exact absurd hs (splitChars_ne_nil sep _)
    | [x] => rw [hs] at h; simp at h
    | x :: y :: z :: w => rw [hs] at h; simp at h
    | [x, y] =>
      rw [hs] at h
      simp only [List.map_cons, List.map_nil, List.cons.injEq, and_true] at h
      obtain ⟨hx, hy⟩ := h
      obtain ⟨tail, e1, e2, e3⟩ := splitChars_eq_cons sep s.data x y [] hs
      obtain ⟨e4, e5⟩ := splitChars_eq_singleton sep tail y e3
      subst e4
      subst hx
      subst hy
      refine ⟨?_, e2, e5⟩
      apply String.ext
      simp [e1, String.singleton]
  · rintro ⟨h1, h2, h3⟩
    subst h1
    unfold Split
    have : (a ++ String.singleton sep ++ b).data = a.data ++ sep :: b.data := by
      simp [String.singleton]
    rw [this, splitChars_append sep _ _ h2, splitChars_no_sep sep _ h3]
    rfl

/-! ## `strconv.Atoi` undoes `strconv.Itoa` -/

theorem digitValue_digitChar (d : Nat) (h : d < 10) : digitValue (digitChar d) = some d := by
  interval_cases d <;> rfl

/-- Value of a list of digits, least significant first. -/
theorem parseDigits_append (xs : List Char) (c : Char) (acc : Nat) :
    parseDigits (xs ++ [c]) acc =
      (parseDigits xs acc).bind (fun a => (digitValue c).map (fun d => a * 10 + d)) := by
  induction xs generalizing acc with
  | nil =>
    simp only [List.nil_append, parseDigits, Option.some_bind]
    cases digitValue c <;> rfl
  | cons x xs ih =>
    simp only [List.cons_append, parseDigits]
    cases digitValue x with
    | none => rfl
    | some d => exact ih _

theorem parseDigits_digitsRev (fuel n : Nat) (h : n < fuel) :
    parseDigits (digitsRev fuel n).reverse 0 = some n := by
  induction fuel generalizing n with
  | zero => omega
  | succ fuel ih =>
    unfold digitsRev
    by_cases hz : n / 10 = 0
    · simp only [hz, if_true, List.reverse_cons, List.reverse_nil, List.nil_append, parseDigits]
      have hlt : n % 10 < 10 := Nat.mod_lt _ (by decide)
      rw [digitValue_digitChar _ hlt]
      simp only [parseDigits]
      congr 1
      omega
    · simp only [hz, if_false, List.reverse_cons]
      have hlt : n % 10 < 10 := Nat.mod_lt _ (by decide)
      have hq : n / 10 < fuel := by omega
      rw [parseDigits_append, ih _ hq, digitValue_digitChar _ hlt]
      simp only [Option.some_bind, Option.map_some']
      congr 1
      omega

theorem parseDigits_formatNat (n : Nat) : parseDigits (formatNat n) 0 = some n :=
  parseDigits_digitsRev (n + 1) n (Nat.lt_succ_self n)

theorem formatNat_ne_nil (n : Nat) : formatNat n ≠ [] := by
  simp [formatNat, digitsRev]

/-- Every character of `formatNat n` is a decimal digit. -/
theorem digitValue_of_mem_formatNat (n : Nat) (c : Char) (h : c ∈ formatNat n) :
    ∃ d, digitValue c = some d := by
  have key : ∀ fuel n, ∀ c ∈ digitsRev fuel n, ∃ d, digitValue c = some d := by
    intro fuel
    induction fuel with
    | zero => intro n c hc; simp [digitsRev] at hc
    | succ fuel ih =>
      intro n c hc
      unfold digitsRev at hc
      rcases List.mem_cons.mp hc with e | e
      · exact ⟨n % 10, e ▸ digitValue_digitChar _ (Nat.mod_lt _ (by decide))⟩
      · split at e
        · simp at e
        · exact ih _ c e
  exact key (n + 1) n c (by simpa [formatNat] using h)

theorem Atoi_Itoa (n : Int) (h : isGoInt n) : Atoi (Itoa n) = some n := by
  obtain ⟨x, xs, hx⟩ : ∃ x xs, formatNat (if n < 0 then (-n).toNat else n.toNat) = x :: xs := by
    cases hf : formatNat (if n < 0 then (-n).toNat else n.toNat) with
    | nil => exact absurd hf (formatNat_ne_nil _)
    | cons x xs => exact ⟨x, xs, rfl⟩
  have hxd : ∃ d, digitValue x = some d :=
    digitValue_of_mem_formatNat _ x (by rw [hx]; simp)
  have hxm : x ≠ '-' := by
    rintro rfl
    obtain ⟨d, hd⟩ := hxd
    simp [digitValue] at hd
  have hxp : x ≠ '+' := by
    rintro rfl
    obtain ⟨d, hd⟩ := hxd
    simp [digitValue] at hd
  by_cases hn : n < 0
  · simp only [hn, if_true] at hx
    have hp := parseDigits_formatNat (-n).toNat
    unfold Atoi Itoa
    simp only [hn, if_true, formatNat_ne_nil, if_false, hp]
    have hv : (-(((-n).toNat : Nat) : Int)) = n := by omega
    rw [hv, if_pos h]
  · simp only [hn, if_false] at hx
    have hp := parseDigits_formatNat n.toNat
    unfold Atoi Itoa
    simp only [hn, if_false, hx]
    have hsplit : (match x :: xs with
        | '-' :: rest => (true, rest)
        | '+' :: rest => (false, rest)
        | rest => (false, rest)) = ((false, x :: xs) : Bool × List Char) := by
      split
      · rename_i heq; simp at heq; exact absurd heq.1 hxm
      · rename_i heq; simp at heq; exact absurd heq.1 hxp
      · rfl
    rw [hsplit]
    rw [hx] at hp
    simp only [hp]
    have hv : ((n.toNat : Nat) : Int) = n := by omega
    simp only [Bool.false_eq_true, if_false, reduceCtorEq]
    rw [hv, if_pos h]

/-! ## Bearer extraction -/

theorem ValidateJWTToken_empty (codec : TokenCodec) (tokenKey : String) (now : Time)
    (repo : SessionRedisManager) :
    ValidateJWTToken codec tokenKey now repo "" =
      { outcome := .rejected 401 "missing token", events := [] } := by
  simp [ValidateJWTToken]

/-- The run on a header that has the form `Bearer <token>`. -/
theorem ValidateJWTToken_bearer (codec : TokenCodec) (tokenKey : String) (now : Time)
    (repo : SessionRedisManager) (token : String) (h : ' ' ∉ token.data) :
    ValidateJWTToken codec tokenKey now repo ("Bearer " ++ token) =
      match jwtParse codec now token (keyFunc tokenKey) with
      | .error msg =>
        { outcome := .rejected 401 (msg ++ " | bad token"), events := [.parse token] }
      | .ok tok =>
        match tok.Claims.lookup "user" with
        | some (.object claimsUser) =>
          match claimsUser.lookup "id" with
          | some (.string userIDString) =>
            match Atoi userIDString with
            | none => { outcome := .rejected 500 "type cast error", events := [.parse token] }
            | some userID =>
              match (repo.Check userID).2.2 with
              | some _ =>
                { outcome := .rejected 401 "no session",
                  events := [.parse token, .check userID] }
              | none =>
                { outcome := .served userID,
                  events := [.parse token, .check userID, .next userID] }
          | _ => { outcome := .panicked, events := [.parse token] }
        | _ => { outcome := .panicked, events := [.parse token] } := by
  have hsplit : Split ("Bearer " ++ token) ' ' = ["Bearer", token] := by
    rw [Split_eq_pair]
    refine ⟨rfl, by decide, h⟩
  have hne : ("Bearer " ++ token == "") = false := by
    rw [beq_eq_false_iff_ne]
    intro he
    have := congrArg String.length he
    simp only [String.length_append] at this
    have h7 : "Bearer ".length = 7 := by decide
    have h0 : "".length = 0 := by decide
    omega
  unfold ValidateJWTToken
  simp only [hne, hsplit, Bool.false_eq_true, if_false]
  simp

/-- The run on a header that is not empty and has not the form `Bearer <token>`. -/
theorem ValidateJWTToken_bad_format (codec : TokenCodec) (tokenKey : String) (now : Time)
    (repo : SessionRedisManager) (authorization : String) (hne : authorization ≠ "")
    (h : ¬ isBearerForm authorization) :
    ValidateJWTToken codec tokenKey now repo authorization =
      { outcome := .rejected 401 "bad token format", events := [] } := by
  have hb : (authorization == "") = false := by
    rw [beq_eq_false_iff_ne]
    exact hne
  unfold ValidateJWTToken
  simp only [hb, Bool.false_eq_true, if_false]
  split
  · rename_i scheme pureToken hs
    by_cases hsch : scheme = "Bearer"
    · exfalso
      apply h
      rw [Split_eq_pair] at hs
      obtain ⟨h1, _, h3⟩ := hs
      refine ⟨pureToken, h3, ?_⟩
      rw [h1, hsch]
      rfl
    · simp [hsch]
  · rfl

/-- A value that does not end with a space and has the form `Bearer`, one space
and a token without a space, has a token that is not empty. -/
theorem isBearerToken_of_form (authorization : String) (hfield : isFieldValue authorization)
    (h : isBearerForm authorization) : isBearerToken authorization := by
  obtain ⟨token, hsp, he⟩ := h
  refine ⟨token, ?_, hsp, he⟩
  intro ht
  apply hfield
  rw [he, ht]
  decide

/-- C11. Bearer extraction in `ValidateJWTToken`: for every `Authorization`
header value a request carries (`net/http` hands the value over without the
spaces around it) that is absent or empty, or is not exactly `Bearer`, one
space and a token (a non-empty string without a space), the request is answered
with 401, `missing token` when the value is empty and `bad token format`
otherwise; no token is parsed, no session is looked up and the next handler is
not called. -/
theorem ValidateJWTToken_bearer_extraction (codec : TokenCodec) (tokenKey : String)
    (now : Time) (repo : SessionRedisManager) (authorization : String)
    (hfield : isFieldValue authorization)
    (h : authorization = "" ∨ ¬ isBearerToken authorization) :
    ValidateJWTToken codec tokenKey now repo authorization =
      { outcome := .rejected 401
          (if authorization = "" then "missing token" else "bad token format"),
        events := [] } := by
  by_cases he : authorization = ""
  · subst he
    simp [ValidateJWTToken_empty]
  · rcases h with h | h
    · exact absurd h he
    · rw [ValidateJWTToken_bad_format codec tokenKey now repo authorization he
        (fun hform => h (isBearerToken_of_form authorization hfield hform))]
      simp [he]

theorem ValidateJWTToken_bearer_extraction_witness :
    isFieldValue "Bearer" ∧
    ("Bearer" = "" ∨ ¬ isBearerToken "Bearer") ∧
    ValidateJWTToken sampleCodec "secret" 1700000000 emptySessions "Bearer" =
      { outcome := .rejected 401 (if "Bearer" = "" then "missing token" else "bad token format"),
        events := [] } ∧
    ValidateJWTToken sampleCodec "secret" 1700000000 emptySessions "Bearer" =
      { outcome := .rejected 401 "bad token format", events := [] } :=
  have hfield : isFieldValue "Bearer" := by
    unfold isFieldValue
    decide
  have hform : ¬ isBearerToken "Bearer" := by
    rintro ⟨token, _, _, he⟩
    have hl := congrArg String.length he
    rw [String.length_append] at hl
    have h6 : "Bearer".length = 6 := by decide
    have h7 : "Bearer ".length = 7 := by decide
    omega
  ⟨hfield, Or.inr hform,
    ValidateJWTToken_bearer_extraction sampleCodec "secret" 1700000000 emptySessions
      "Bearer" hfield (Or.inr hform),
    by decide⟩

/-! ## Token verification in the middleware -/

theorem keyFunc_of_other_method (tokenKey : String) (token : Token)
    (h : ¬ (token.Method.kind = .SigningMethodHMAC ∧ token.Method.Alg = "HS256")) :
    keyFunc tokenKey token = .error "bad sign method" := by
  unfold keyFunc
  by_cases hk : token.Method.kind = .SigningMethodHMAC
  · have ha : token.Method.Alg ≠ "HS256" := fun e => h ⟨hk, e⟩
    simp [hk, ha]
  · simp [hk]

theorem keyFunc_of_HS256 (tokenKey : String) (token : Token)
    (h : token.Method = SigningMethodHS256) : keyFunc tokenKey token = .ok tokenKey := by
  unfold keyFunc
  rw [h]
  rfl

theorem jwtParse_of_other_method (codec : TokenCodec) (tokenKey : String) (now : Time)
    (tokenString : String) (token : Token) (hdec : codec.decode tokenString = .ok token)
    (h : ¬ (token.Method.kind = .SigningMethodHMAC ∧ token.Method.Alg = "HS256")) :
    jwtParse codec now tokenString (keyFunc tokenKey) = .error "bad sign method" := by
  unfold jwtParse
  rw [hdec]
  simp only [keyFunc_of_other_method tokenKey token h]

/-- A token signed with HS256 under the key, with valid time claims, is accepted by `jwt.Parse`. -/
theorem jwtParse_of_valid (codec : TokenCodec) (tokenKey : String) (now : Time)
    (tokenString : String) (token : Token) (hdec : codec.decode tokenString = .ok token)
    (hmethod : token.Method = SigningMethodHS256) (hsig : token.SignedWith = some tokenKey)
    (htime : claimsValid token.Claims now = none) :
    jwtParse codec now tokenString (keyFunc tokenKey) = .ok token := by
  have hv : token.Verify tokenKey = true := by
    unfold Token.Verify
    rw [hmethod, hsig]
    simp [SigningMethodHS256]
  unfold jwtParse
  rw [hdec]
  simp only [keyFunc_of_HS256 tokenKey token hmethod, hv, if_true, htime]

/-- C12. Algorithm pinning: for every token whose signing method is not HMAC
with `alg` exactly `HS256`, the key function of `ValidateJWTToken` returns the
error `bad sign method` and not the key, whatever the key is; the request that
presents the token is answered with 401, no session is looked up, the next
handler is not called, and the run does not depend on the key. -/
theorem ValidateJWTToken_algorithm_pinning (codec : TokenCodec) (tokenKey : String)
    (now : Time) (repo : SessionRedisManager) (tokenString : String) (token : Token)
    (hdec : codec.decode tokenString = .ok token) (hspace : ' ' ∉ tokenString.data)
    (hmethod : ¬ (token.Method.kind = .SigningMethodHMAC ∧ token.Method.Alg = "HS256")) :
    keyFunc tokenKey token = .error "bad sign method" ∧
    (∀ otherKey : String, keyFunc otherKey token = keyFunc tokenKey token) ∧
    ValidateJWTToken codec tokenKey now repo ("Bearer " ++ tokenString) =
      { outcome := .rejected 401 "bad sign method | bad token",
        events := [.parse tokenString] } ∧
    (∀ otherKey : String,
      ValidateJWTToken codec otherKey now repo ("Bearer " ++ tokenString) =
        ValidateJWTToken codec tokenKey now repo ("Bearer " ++ tokenString)) := by
  have hrun : ∀ key : String,
      ValidateJWTToken codec key now repo ("Bearer " ++ tokenString) =
        { outcome := .rejected 401 "bad sign method | bad token",
          events := [.parse tokenString] } := by
    intro key
    rw [ValidateJWTToken_bearer codec key now repo tokenString hspace,
      jwtParse_of_other_method codec key now tokenString token hdec hmethod]
    rfl
  refine ⟨keyFunc_of_other_method tokenKey token hmethod, ?_, hrun tokenKey, ?_⟩
  · intro otherKey
    rw [keyFunc_of_other_method tokenKey token hmethod,
      keyFunc_of_other_method otherKey token hmethod]
  · intro otherKey
    rw [hrun otherKey, hrun tokenKey]

theorem ValidateJWTToken_algorithm_pinning_witness :
    sampleCodec.decode "hhh.ppp." = .ok unsignedToken ∧ ' ' ∉ "hhh.ppp.".data ∧
    ¬ (unsignedToken.Method.kind = .SigningMethodHMAC ∧ unsignedToken.Method.Alg = "HS256") ∧
    keyFunc "secret" unsignedToken = .error "bad sign method" ∧
    (∀ otherKey : String, keyFunc otherKey unsignedToken = keyFunc "secret" unsignedToken) ∧
    ValidateJWTToken sampleCodec "secret" 1700000000 emptySessions ("Bearer " ++ "hhh.ppp.") =
      { outcome := .rejected 401 "bad sign method | bad token",
        events := [.parse "hhh.ppp."] } ∧
    (∀ otherKey : String,
      ValidateJWTToken sampleCodec otherKey 1700000000 emptySessions ("Bearer " ++ "hhh.ppp.") =
        ValidateJWTToken sampleCodec "secret" 1700000000 emptySessions
          ("Bearer " ++ "hhh.ppp.")) :=
  ⟨rfl, by decide, by decide,
    ValidateJWTToken_algorithm_pinning sampleCodec "secret" 1700000000 emptySessions
      "hhh.ppp." unsignedToken rfl (by decide) (by decide)⟩

/-! ## Malformed payloads -/

/-- C13 does not hold: for a correctly signed, unexpired HS256 token whose
`user.id` is the string `abc`, the answer is 500 `type cast error`, not 401; for
such a token without a `user` object the type assertion panics. -/
theorem ValidateJWTToken_malformed_payload_counterexample :
    jwtParse sampleCodec 1700000000 "hhh.bad.sss" (keyFunc "secret") = .ok badIDToken ∧
    ValidateJWTToken sampleCodec "secret" 1700000000 emptySessions "Bearer hhh.bad.sss" =
      { outcome := .rejected 500 "type cast error", events := [.parse "hhh.bad.sss"] } ∧
    jwtParse sampleCodec 1700000000 "hhh.nouser.sss" (keyFunc "secret") = .ok noUserToken ∧
    ValidateJWTToken sampleCodec "secret" 1700000000 emptySessions "Bearer hhh.nouser.sss" =
      { outcome := .panicked, events := [.parse "hhh.nouser.sss"] } :=
  ⟨rfl, by decide, rfl, by decide⟩

/-- C13 (amended). For every correctly signed, unexpired HS256 token whose
payload has a `user` object with a string `id` that `strconv.Atoi` rejects (not
a decimal integer in the range of `int`), `ValidateJWTToken` answers with 500
`type cast error`; no session is looked up and the next handler is not
called. -/
theorem ValidateJWTToken_bad_user_id (codec : TokenCodec) (tokenKey : String)
    (now : Time) (repo : SessionRedisManager) (tokenString : String) (token : Token)
    (claimsUser : List (String × FieldValue)) (userIDString : String)
    (hdec : codec.decode tokenString = .ok token) (hspace : ' ' ∉ tokenString.data)
    (hmethod : token.Method = SigningMethodHS256) (hsig : token.SignedWith = some tokenKey)
    (htime : claimsValid token.Claims now = none)
    (huser : token.Claims.lookup "user" = some (.object claimsUser))
    (hid : claimsUser.lookup "id" = some (.string userIDString))
    (hbad : Atoi userIDString = none) :
    ValidateJWTToken codec tokenKey now repo ("Bearer " ++ tokenString) =
      { outcome := .rejected 500 "type cast error", events := [.parse tokenString] } := by
  rw [ValidateJWTToken_bearer codec tokenKey now repo tokenString hspace,
    jwtParse_of_valid codec tokenKey now tokenString token hdec hmethod hsig htime]
  simp only [huser, hid, hbad]

theorem ValidateJWTToken_bad_user_id_witness :
    sampleCodec.decode "hhh.bad.sss" = .ok badIDToken ∧ ' ' ∉ "hhh.bad.sss".data ∧
    badIDToken.Method = SigningMethodHS256 ∧ badIDToken.SignedWith = some "secret" ∧
    claimsValid badIDToken.Claims 1700000000 = none ∧
    badIDToken.Claims.lookup "user" =
      some (.object [("username", .string "alex12345"), ("id", .string "abc")]) ∧
    List.lookup "id" [("username", FieldValue.string "alex12345"), ("id", .string "abc")] =
      some (.string "abc") ∧
    Atoi "abc" = none ∧
    ValidateJWTToken sampleCodec "secret" 1700000000 emptySessions ("Bearer " ++ "hhh.bad.sss") =
      { outcome := .rejected 500 "type cast error", events := [.parse "hhh.bad.sss"] } :=
  ⟨rfl, by decide, by decide, by decide, by decide, by decide, by decide, by decide,
    ValidateJWTToken_bad_user_id sampleCodec "secret" 1700000000 emptySessions "hhh.bad.sss"
      badIDToken [("username", .string "alex12345"), ("id", .string "abc")] "abc"
      rfl (by decide) (by decide) (by decide) (by decide) (by decide) (by decide) (by decide)⟩

/-! ## The session store -/

theorem Check_state (sm : SessionRedisManager) (userID : Int) : (sm.Check userID).1 = sm := by
  unfold SessionRedisManager.Check RedisConn.Do
  by_cases hb : sm.redisConn.broken = true
  · simp [hb, redisBytes]
  · simp only [hb, Bool.false_eq_true, if_false]
    cases hl : sm.redisConn.live (sessionKey userID) with
    | none => simp [redisBytes]
    | some e =>
      simp only [redisBytes]
      cases hv : e.value with
      | text s => simp [unmarshalSession]
      | sessionJSON s => simp [unmarshalSession]

/-- Without a live entry under the key of the identity, `Check` returns an error:
`ErrNoSession` when the connection works. -/
theorem Check_of_no_live (sm : SessionRedisManager) (userID : Int)
    (h : sm.redisConn.live (sessionKey userID) = none) :
    (sm.Check userID).2.2 =
      some (if sm.redisConn.broken = true then GoError.redis "connection failed"
            else GoError.models .ErrNoSession) := by
  unfold SessionRedisManager.Check RedisConn.Do
  by_cases hb : sm.redisConn.broken = true
  · simp [hb, redisBytes]
  · simp [hb, h, redisBytes]

/-- With a live session under the key of the identity, `Check` returns it. -/
theorem Check_of_live (sm : SessionRedisManager) (userID : Int) (e : Entry) (s : Session)
    (hb : sm.redisConn.broken = false)
    (h : sm.redisConn.live (sessionKey userID) = some e) (hv : e.value = .sessionJSON s) :
    (sm.Check userID).2 = (some s, none) := by
  unfold SessionRedisManager.Check RedisConn.Do
  simp [hb, h, redisBytes, hv, unmarshalSession]

theorem Create_of_working (sm : SessionRedisManager) (JWTToken : String) (userID : Int)
    (hb : sm.redisConn.broken = false) :
    sm.Create JWTToken userID =
      ({ redisConn :=
          { sm.redisConn with entries :=
              (createdEntry sm JWTToken userID ::
                sm.redisConn.entries.filter (fun e => e.key ≠ sessionKey userID)) } },
       none) := by
  unfold SessionRedisManager.Create RedisConn.Do createdEntry
  simp [hb, redisString]

theorem live_after_Create (sm : SessionRedisManager) (JWTToken : String) (userID : Int)
    (dt : Int) (hb : sm.redisConn.broken = false) (hdt : dt < 345600) :
    ((sm.Create JWTToken userID).1.later dt).redisConn.live (sessionKey userID) =
      some (createdEntry sm JWTToken userID) := by
  rw [Create_of_working sm JWTToken userID hb]
  unfold SessionRedisManager.later RedisConn.live
  simp only [List.find?_cons]
  have : (decide ((createdEntry sm JWTToken userID).key = sessionKey userID ∧
      sm.redisConn.now + dt < (createdEntry sm JWTToken userID).expireAt)) = true := by
    simp only [createdEntry, decide_eq_true_eq, true_and]
    exact Int.add_lt_add_left hdt _
  rw [this]

theorem no_live_after_expiry (sm : SessionRedisManager) (JWTToken : String) (userID : Int)
    (dt : Int) (hb : sm.redisConn.broken = false) (hdt : 345600 ≤ dt) :
    ((sm.Create JWTToken userID).1.later dt).redisConn.live (sessionKey userID) = none := by
  rw [Create_of_working sm JWTToken userID hb]
  unfold SessionRedisManager.later RedisConn.live
  rw [List.find?_eq_none]
  intro e he
  simp only [List.mem_cons, List.mem_filter] at he
  rcases he with he | he
  · subst he
    simp only [createdEntry, decide_eq_true_eq, true_and, not_lt]
    exact Int.add_le_add_left hdt _
  · simp only [decide_eq_true_eq, not_and]
    intro hk
    have := he.2
    simp [hk] at this

theorem Delete_of_working (sm : SessionRedisManager) (userID : Int)
    (hb : sm.redisConn.broken = false) :
    sm.Delete userID =
      ({ redisConn :=
          { sm.redisConn with entries :=
              sm.redisConn.entries.filter (fun e => e.key ≠ sessionKey userID) } },
       none) := by
  unfold SessionRedisManager.Delete RedisConn.Do
  simp only [hb, Bool.false_eq_true, if_false]
  cases sm.redisConn.live (sessionKey userID) <;> simp [redisInt]

theorem no_live_after_Delete (sm : SessionRedisManager) (userID : Int)
    (hb : sm.redisConn.broken = false) :
    (sm.Delete userID).1.redisConn.live (sessionKey userID) = none := by
  rw [Delete_of_working sm userID hb]
  unfold RedisConn.live
  rw [List.find?_eq_none]
  intro e he
  simp only [List.mem_filter] at he
  simp only [decide_eq_true_eq, not_and]
  intro hk
  have := he.2
  simp [hk] at this

/-! ## The claims of an issued token -/

theorem userToken_user (tokenKey : String) (iatNow expNow : Time) (user : User) :
    (userToken tokenKey iatNow expNow user).Claims.lookup "user" =
      some (.object [("username", .string user.Login), ("id", .string (Itoa user.ID))]) := by
  rfl

theorem userToken_id (user : User) :
    List.lookup "id"
        [("username", FieldValue.string user.Login), ("id", FieldValue.string (Itoa user.ID))] =
      some (.string (Itoa user.ID)) := by
  rfl

theorem userToken_iat (tokenKey : String) (iatNow expNow : Time) (user : User) :
    numberClaim (userToken tokenKey iatNow expNow user).Claims "iat" = some iatNow := by
  rfl

theorem userToken_exp (tokenKey : String) (iatNow expNow : Time) (user : User) :
    numberClaim (userToken tokenKey iatNow expNow user).Claims "exp" =
      some (AddDate expNow 4) := by
  rfl

theorem userToken_nbf (tokenKey : String) (iatNow expNow : Time) (user : User) :
    numberClaim (userToken tokenKey iatNow expNow user).Claims "nbf" = none := by
  rfl

theorem userToken_valid (tokenKey : String) (iatNow expNow now : Time) (user : User)
    (hiat : iatNow ≤ now) (hexp : now ≤ AddDate expNow 4) :
    claimsValid (userToken tokenKey iatNow expNow user).Claims now = none := by
  unfold claimsValid
  rw [userToken_iat, userToken_exp, userToken_nbf]
  simp [hiat, hexp]

/-! ## Revocation -/

/-- The run on a valid token that names the identity `userID`. -/
theorem ValidateJWTToken_valid_token (codec : TokenCodec) (tokenKey : String)
    (now : Time) (repo : SessionRedisManager) (tokenString : String) (token : Token)
    (claimsUser : List (String × FieldValue)) (userIDString : String) (userID : Int)
    (hdec : codec.decode tokenString = .ok token) (hspace : ' ' ∉ tokenString.data)
    (hmethod : token.Method = SigningMethodHS256) (hsig : token.SignedWith = some tokenKey)
    (htime : claimsValid token.Claims now = none)
    (huser : token.Claims.lookup "user" = some (.object claimsUser))
    (hid : claimsUser.lookup "id" = some (.string userIDString))
    (hint : Atoi userIDString = some userID) :
    ValidateJWTToken codec tokenKey now repo ("Bearer " ++ tokenString) =
      match (repo.Check userID).2.2 with
      | some _ =>
        { outcome := .rejected 401 "no session",
          events := [.parse tokenString, .check userID] }
      | none =>
        { outcome := .served userID,
          events := [.parse tokenString, .check userID, .next userID] } := by
  rw [ValidateJWTToken_bearer codec tokenKey now repo tokenString hspace,
    jwtParse_of_valid codec tokenKey now tokenString token hdec hmethod hsig htime]
  simp only [huser, hid, hint]

/-- C14. Revocation check: for every token that passes signature, algorithm and
expiry verification and names the identity `userID`, if the session store holds
no live session for `userID`, `ValidateJWTToken` answers with 401 `no session`
after the session lookup and does not call the next handler.  The store holds
no live session for `userID` when it has no entries, after `Delete(userID)`, and
345600 seconds or more after `Create(_, userID)`. -/
theorem ValidateJWTToken_no_session (codec : TokenCodec) (tokenKey : String)
    (now : Time) (repo : SessionRedisManager) (tokenString : String) (token : Token)
    (claimsUser : List (String × FieldValue)) (userIDString : String) (userID : Int)
    (hdec : codec.decode tokenString = .ok token) (hspace : ' ' ∉ tokenString.data)
    (hmethod : token.Method = SigningMethodHS256) (hsig : token.SignedWith = some tokenKey)
    (htime : claimsValid token.Claims now = none)
    (huser : token.Claims.lookup "user" = some (.object claimsUser))
    (hid : claimsUser.lookup "id" = some (.string userIDString))
    (hint : Atoi userIDString = some userID)
    (hnone : repo.redisConn.live (sessionKey userID) = none) :
    ValidateJWTToken codec tokenKey now repo ("Bearer " ++ tokenString) =
      { outcome := .rejected 401 "no session",
        events := [.parse tokenString, .check userID] } ∧
    (∀ sm : SessionRedisManager, sm.redisConn.entries = [] →
      sm.redisConn.live (sessionKey userID) = none) ∧
    (∀ sm : SessionRedisManager, sm.redisConn.broken = false →
      (sm.Delete userID).1.redisConn.live (sessionKey userID) = none) ∧
    (∀ (sm : SessionRedisManager) (JWTToken : String) (dt : Int),
      sm.redisConn.broken = false → 345600 ≤ dt →
      ((sm.Create JWTToken userID).1.later dt).redisConn.live (sessionKey userID) = none) := by
  refine ⟨?_, ?_, ?_, ?_⟩
  · rw [ValidateJWTToken_valid_token codec tokenKey now repo tokenString token claimsUser
      userIDString userID hdec hspace hmethod hsig htime huser hid hint,
      Check_of_no_live repo userID hnone]
  · intro sm he
    simp [RedisConn.live, he]
  · intro sm hb
    exact no_live_after_Delete sm userID hb
  · intro sm JWTToken dt hb hdt
    exact no_live_after_expiry sm JWTToken userID dt hb hdt

theorem ValidateJWTToken_no_session_witness :
    sampleCodec.decode "hhh.ppp.sss" = .ok sampleToken ∧ ' ' ∉ "hhh.ppp.sss".data ∧
    sampleToken.Method = SigningMethodHS256 ∧ sampleToken.SignedWith = some "secret" ∧
    claimsValid sampleToken.Claims 1700000100 = none ∧
    sampleToken.Claims.lookup "user" =
      some (.object [("username", .string "alex12345"), ("id", .string "1")]) ∧
    List.lookup "id" [("username", FieldValue.string "alex12345"), ("id", .string "1")] =
      some (.string "1") ∧
    Atoi "1" = some 1 ∧
    (emptySessions.Delete 1).1.redisConn.live (sessionKey 1) = none ∧
    ValidateJWTToken sampleCodec "secret" 1700000100 (emptySessions.Delete 1).1
        ("Bearer " ++ "hhh.ppp.sss") =
      { outcome := .rejected 401 "no session",
        events := [.parse "hhh.ppp.sss", .check 1] } :=
  ⟨rfl, by decide, by decide, by decide, by decide, by decide, by decide, by decide,
    by decide,
    (ValidateJWTToken_no_session sampleCodec "secret" 1700000100 (emptySessions.Delete 1).1
      "hhh.ppp.sss" sampleToken [("username", .string "alex12345"), ("id", .string "1")]
      "1" 1 rfl (by decide) (by decide) (by decide) (by decide) (by decide) (by decide)
      (by decide) (by decide)).1⟩

/-! ## Issue and authenticate -/

/-- C15. Issue/authenticate round trip: for every user whose ID is a Go `int`,
the token `createUserJWT` produces for the user, stored with `Create` in a
working store and presented as `Bearer <token>` while the token is valid
(`iat ≤ now ≤ exp`) and the session has not expired (less than 345600 seconds
after `Create`), is accepted by `ValidateJWTToken`: the next handler is called
exactly once, with `UserIDContextKey` set to the user's ID, `strconv.Atoi`
undoing `strconv.Itoa`.  The codec is assumed to decode the string it encoded
for this token, and to encode it without a space. -/
theorem issue_then_authenticate (codec : TokenCodec) (tokenKey : String)
    (iatNow expNow now : Time) (dt : Int) (user : User) (sm : SessionRedisManager)
    (hint : isGoInt user.ID)
    (hround : codec.decode (codec.encode (userToken tokenKey iatNow expNow user)) =
      .ok (userToken tokenKey iatNow expNow user))
    (hspace : ' ' ∉ (codec.encode (userToken tokenKey iatNow expNow user)).data)
    (hstore : sm.redisConn.broken = false)
    (hiat : iatNow ≤ now) (hexp : now ≤ AddDate expNow 4) (hdt : dt < 345600) :
    Atoi (Itoa user.ID) = some user.ID ∧
    (createUserJWT codec tokenKey iatNow expNow user).2 = none ∧
    (sm.Create (createUserJWT codec tokenKey iatNow expNow user).1 user.ID).2 = none ∧
    ValidateJWTToken codec tokenKey now
        ((sm.Create (createUserJWT codec tokenKey iatNow expNow user).1 user.ID).1.later dt)
        ("Bearer " ++ (createUserJWT codec tokenKey iatNow expNow user).1) =
      { outcome := .served user.ID,
        events := [.parse (createUserJWT codec tokenKey iatNow expNow user).1,
                   .check user.ID, .next user.ID] } := by
  have hatoi := Atoi_Itoa user.ID hint
  have hlive := live_after_Create sm (codec.encode (userToken tokenKey iatNow expNow user))
    user.ID dt hstore hdt
  have hb : ((sm.Create (codec.encode (userToken tokenKey iatNow expNow user))
      user.ID).1.later dt).redisConn.broken = false := by
    rw [Create_of_working sm _ user.ID hstore]
    exact hstore
  have hcheck := Check_of_live _ user.ID _ _ hb hlive rfl
  refine ⟨hatoi, rfl, ?_, ?_⟩
  · show (sm.Create (codec.encode (userToken tokenKey iatNow expNow user)) user.ID).2 = none
    rw [Create_of_working sm _ user.ID hstore]
  · show ValidateJWTToken codec tokenKey now
        ((sm.Create (codec.encode (userToken tokenKey iatNow expNow user)) user.ID).1.later dt)
        ("Bearer " ++ codec.encode (userToken tokenKey iatNow expNow user)) = _
    rw [ValidateJWTToken_valid_token codec tokenKey now _ _ _ _ _ user.ID hround hspace rfl rfl
      (userToken_valid tokenKey iatNow expNow now user hiat hexp)
      (userToken_user tokenKey iatNow expNow user) (userToken_id user) hatoi, hcheck]
    rfl

theorem issue_then_authenticate_witness :
    isGoInt userA.ID ∧
    sampleCodec.decode (sampleCodec.encode (userToken "secret" 1700000000 1700000000 userA)) =
      .ok (userToken "secret" 1700000000 1700000000 userA) ∧
    ' ' ∉ (sampleCodec.encode (userToken "secret" 1700000000 1700000000 userA)).data ∧
    emptySessions.redisConn.broken = false ∧
    (1700000000 : Int) ≤ 1700000100 ∧ (1700000100 : Int) ≤ AddDate 1700000000 4 ∧
    (100 : Int) < 345600 ∧
    Atoi (Itoa userA.ID) = some userA.ID ∧
    (createUserJWT sampleCodec "secret" 1700000000 1700000000 userA).2 = none ∧
    (emptySessions.Create (createUserJWT sampleCodec "secret" 1700000000 1700000000 userA).1
      userA.ID).2 = none ∧
    ValidateJWTToken sampleCodec "secret" 1700000100
        ((emptySessions.Create
          (createUserJWT sampleCodec "secret" 1700000000 1700000000 userA).1 userA.ID).1.later
          100)
        ("Bearer " ++ (createUserJWT sampleCodec "secret" 1700000000 1700000000 userA).1) =
      { outcome := .served userA.ID,
        events := [.parse (createUserJWT sampleCodec "secret" 1700000000 1700000000 userA).1,
                   .check userA.ID, .next userA.ID] } :=
  ⟨by decide, rfl, by decide, by decide, by decide, by decide, by decide,
    issue_then_authenticate sampleCodec "secret" 1700000000 1700000000 1700000100 100 userA
      emptySessions (by decide) rfl (by decide) (by decide) (by decide) (by decide)
      (by decide)⟩

/-! ## Validity windows -/

/-- C16 does not hold for every issue: `createUserJWT` reads the clock once for
`iat` and once more for `exp`; when the second reading falls into the next
second, `exp - iat` is 345601. -/
theorem createUserJWT_window_counterexample :
    numberClaim (userToken "secret" 1700000000 1700000001 userA).Claims "iat" =
      some 1700000000 ∧
    numberClaim (userToken "secret" 1700000000 1700000001 userA).Claims "exp" =
      some 1700345601 ∧
    (1700345601 : Int) - 1700000000 ≠ 345600 := by
  decide

/-- C16 (amended). Validity windows: the token `createUserJWT` signs carries
`iat` = the first reading of the clock and `exp` = the second reading plus 4
days, that is plus 345600 seconds, so that `exp - iat = 345600` when both
readings fall in the same second; `Create` stores the session with a TTL of
`4*24*60*60 = 345600` seconds: in a working store the entry expires 345600
seconds after the store's clock, is live before and gone from then on.  The TTL
equals the distance of `exp` from the second reading. -/
theorem validity_windows (codec : TokenCodec) (tokenKey : String) (iatNow expNow : Time)
    (user : User) (sm : SessionRedisManager) (JWTToken : String) (userID : Int)
    (hstore : sm.redisConn.broken = false) :
    (createUserJWT codec tokenKey iatNow expNow user).1 =
      codec.encode (userToken tokenKey iatNow expNow user) ∧
    numberClaim (userToken tokenKey iatNow expNow user).Claims "iat" = some iatNow ∧
    numberClaim (userToken tokenKey iatNow expNow user).Claims "exp" =
      some (expNow + 345600) ∧
    (iatNow = expNow → (expNow + 345600) - iatNow = 345600) ∧
    (4 * 24 * 60 * 60 : Int) = 345600 ∧
    (createdEntry sm JWTToken userID).expireAt - sm.redisConn.now = 345600 ∧
    (∀ dt : Int, dt < 345600 →
      ((sm.Create JWTToken userID).1.later dt).redisConn.live (sessionKey userID) =
        some (createdEntry sm JWTToken userID)) ∧
    (∀ dt : Int, 345600 ≤ dt →
      ((sm.Create JWTToken userID).1.later dt).redisConn.live (sessionKey userID) = none) := by
  refine ⟨rfl, rfl, ?_, ?_, by decide, ?_, ?_, ?_⟩
  · rw [userToken_exp]
    simp [AddDate]
  · intro h
    rw [h]
    exact add_sub_cancel_left _ _
  · simp only [createdEntry]
    exact add_sub_cancel_left _ _
  · intro dt hdt
    exact live_after_Create sm JWTToken userID dt hstore hdt
  · intro dt hdt
    exact no_live_after_expiry sm JWTToken userID dt hstore hdt

theorem validity_windows_witness :
    emptySessions.redisConn.broken = false ∧
    numberClaim (userToken "secret" 1700000000 1700000000 userA).Claims "iat" =
      some 1700000000 ∧
    numberClaim (userToken "secret" 1700000000 1700000000 userA).Claims "exp" =
      some (1700000000 + 345600) ∧
    (createdEntry emptySessions "hhh.ppp.sss" 1).expireAt - emptySessions.redisConn.now =
      345600 :=
  ⟨by decide,
    (validity_windows sampleCodec "secret" 1700000000 1700000000 userA emptySessions
      "hhh.ppp.sss" 1 (by decide)).2.1,
    (validity_windows sampleCodec "secret" 1700000000 1700000000 userA emptySessions
      "hhh.ppp.sss" 1 (by decide)).2.2.1,
    (validity_windows sampleCodec "secret" 1700000000 1700000000 userA emptySessions
      "hhh.ppp.sss" 1 (by decide)).2.2.2.2.2.1⟩

/-! ## `Create` overwrites -/

theorem entries_after_Create (sm : SessionRedisManager) (JWTToken : String) (userID : Int)
    (hb : sm.redisConn.broken = false) :
    (sm.Create JWTToken userID).1.redisConn.entries.filter
        (fun e => e.key = sessionKey userID) =
      [createdEntry sm JWTToken userID] := by
  rw [Create_of_working sm JWTToken userID hb]
  simp only [List.filter_cons]
  have h1 : decide ((createdEntry sm JWTToken userID).key = sessionKey userID) = true := by
    simp [createdEntry]
  rw [h1, if_pos rfl]
  congr 1
  rw [List.filter_eq_nil_iff]
  intro e he
  simp only [List.mem_filter] at he
  simpa using he.2

theorem later_broken (sm : SessionRedisManager) (dt : Int) :
    (sm.later dt).redisConn.broken = sm.redisConn.broken := rfl

theorem Create_broken (sm : SessionRedisManager) (JWTToken : String) (userID : Int)
    (hb : sm.redisConn.broken = false) :
    (sm.Create JWTToken userID).1.redisConn.broken = false := by
  rw [Create_of_working sm JWTToken userID hb]
  exact hb

/-- C17. Session `Create` overwrites unconditionally: in a working store, for
every identity and tokens `t1`, `t2`, `Create(t1, id)` followed (any time
later) by `Create(t2, id)` both return nil, and `Check(id)`, within 345600
seconds of the second call, returns a session with `JWT = t2` and
`UserID = id`; after a `Create` the store holds exactly one entry under the key
of the identity. -/
theorem Create_overwrites (sm : SessionRedisManager) (userID : Int) (t1 t2 : String)
    (dt1 dt2 : Int) (hstore : sm.redisConn.broken = false) (hdt : dt2 < 345600) :
    (sm.Create t1 userID).2 = none ∧
    (((sm.Create t1 userID).1.later dt1).Create t2 userID).2 = none ∧
    (∃ s : Session,
      (((((sm.Create t1 userID).1.later dt1).Create t2 userID).1.later dt2).Check userID).2 =
        (some s, none) ∧ s.JWT = t2 ∧ s.UserID = userID) ∧
    ((((sm.Create t1 userID).1.later dt1).Create t2 userID).1.redisConn.entries.filter
      (fun e => e.key = sessionKey userID)).length = 1 := by
  have hb1 : ((sm.Create t1 userID).1.later dt1).redisConn.broken = false := by
    rw [later_broken]
    exact Create_broken sm t1 userID hstore
  have hb2 : ((((sm.Create t1 userID).1.later dt1).Create t2 userID).1.later
      dt2).redisConn.broken = false := by
    rw [later_broken]
    exact Create_broken _ t2 userID hb1
  refine ⟨?_, ?_, ?_, ?_⟩
  · rw [Create_of_working sm t1 userID hstore]
  · rw [Create_of_working _ t2 userID hb1]
  · have hlive := live_after_Create ((sm.Create t1 userID).1.later dt1) t2 userID dt2 hb1 hdt
    exact ⟨_, Check_of_live _ userID _ _ hb2 hlive rfl, rfl, rfl⟩
  · rw [entries_after_Create _ t2 userID hb1]
    rfl

theorem Create_overwrites_witness :
    emptySessions.redisConn.broken = false ∧ (10 : Int) < 345600 ∧
    (emptySessions.Create "t1" 1).2 = none ∧
    (((emptySessions.Create "t1" 1).1.later 5).Create "t2" 1).2 = none ∧
    (∃ s : Session,
      (((((emptySessions.Create "t1" 1).1.later 5).Create "t2" 1).1.later 10).Check 1).2 =
        (some s, none) ∧ s.JWT = "t2" ∧ s.UserID = 1) ∧
    ((((emptySessions.Create "t1" 1).1.later 5).Create "t2" 1).1.redisConn.entries.filter
      (fun e => e.key = sessionKey 1)).length = 1 :=
  ⟨by decide, by decide,
    Create_overwrites emptySessions 1 "t1" "t2" 5 10 (by decide) (by decide)⟩

/-! ## `Delete` -/

/-- In a working store `Delete` returns nil for an identity with a session, and
`Check` then fails with `ErrNoSession`. -/
theorem Delete_then_Check (sm : SessionRedisManager) (userID : Int)
    (hb : sm.redisConn.broken = false) :
    (sm.Delete userID).2 = none ∧
    ((sm.Delete userID).1.Check userID).2.2 = some (.models .ErrNoSession) := by
  have hb2 : (sm.Delete userID).1.redisConn.broken = false := by
    rw [Delete_of_working sm userID hb]
    exact hb
  refine ⟨by rw [Delete_of_working sm userID hb], ?_⟩
  rw [Check_of_no_live _ userID (no_live_after_Delete sm userID hb), hb2]
  rfl

/-- C18, at the failing input.  The store has no entries and works; `Check(5)`
fails with `ErrNoSession`, and `Delete(5)`, whose `DEL` is answered with the
integer 0, returns nil. -/
theorem Delete_missing_session_returns_nil :
    emptySessions.redisConn.live (sessionKey 5) = none ∧
    (emptySessions.Check 5).2.2 = some (.models .ErrNoSession) ∧
    (emptySessions.redisConn.Do (.DEL (sessionKey 5))).2 = (.integer 0, none) ∧
    (emptySessions.Delete 5).2 = none := by
  decide

/-! ## `Login` and `Signup` -/

theorem writeToken_head (w : ResponseWriter) (tokenString : String) :
    (writeToken w tokenString).head? = some (.token tokenString) := by
  unfold writeToken
  split <;> rfl

theorem writeToken_of_working (w : ResponseWriter) (tokenString : String)
    (h : w.writeErr = none) : writeToken w tokenString = [.token tokenString] := by
  unfold writeToken
  rw [h]

/-- `Login` after a successful credential lookup, by the error of `Check`. -/
theorem Login_found {σ : Type} (h : UserHandler σ) (codec : TokenCodec) (tokenKey : String)
    (iatNow expNow : Time) (w : ResponseWriter) (sessions : σ) (authForm : AuthForm)
    (user : User)
    (hlookup : h.UserRepo.GetUserFromRepo authForm.Login authForm.Password = .ok user) :
    h.Login codec tokenKey iatNow expNow w sessions (.form authForm) =
      if (h.SessionRepo.Check sessions user.ID).2.2 = some (.models .ErrNoSession) then
        match h.SessionRepo.Create (h.SessionRepo.Check sessions user.ID).1
            (createUserJWT codec tokenKey iatNow expNow user).1 user.ID with
        | (sessions2, some _) =>
          { writes := [.error 500 Error.ErrNoSession.message],
            calls := [.GetUserFromRepo authForm.Login authForm.Password, .Check user.ID,
                      .Create (createUserJWT codec tokenKey iatNow expNow user).1 user.ID],
            sessions := sessions2 }
        | (sessions2, none) =>
          { writes := writeToken w (createUserJWT codec tokenKey iatNow expNow user).1,
            calls := [.GetUserFromRepo authForm.Login authForm.Password, .Check user.ID,
                      .Create (createUserJWT codec tokenKey iatNow expNow user).1 user.ID],
            sessions := sessions2 }
      else
        match (h.SessionRepo.Check sessions user.ID).2.2 with
        | some e =>
          { writes := [.error 500 e.message],
            calls := [.GetUserFromRepo authForm.Login authForm.Password, .Check user.ID],
            sessions := (h.SessionRepo.Check sessions user.ID).1 }
        | none =>
          { writes := writeToken w (createUserJWT codec tokenKey iatNow expNow user).1,
            calls := [.GetUserFromRepo authForm.Login authForm.Password, .Check user.ID],
            sessions := (h.SessionRepo.Check sessions user.ID).1 } := by
  unfold UserHandler.Login
  simp only [hlookup, createUserJWT]

/-- C19. `Login` creates a session exactly when none exists: after a successful
credential lookup, `Login` calls `SessionRepo.Create` if and only if
`SessionRepo.Check` returned `ErrNoSession`, and then with the freshly issued
token and the user's ID; when `Check` returns no error, `Create` is not called,
the session repository is left as `Check` left it (unchanged, for the Redis
store) and the token is written under status 200; when `Check` returns any
other error the answer is 500, `Create` is not called and the repository is
left as `Check` left it.  When `Check` returns `ErrNoSession`, the calls are
the lookup, `Check` and one `Create`, the session repository is the one
`Create` returns for the issued token and the user's ID on the repository
`Check` left, the token is written under status 200 when `Create` returns nil,
and the answer is 500 when `Create` fails. -/
theorem Login_creates_session_iff_none {σ : Type} (h : UserHandler σ) (codec : TokenCodec)
    (tokenKey : String) (iatNow expNow : Time) (w : ResponseWriter) (sessions : σ)
    (authForm : AuthForm) (user : User)
    (hlookup : h.UserRepo.GetUserFromRepo authForm.Login authForm.Password = .ok user) :
    ((∃ (t : String) (userID : Int), RepoCall.Create t userID ∈
        (h.Login codec tokenKey iatNow expNow w sessions (.form authForm)).calls) ↔
      (h.SessionRepo.Check sessions user.ID).2.2 = some (.models .ErrNoSession)) ∧
    (∀ (t : String) (userID : Int), RepoCall.Create t userID ∈
        (h.Login codec tokenKey iatNow expNow w sessions (.form authForm)).calls →
      t = (createUserJWT codec tokenKey iatNow expNow user).1 ∧ userID = user.ID) ∧
    ((h.SessionRepo.Check sessions user.ID).2.2 = none →
      (h.Login codec tokenKey iatNow expNow w sessions (.form authForm)).calls =
        [.GetUserFromRepo authForm.Login authForm.Password, .Check user.ID] ∧
      (h.Login codec tokenKey iatNow expNow w sessions (.form authForm)).sessions =
        (h.SessionRepo.Check sessions user.ID).1 ∧
      (h.Login codec tokenKey iatNow expNow w sessions (.form authForm)).writes.head? =
        some (.token (createUserJWT codec tokenKey iatNow expNow user).1) ∧
      (w.writeErr = none →
        (h.Login codec tokenKey iatNow expNow w sessions (.form authForm)).writes =
          [.token (createUserJWT codec tokenKey iatNow expNow user).1])) ∧
    (∀ e : GoError, (h.SessionRepo.Check sessions user.ID).2.2 = some e →
      e ≠ .models .ErrNoSession →
      (h.Login codec tokenKey iatNow expNow w sessions (.form authForm)).writes =
        [.error 500 e.message] ∧
      (h.Login codec tokenKey iatNow expNow w sessions (.form authForm)).calls =
        [.GetUserFromRepo authForm.Login authForm.Password, .Check user.ID]) ∧
    (∀ (sm : SessionRedisManager) (userID : Int), (redisSessions.Check sm userID).1 = sm) ∧
    ((h.SessionRepo.Check sessions user.ID).2.2 = some (.models .ErrNoSession) →
      (h.Login codec tokenKey iatNow expNow w sessions (.form authForm)).calls =
        [.GetUserFromRepo authForm.Login authForm.Password, .Check user.ID,
         .Create (createUserJWT codec tokenKey iatNow expNow user).1 user.ID] ∧
      (h.Login codec tokenKey iatNow expNow w sessions (.form authForm)).sessions =
        (h.SessionRepo.Create (h.SessionRepo.Check sessions user.ID).1
          (createUserJWT codec tokenKey iatNow expNow user).1 user.ID).1 ∧
      ((h.SessionRepo.Create (h.SessionRepo.Check sessions user.ID).1
          (createUserJWT codec tokenKey iatNow expNow user).1 user.ID).2 = none →
        (h.Login codec tokenKey iatNow expNow w sessions (.form authForm)).writes.head? =
          some (.token (createUserJWT codec tokenKey iatNow expNow user).1) ∧
        (w.writeErr = none →
          (h.Login codec tokenKey iatNow expNow w sessions (.form authForm)).writes =
            [.token (createUserJWT codec tokenKey iatNow expNow user).1])) ∧
      (∀ err : GoError,
        (h.SessionRepo.Create (h.SessionRepo.Check sessions user.ID).1
          (createUserJWT codec tokenKey iatNow expNow user).1 user.ID).2 = some err →
        (h.Login codec tokenKey iatNow expNow w sessions (.form authForm)).writes =
          [.error 500 Error.ErrNoSession.message])) ∧
    (∀ e : GoError, (h.SessionRepo.Check sessions user.ID).2.2 = some e →
      e ≠ .models .ErrNoSession →
      (h.Login codec tokenKey iatNow expNow w sessions (.form authForm)).sessions =
        (h.SessionRepo.Check sessions user.ID).1) := by
  rw [Login_found h codec tokenKey iatNow expNow w sessions authForm user hlookup]
  refine ⟨?_, ?_, ?_, ?_, ?_, ?_, ?_⟩
  · by_cases hc : (h.SessionRepo.Check sessions user.ID).2.2 = some (.models .ErrNoSession)
    · simp only [hc, if_true, iff_true]
      refine ⟨(createUserJWT codec tokenKey iatNow expNow user).1, user.ID, ?_⟩
      split <;> simp
    · simp only [hc, if_false, iff_false]
      rintro ⟨t, userID, hm⟩
      split at hm <;> simp at hm
  · intro t userID hm
    by_cases hc : (h.SessionRepo.Check sessions user.ID).2.2 = some (.models .ErrNoSession)
    · simp only [hc, if_true] at hm
      split at hm <;> simpa using hm
    · simp only [hc, if_false] at hm
      split at hm <;> simp at hm
  · intro hnone
    have hc : ¬ (h.SessionRepo.Check sessions user.ID).2.2 = some (.models .ErrNoSession) := by
      rw [hnone]
      simp
    rw [if_neg hc]
    simp only [hnone]
    refine ⟨trivial, trivial, writeToken_head w _, ?_⟩
    intro hw
    exact writeToken_of_working w _ hw
  · intro e he hne
    have hc : ¬ (h.SessionRepo.Check sessions user.ID).2.2 = some (.models .ErrNoSession) := by
      rw [he]
      simpa using hne
    rw [if_neg hc]
    simp only [he]
    exact ⟨trivial, trivial⟩
  · intro sm userID
    exact Check_state sm userID
  · intro hc
    rw [if_pos hc]
    rcases hres : h.SessionRepo.Create (h.SessionRepo.Check sessions user.ID).1
        (createUserJWT codec tokenKey iatNow expNow user).1 user.ID with ⟨sessions2, err⟩
    cases err with
    | none =>
      refine ⟨rfl, rfl, ?_, ?_⟩
      · intro _
        exact ⟨writeToken_head w _, fun hw => writeToken_of_working w _ hw⟩
      · intro err he
        simp at he
    | some e =>
      refine ⟨rfl, rfl, ?_, ?_⟩
      · intro he
        simp at he
      · intro err _
        rfl
  · intro e he hne
    have hc : ¬ (h.SessionRepo.Check sessions user.ID).2.2 = some (.models .ErrNoSession) := by
      rw [he]
      simpa using hne
    rw [if_neg hc]
    simp only [he]

theorem Login_creates_session_iff_none_witness :
    sampleHandler.UserRepo.GetUserFromRepo "alex12345" "alex12345" = .ok userA ∧
    (sampleHandler.SessionRepo.Check emptySessions userA.ID).2.2 =
      some (.models .ErrNoSession) ∧
    (∃ (t : String) (userID : Int), RepoCall.Create t userID ∈
        (sampleHandler.Login sampleCodec "secret" 1700000000 1700000000 { writeErr := none }
          emptySessions (.form { Login := "alex12345", Password := "alex12345" })).calls) ∧
    (sampleHandler.Login sampleCodec "secret" 1700000000 1700000000 { writeErr := none }
        emptySessions (.form { Login := "alex12345", Password := "alex12345" })).sessions =
      (emptySessions.Create "hhh.ppp.sss" 1).1 ∧
    (sampleHandler.Login sampleCodec "secret" 1700000000 1700000000 { writeErr := none }
        emptySessions (.form { Login := "alex12345", Password := "alex12345" })).sessions.redisConn.live
        (sessionKey 1) = some (createdEntry emptySessions "hhh.ppp.sss" 1) ∧
    (sampleHandler.Login sampleCodec "secret" 1700000000 1700000000 { writeErr := none }
        emptySessions (.form { Login := "alex12345", Password := "alex12345" })).writes =
      [.token "hhh.ppp.sss"] ∧
    (sampleHandler.Login sampleCodec "secret" 1700000000 1700000000 { writeErr := none }
        (emptySessions.Create "another.token.string" 1).1
        (.form { Login := "alex12345", Password := "alex12345" })).sessions =
      (emptySessions.Create "another.token.string" 1).1 :=
  ⟨rfl, by decide,
    (Login_creates_session_iff_none sampleHandler sampleCodec "secret" 1700000000 1700000000
      { writeErr := none } emptySessions { Login := "alex12345", Password := "alex12345" }
      userA rfl).1.mpr (by decide),
    by decide, by decide, by decide, by decide⟩

/-- `Signup` after a successful user creation, by the result of `Create`. -/
theorem Signup_created {σ : Type} (h : UserHandler σ) (codec : TokenCodec) (tokenKey : String)
    (iatNow expNow : Time) (w : ResponseWriter) (sessions : σ) (authForm : AuthForm)
    (user : User)
    (hcreate : h.UserRepo.CreateUser authForm.Login authForm.Password = .ok user) :
    h.Signup codec tokenKey iatNow expNow w sessions (.form authForm) =
      match h.SessionRepo.Create sessions
          (createUserJWT codec tokenKey iatNow expNow user).1 user.ID with
      | (sessions1, some err) =>
        { writes := [.error 500 err.message],
          calls := [.CreateUser authForm.Login authForm.Password,
                    .Create (createUserJWT codec tokenKey iatNow expNow user).1 user.ID],
          sessions := sessions1 }
      | (sessions1, none) =>
        { writes := writeToken w (createUserJWT codec tokenKey iatNow expNow user).1,
          calls := [.CreateUser authForm.Login authForm.Password,
                    .Create (createUserJWT codec tokenKey iatNow expNow user).1 user.ID],
          sessions := sessions1 } := by
  unfold UserHandler.Signup
  simp only [hcreate, createUserJWT]

/-- C20. `Signup` always creates a session: for every request whose user
creation succeeds, `Signup` calls `SessionRepo.Create` exactly once, with the
issued token and the new user's ID, and never calls `Check`; when `Create`
returns nil the token written under status 200 is the string passed to
`Create`, and when `Create` fails the answer is 500 with the error's message and
no token is written. -/
theorem Signup_always_creates {σ : Type} (h : UserHandler σ) (codec : TokenCodec)
    (tokenKey : String) (iatNow expNow : Time) (w : ResponseWriter) (sessions : σ)
    (authForm : AuthForm) (user : User)
    (hcreate : h.UserRepo.CreateUser authForm.Login authForm.Password = .ok user) :
    (h.Signup codec tokenKey iatNow expNow w sessions (.form authForm)).calls =
      [.CreateUser authForm.Login authForm.Password,
       .Create (createUserJWT codec tokenKey iatNow expNow user).1 user.ID] ∧
    (h.Signup codec tokenKey iatNow expNow w sessions (.form authForm)).sessions =
      (h.SessionRepo.Create sessions
        (createUserJWT codec tokenKey iatNow expNow user).1 user.ID).1 ∧
    ((h.SessionRepo.Create sessions
        (createUserJWT codec tokenKey iatNow expNow user).1 user.ID).2 = none →
      (h.Signup codec tokenKey iatNow expNow w sessions (.form authForm)).writes.head? =
        some (.token (createUserJWT codec tokenKey iatNow expNow user).1) ∧
      (w.writeErr = none →
        (h.Signup codec tokenKey iatNow expNow w sessions (.form authForm)).writes =
          [.token (createUserJWT codec tokenKey iatNow expNow user).1])) ∧
    (∀ err : GoError,
      (h.SessionRepo.Create sessions
        (createUserJWT codec tokenKey iatNow expNow user).1 user.ID).2 = some err →
      (h.Signup codec tokenKey iatNow expNow w sessions (.form authForm)).writes =
        [.error 500 err.message]) := by
  rw [Signup_created h codec tokenKey iatNow expNow w sessions authForm user hcreate]
  rcases hres : h.SessionRepo.Create sessions
      (createUserJWT codec tokenKey iatNow expNow user).1 user.ID with ⟨sessions1, err⟩
  cases err with
  | none =>
    refine ⟨rfl, rfl, ?_, ?_⟩
    · intro _
      exact ⟨writeToken_head w _, fun hw => writeToken_of_working w _ hw⟩
    · intro err he
      simp at he
  | some e =>
    refine ⟨rfl, rfl, ?_, ?_⟩
    · intro he
      simp at he
    · intro err he
      simp only [Option.some.injEq] at he
      subst he
      rfl

theorem Signup_always_creates_witness :
    sampleHandler.UserRepo.CreateUser "bob" "pw" =
      .ok { ID := 2, Login := "bob", Password := "pw" } ∧
    (sampleHandler.Signup sampleCodec "secret" 1700000000 1700000000 { writeErr := none }
        emptySessions (.form { Login := "bob", Password := "pw" })).calls =
      [.CreateUser "bob" "pw",
       .Create (createUserJWT sampleCodec "secret" 1700000000 1700000000
          { ID := 2, Login := "bob", Password := "pw" }).1 2] :=
  ⟨rfl,
    (Signup_always_creates sampleHandler sampleCodec "secret" 1700000000 1700000000
      { writeErr := none } emptySessions { Login := "bob", Password := "pw" }
      { ID := 2, Login := "bob", Password := "pw" } rfl).1⟩

/-! ## No rollback -/

/-- C30. No rollback on a failed persist: for every valid rate the post left by
`UpvotePost` is the in-memory update of the caller's post whatever the store
does, so it is the same when the call returns `ErrUpdatePost` or `ErrNoPost` as
when it returns nil; a collection that answers with an error gives
`ErrUpdatePost`, one that does not hold the post gives `ErrNoPost`.  The
in-memory update is skipped, and the post left as it was, on the path of an
invalid rate only. -/
theorem UpvotePost_no_rollback (repo : PostMongoDBRepository) (user : User) (post : Post)
    (rate : Int) :
    ((rate = -1 ∨ rate = 0 ∨ rate = 1) →
      (repo.UpvotePost user post rate).post = UpvotePost.inMemory user post rate ∧
      (∀ other : PostMongoDBRepository,
        (other.UpvotePost user post rate).post = (repo.UpvotePost user post rate).post) ∧
      (repo.DB.failing = true →
        (repo.UpvotePost user post rate).err = some Error.ErrUpdatePost) ∧
      (repo.DB.failing = false → repo.DB.docs = [] →
        (repo.UpvotePost user post rate).err = some Error.ErrNoPost)) ∧
    (¬ (rate = -1 ∨ rate = 0 ∨ rate = 1) →
      (repo.UpvotePost user post rate).post = post) := by
  constructor
  · intro hrate
    refine ⟨UpvotePost_post repo user post rate hrate, ?_, ?_, ?_⟩
    · intro other
      rw [UpvotePost_post other user post rate hrate, UpvotePost_post repo user post rate hrate]
    · intro hf
      rw [UpvotePost_err repo user post rate hrate, if_pos hf]
    · intro hf hd
      rw [UpvotePost_err repo user post rate hrate, hf, hd]
      rfl
  · intro hrate
    rw [UpvotePost_of_invalid repo user post rate hrate]

theorem UpvotePost_no_rollback_witness :
    ((1 : Int) = -1 ∨ (1 : Int) = 0 ∨ (1 : Int) = 1) ∧
    (failingRepo.UpvotePost userB freshPost 1).err = some Error.ErrUpdatePost ∧
    (emptyRepo.UpvotePost userB freshPost 1).err = some Error.ErrNoPost ∧
    (liveRepo.UpvotePost userB freshPost 1).err = none ∧
    (failingRepo.UpvotePost userB freshPost 1).post = UpvotePost.inMemory userB freshPost 1 ∧
    (emptyRepo.UpvotePost userB freshPost 1).post =
      (failingRepo.UpvotePost userB freshPost 1).post ∧
    (liveRepo.UpvotePost userB freshPost 1).post =
      (failingRepo.UpvotePost userB freshPost 1).post ∧
    ¬ ((5 : Int) = -1 ∨ (5 : Int) = 0 ∨ (5 : Int) = 1) ∧
    (failingRepo.UpvotePost userB freshPost 5).post = freshPost :=
  ⟨by decide, by decide, by decide, by decide,
    ((UpvotePost_no_rollback failingRepo userB freshPost 1).1 (by decide)).1,
    ((UpvotePost_no_rollback failingRepo userB freshPost 1).1 (by decide)).2.1 emptyRepo,
    ((UpvotePost_no_rollback failingRepo userB freshPost 1).1 (by decide)).2.1 liveRepo,
    by decide,
    (UpvotePost_no_rollback failingRepo userB freshPost 5).2 (by decide)⟩

/-! ## The frame of `UpvotePost` -/

theorem inMemory_frame (user : User) (post : Post) (rate : Int) :
    (UpvotePost.inMemory user post rate).frame = post.frame := by
  rw [inMemory_eq]
  unfold recompute record withdraw Post.frame
  split <;> split <;> rfl

theorem filter_eraseP_others (user : User) (vs : List Vote) :
    (vs.eraseP (byUser user)).filter (fun v => !byUser user v) =
      vs.filter (fun v => !byUser user v) := by
  induction vs with
  | nil => rfl
  | cons x xs ih =>
    by_cases hx : byUser user x = true
    · simp [List.eraseP_cons, hx, List.filter_cons]
    · have hx2 : byUser user x = false := by simpa using hx
      simp only [List.eraseP_cons, hx2, cond_false, List.filter_cons, Bool.not_false, if_true,
        Bool.false_eq_true, if_false]
      rw [ih]

theorem length_eraseP_voter (user : User) (vs : List Vote) :
    ((vs.eraseP (byUser user)).length : Int) =
      (vs.length : Int) - (if user.ID ∈ voterIDs vs then 1 else 0) := by
  by_cases hm : user.ID ∈ voterIDs vs
  · obtain ⟨v, hv, hid⟩ := List.mem_map.mp hm
    have hb : byUser user v = true := by simpa [byUser] using hid
    have hlen := List.length_eraseP_of_mem hv hb
    have hpos : 0 < vs.length := List.length_pos_of_mem hv
    rw [if_pos hm, hlen]
    omega
  · rw [if_neg hm, List.eraseP_of_forall_not (no_record_of_not_mem user vs hm)]
    simp

/-- The repository left by `UpvotePost` for a valid rate. -/
theorem UpvotePost_repo (repo : PostMongoDBRepository) (user : User) (post : Post)
    (rate : Int) (h : rate = -1 ∨ rate = 0 ∨ rate = 1) :
    (repo.UpvotePost user post rate).repo =
      { DB := (repo.DB.UpdateOne (UpvotePost.inMemory user post rate).ID
          (voteSetOf (UpvotePost.inMemory user post rate))).1 } := by
  have hr : (decide (rate > 1) || decide (rate < -1)) = false := by
    rcases h with h | h | h <;> subst h <;> decide
  unfold PostMongoDBRepository.UpvotePost
  simp only [hr, Bool.false_eq_true, if_false]
  split
  · rfl
  · split <;> rfl

theorem UpdateOne_received (c : Collection) (id : ObjectID) (s : VoteSet) :
    (c.UpdateOne id s).1.received = c.received ++ [⟨id, s⟩] := by
  unfold Collection.UpdateOne
  by_cases hf : c.failing = true
  · simp [hf]
  · simp only [hf, Bool.false_eq_true, if_false]
    split <;> rfl

theorem updateFirst_frame (id : ObjectID) (s : VoteSet) (ds : List Post) :
    (updateFirst id s ds).map Post.frame = ds.map Post.frame := by
  induction ds with
  | nil => rfl
  | cons d ds ih =>
    unfold updateFirst
    split
    · simp [applySet, Post.frame]
    · simp [ih]

theorem UpdateOne_frame (c : Collection) (id : ObjectID) (s : VoteSet) :
    (c.UpdateOne id s).1.docs.map Post.frame = c.docs.map Post.frame := by
  unfold Collection.UpdateOne
  by_cases hf : c.failing = true
  · simp [hf]
  · simp only [hf, Bool.false_eq_true, if_false]
    split
    · rfl
    · exact updateFirst_frame id s c.docs

/-- C27. Frame of `UpvotePost`: for every post, user `u` and rate among -1, 0, 1,
the records of the voters other than `u` are kept, unchanged and in the same
order; the new `Votes` is the old one without `u`'s first record, followed by
`u`'s new record when the rate is not 0; `len(Votes)` changes by one for a rate
other than 0 minus one when `u` had a record; every field of the post other
than `Score`, `Votes` and `UpvotePercentage` is unchanged; the collection
receives exactly one more command, an update of the document with the post's
`_id` that sets `votes`, `score` and `upvotePercentage` to the new values, and
every stored document keeps its other fields. -/
theorem UpvotePost_frame (repo : PostMongoDBRepository) (user : User) (post : Post)
    (rate : Int) (hrate : rate = -1 ∨ rate = 0 ∨ rate = 1) :
    (repo.UpvotePost user post rate).post.Votes.filter (fun v => !byUser user v) =
      post.Votes.filter (fun v => !byUser user v) ∧
    (repo.UpvotePost user post rate).post.Votes =
      post.Votes.eraseP (byUser user) ++ (if rate = 0 then [] else [newVote user rate]) ∧
    (rate ≠ 0 →
      (repo.UpvotePost user post rate).post.Votes.getLast? = some (newVote user rate)) ∧
    ((repo.UpvotePost user post rate).post.Votes.length : Int) =
      (post.Votes.length : Int) + (if rate = 0 then 0 else 1) -
        (if user.ID ∈ voterIDs post.Votes then 1 else 0) ∧
    (repo.UpvotePost user post rate).post.frame = post.frame ∧
    (repo.UpvotePost user post rate).repo.DB.received =
      repo.DB.received ++
        [{ filterID := post.ID,
           set := { votes := (repo.UpvotePost user post rate).post.Votes,
                    score := (repo.UpvotePost user post rate).post.Score,
                    upvotePercentage := (repo.UpvotePost user post rate).post.UpvotePercentage } }] ∧
    (repo.UpvotePost user post rate).repo.DB.docs.map Post.frame =
      repo.DB.docs.map Post.frame := by
  have hif : (if rate = 1 ∨ rate = -1 then [newVote user rate] else []) =
      (if rate = 0 then [] else [newVote user rate]) := by
    rcases hrate with h | h | h <;> subst h <;> simp
  have hV : (UpvotePost.inMemory user post rate).Votes =
      post.Votes.eraseP (byUser user) ++ (if rate = 0 then [] else [newVote user rate]) := by
    rw [inMemory_Votes, hif]
  have hID : (UpvotePost.inMemory user post rate).ID = post.ID := by
    have h := congrArg (fun p : Post => p.ID) (inMemory_frame user post rate)
    exact h
  rw [UpvotePost_post repo user post rate hrate, UpvotePost_repo repo user post rate hrate]
  refine ⟨?_, hV, ?_, ?_, inMemory_frame user post rate, ?_, ?_⟩
  · rw [hV, List.filter_append, filter_eraseP_others]
    by_cases h0 : rate = 0
    · simp [h0]
    · simp [h0, byUser_newVote]
  · intro h0
    rw [hV, if_neg h0, List.getLast?_concat]
  · rw [hV, List.length_append, Nat.cast_add, length_eraseP_voter]
    by_cases h0 : rate = 0
    · simp [h0]
    · simp only [h0, if_false, List.length_singleton, Nat.cast_one]
      omega
  · rw [UpdateOne_received, hID]
    rfl
  · exact UpdateOne_frame _ _ _

theorem UpvotePost_frame_witness :
    ((-1 : Int) = -1 ∨ (-1 : Int) = 0 ∨ (-1 : Int) = 1) ∧
    (liveRepo.UpvotePost userA mixedPost (-1)).post.Votes =
      mixedPost.Votes.eraseP (byUser userA) ++
        (if (-1 : Int) = 0 then [] else [newVote userA (-1)]) ∧
    (liveRepo.UpvotePost userA mixedPost (-1)).post.frame = mixedPost.frame :=
  ⟨by decide,
    (UpvotePost_frame liveRepo userA mixedPost (-1) (by decide)).2.1,
    (UpvotePost_frame liveRepo userA mixedPost (-1) (by decide)).2.2.2.2.1⟩

/-! ## The approval percentage is two-valued -/

theorem exactSum_all_up (vs : List Vote) (h : ∀ v ∈ vs, v.Vote = 1) :
    exactSum vs = (vs.length : Int) := by
  induction vs with
  | nil => simp [exactSum]
  | cons x xs ih =>
    have hx := h x (List.mem_cons_self x xs)
    have hxs := ih (fun v hv => h v (List.mem_cons_of_mem x hv))
    simp only [exactSum, List.map_cons, List.sum_cons, List.length_cons, Nat.cast_add,
      Nat.cast_one] at hxs ⊢
    omega

theorem exactSum_some_down (vs : List Vote)
    (h : ∀ v ∈ vs, v.Vote = -1 ∨ v.Vote = 1) (hd : ∃ v ∈ vs, v.Vote ≠ 1) :
    exactSum vs < (vs.length : Int) := by
  induction vs with
  | nil =>
    obtain ⟨v, hv, _⟩ := hd
    simp at hv
  | cons x xs ih =>
    have hx := h x (List.mem_cons_self x xs)
    have hb := exactSum_bounds xs (fun v hv => by
      rcases h v (List.mem_cons_of_mem x hv) with e | e
      · exact Or.inl e
      · exact Or.inr (Or.inr e))
    simp only [exactSum, List.map_cons, List.sum_cons, List.length_cons, Nat.cast_add,
      Nat.cast_one] at hb ⊢
    by_cases hx1 : x.Vote = 1
    · have hd2 : ∃ v ∈ xs, v.Vote ≠ 1 := by
        obtain ⟨v, hv, hne⟩ := hd
        rcases List.mem_cons.mp hv with e | e
        · subst e
          exact absurd hx1 hne
        · exact ⟨v, e, hne⟩
      have := ih (fun v hv => h v (List.mem_cons_of_mem x hv)) hd2
      simp only [exactSum] at this
      omega
    · omega

theorem inMemory_vote_signs (user : User) (post : Post) (rate : Int)
    (h : ∀ v ∈ post.Votes, v.Vote = -1 ∨ v.Vote = 1) :
    ∀ v ∈ (UpvotePost.inMemory user post rate).Votes, v.Vote = -1 ∨ v.Vote = 1 := by
  intro v hv
  rw [inMemory_Votes, List.mem_append] at hv
  rcases hv with hv | hv
  · exact h v (List.mem_of_mem_eraseP hv)
  · split at hv
    · rename_i hr
      simp only [List.mem_singleton] at hv
      subst hv
      rcases hr with e | e
      · exact Or.inr e
      · exact Or.inl e
    · simp at hv

theorem inMemory_length_le (user : User) (post : Post) (rate : Int) :
    (UpvotePost.inMemory user post rate).Votes.length ≤ post.Votes.length + 1 := by
  rw [inMemory_Votes, List.length_append]
  have h1 : (post.Votes.eraseP (byUser user)).length ≤ post.Votes.length :=
    List.length_eraseP_le post.Votes
  have h2 : (if rate = 1 ∨ rate = -1 then [newVote user rate] else []).length ≤ 1 := by
    split <;> simp
  omega

/-- The percentage for a score that is the exact sum of `n` votes of value -1 or 1. -/
theorem percentage_of_signs (vs : List Vote) (score : Int)
    (hscore : score = exactSum vs) (hsigns : ∀ v ∈ vs, v.Vote = -1 ∨ v.Vote = 1) :
    (if score < 0 ∨ vs.length = 0 then 0
     else wrapInt (Int.tdiv score (vs.length : Int) * 100)) =
      (if vs ≠ [] ∧ ∀ v ∈ vs, v.Vote = 1 then (100 : Int) else 0) := by
  by_cases hall : vs ≠ [] ∧ ∀ v ∈ vs, v.Vote = 1
  · have hn : 0 < (vs.length : Int) := by
      have := List.length_pos.mpr hall.1
      omega
    have hs : score = (vs.length : Int) := by rw [hscore, exactSum_all_up vs hall.2]
    have hc : ¬ (score < 0 ∨ vs.length = 0) := by
      intro h
      rcases h with h | h
      · omega
      · omega
    rw [if_neg hc, if_pos hall, hs, Int.tdiv_eq_ediv (le_of_lt hn) (le_of_lt hn),
      Int.ediv_self (ne_of_gt hn)]
    decide
  · rw [if_neg hall]
    by_cases hc : score < 0 ∨ vs.length = 0
    · rw [if_pos hc]
    · rw [if_neg hc]
      have hne : vs ≠ [] := by
        intro he
        apply hc
        right
        rw [he]
        rfl
      have hd : ∃ v ∈ vs, v.Vote ≠ 1 := by
        by_contra hcon
        apply hall
        refine ⟨hne, ?_⟩
        intro v hv
        by_contra hv1
        exact hcon ⟨v, hv, hv1⟩
      have hlt := exactSum_some_down vs hsigns hd
      have h0 : 0 ≤ score := by
        by_contra hneg
        exact hc (Or.inl (by omega))
      rw [Int.tdiv_eq_zero_of_lt h0 (by rw [hscore]; exact hlt)]
      decide

/-- C28. The approval percentage is two-valued: for every post whose `Score` is
the sum of its votes, each of value -1 or +1 (`Votes` being a Go slice, whose
length plus one is below the largest `int`), after `UpvotePost` with a rate
among -1, 0, 1 the `UpvotePercentage` is 100 if `Votes` is non-empty and every
vote is +1, and 0 in every other case. -/
theorem UpvotePost_percentage_two_valued (repo : PostMongoDBRepository) (user : User)
    (post : Post) (rate : Int) (hrate : rate = -1 ∨ rate = 0 ∨ rate = 1)
    (hsum : post.Score = sumVotes post.Votes)
    (hsigns : ∀ v ∈ post.Votes, v.Vote = -1 ∨ v.Vote = 1)
    (hlen : (post.Votes.length : Int) < 9223372036854775807) :
    (repo.UpvotePost user post rate).post.UpvotePercentage =
      (if (repo.UpvotePost user post rate).post.Votes ≠ [] ∧
          ∀ v ∈ (repo.UpvotePost user post rate).post.Votes, v.Vote = 1 then 100 else 0) := by
  rw [UpvotePost_post repo user post rate hrate]
  rw [sumVotes_eq] at hsum
  have hS := inMemory_score_sum user post rate hsum
  have hsg := inMemory_vote_signs user post rate hsigns
  have hb := exactSum_bounds (UpvotePost.inMemory user post rate).Votes (fun v hv => by
    rcases hsg v hv with e | e
    · exact Or.inl e
    · exact Or.inr (Or.inr e))
  have hle := inMemory_length_le user post rate
  have hfit : isGoInt (exactSum (UpvotePost.inMemory user post rate).Votes) := by
    unfold isGoInt
    omega
  rw [wrapInt_of_isGoInt hfit] at hS
  rw [inMemory_UpvotePercentage]
  exact percentage_of_signs _ _ hS hsg

theorem UpvotePost_percentage_two_valued_witness :
    ((1 : Int) = -1 ∨ (1 : Int) = 0 ∨ (1 : Int) = 1) ∧
    freshPost.Score = sumVotes freshPost.Votes ∧
    (∀ v ∈ freshPost.Votes, v.Vote = -1 ∨ v.Vote = 1) ∧
    ((freshPost.Votes.length : Int) < 9223372036854775807) ∧
    (liveRepo.UpvotePost userB freshPost 1).post.UpvotePercentage =
      (if (liveRepo.UpvotePost userB freshPost 1).post.Votes ≠ [] ∧
          ∀ v ∈ (liveRepo.UpvotePost userB freshPost 1).post.Votes, v.Vote = 1
        then 100 else 0) :=
  ⟨by decide, by decide, by decide, by decide,
    UpvotePost_percentage_two_valued liveRepo userB freshPost 1 (by decide) (by decide)
      (by decide) (by decide)⟩

/-! ## Liveness of the session gates the request -/

/-- C21. Session liveness, not token equality, gates requests: for every valid,
unexpired token that names the identity `userID` and every working store that
holds a live session for `userID`, whatever token that session records,
`ValidateJWTToken` accepts the request and calls the next handler with
`userID`; the run is the same for any two such stores. -/
theorem ValidateJWTToken_session_liveness (codec : TokenCodec) (tokenKey : String)
    (now : Time) (tokenString : String) (token : Token)
    (claimsUser : List (String × FieldValue)) (userIDString : String) (userID : Int)
    (repo1 repo2 : SessionRedisManager) (e1 e2 : Entry) (s1 s2 : Session)
    (hdec : codec.decode tokenString = .ok token) (hspace : ' ' ∉ tokenString.data)
    (hmethod : token.Method = SigningMethodHS256) (hsig : token.SignedWith = some tokenKey)
    (htime : claimsValid token.Claims now = none)
    (huser : token.Claims.lookup "user" = some (.object claimsUser))
    (hid : claimsUser.lookup "id" = some (.string userIDString))
    (hint : Atoi userIDString = some userID)
    (hb1 : repo1.redisConn.broken = false)
    (hl1 : repo1.redisConn.live (sessionKey userID) = some e1)
    (hv1 : e1.value = .sessionJSON s1)
    (hb2 : repo2.redisConn.broken = false)
    (hl2 : repo2.redisConn.live (sessionKey userID) = some e2)
    (hv2 : e2.value = .sessionJSON s2) :
    ValidateJWTToken codec tokenKey now repo1 ("Bearer " ++ tokenString) =
      { outcome := .served userID,
        events := [.parse tokenString, .check userID, .next userID] } ∧
    ValidateJWTToken codec tokenKey now repo2 ("Bearer " ++ tokenString) =
      ValidateJWTToken codec tokenKey now repo1 ("Bearer " ++ tokenString) := by
  have hrun : ∀ (repo : SessionRedisManager) (e : Entry) (s : Session),
      repo.redisConn.broken = false → repo.redisConn.live (sessionKey userID) = some e →
      e.value = .sessionJSON s →
      ValidateJWTToken codec tokenKey now repo ("Bearer " ++ tokenString) =
        { outcome := .served userID,
          events := [.parse tokenString, .check userID, .next userID] } := by
    intro repo e s hb hl hv
    rw [ValidateJWTToken_valid_token codec tokenKey now repo tokenString token claimsUser
      userIDString userID hdec hspace hmethod hsig htime huser hid hint,
      Check_of_live repo userID e s hb hl hv]
  exact ⟨hrun repo1 e1 s1 hb1 hl1 hv1,
    by rw [hrun repo1 e1 s1 hb1 hl1 hv1, hrun repo2 e2 s2 hb2 hl2 hv2]⟩

theorem ValidateJWTToken_session_liveness_witness :
    sampleCodec.decode "hhh.ppp.sss" = .ok sampleToken ∧ ' ' ∉ "hhh.ppp.sss".data ∧
    sampleToken.Method = SigningMethodHS256 ∧ sampleToken.SignedWith = some "secret" ∧
    claimsValid sampleToken.Claims 1700000100 = none ∧
    otherTokenSessions.redisConn.broken = false ∧
    otherTokenSessions.redisConn.live (sessionKey 1) =
      some (createdEntry emptySessions "another.token.string" 1) ∧
    (emptySessions.Create "hhh.ppp.sss" 1).1.redisConn.live (sessionKey 1) =
      some (createdEntry emptySessions "hhh.ppp.sss" 1) ∧
    ValidateJWTToken sampleCodec "secret" 1700000100 otherTokenSessions
        ("Bearer " ++ "hhh.ppp.sss") =
      { outcome := .served 1, events := [.parse "hhh.ppp.sss", .check 1, .next 1] } ∧
    ValidateJWTToken sampleCodec "secret" 1700000100 (emptySessions.Create "hhh.ppp.sss" 1).1
        ("Bearer " ++ "hhh.ppp.sss") =
      ValidateJWTToken sampleCodec "secret" 1700000100 otherTokenSessions
        ("Bearer " ++ "hhh.ppp.sss") :=
  ⟨rfl, by decide, by decide, by decide, by decide, by decide, by decide, by decide,
    ValidateJWTToken_session_liveness sampleCodec "secret" 1700000100 "hhh.ppp.sss"
      sampleToken [("username", .string "alex12345"), ("id", .string "1")] "1" 1
      otherTokenSessions (emptySessions.Create "hhh.ppp.sss" 1).1
      (createdEntry emptySessions "another.token.string" 1)
      (createdEntry emptySessions "hhh.ppp.sss" 1)
      { ID := 1, JWT := "another.token.string", UserID := 1,
        ExpiresAt := AddDate emptySessions.redisConn.now 4 }
      { ID := 1, JWT := "hhh.ppp.sss", UserID := 1,
        ExpiresAt := AddDate emptySessions.redisConn.now 4 }
      rfl (by decide) (by decide) (by decide) (by decide) (by decide) (by decide) (by decide)
      (by decide) (by decide) rfl (by decide) (by decide) rfl⟩

/-! ## The reply to `SET` -/

theorem formatNat_injective (x y : Nat) (h : formatNat x = formatNat y) : x = y := by
  have hx := parseDigits_formatNat x
  rw [h, parseDigits_formatNat y] at hx
  exact (Option.some.inj hx).symm

theorem formatNat_head_ne_minus (x : Nat) (rest : List Char) :
    formatNat x ≠ '-' :: rest := by
  intro h
  obtain ⟨d, hd⟩ := digitValue_of_mem_formatNat x '-' (by rw [h]; simp)
  simp [digitValue] at hd

theorem Itoa_injective (a b : Int) (h : Itoa a = Itoa b) : a = b := by
  unfold Itoa at h
  by_cases ha : a < 0 <;> by_cases hb : b < 0
  · simp only [ha, hb, if_true] at h
    have hd : ('-' :: formatNat (-a).toNat) = ('-' :: formatNat (-b).toNat) :=
      congrArg String.data h
    have := formatNat_injective _ _ (List.cons.inj hd).2
    omega
  · simp only [ha, hb, if_true, if_false] at h
    have hd : ('-' :: formatNat (-a).toNat) = formatNat b.toNat := congrArg String.data h
    exact absurd hd.symm (formatNat_head_ne_minus _ _)
  · simp only [ha, hb, if_true, if_false] at h
    have hd : formatNat a.toNat = ('-' :: formatNat (-b).toNat) := congrArg String.data h
    exact absurd hd (formatNat_head_ne_minus _ _)
  · simp only [ha, hb, if_false] at h
    have hd : formatNat a.toNat = formatNat b.toNat := congrArg String.data h
    have := formatNat_injective _ _ hd
    omega

theorem sessionKey_injective (a b : Int) (h : sessionKey a = sessionKey b) : a = b := by
  unfold sessionKey at h
  apply Itoa_injective
  have hd := congrArg String.data h
  rw [String.data_append, String.data_append] at hd
  exact String.ext (List.append_cancel_left hd)

/-- The result of `Check`, by the state of the connection and the live entry
under the key. -/
theorem Check_result (sm : SessionRedisManager) (userID : Int) :
    (sm.Check userID).2 =
      if sm.redisConn.broken = true then (none, some (.redis "connection failed"))
      else
        match sm.redisConn.live (sessionKey userID) with
        | none => (none, some (.models .ErrNoSession))
        | some e =>
          match e.value with
          | .sessionJSON s => (some s, none)
          | .text _ => (none, some (.json "invalid character")) := by
  unfold SessionRedisManager.Check RedisConn.Do
  by_cases hbr : sm.redisConn.broken = true
  · simp [hbr, redisBytes]
  · simp only [hbr, Bool.false_eq_true, if_false]
    cases sm.redisConn.live (sessionKey userID) with
    | none => simp [redisBytes]
    | some e =>
      simp only [redisBytes]
      cases e.value <;> simp [unmarshalSession]

/-- The result of `Check` depends on the store through the state of the
connection and the live entry under the key only. -/
theorem Check_congr (sm1 sm2 : SessionRedisManager) (userID : Int)
    (hb : sm1.redisConn.broken = sm2.redisConn.broken)
    (hl : sm1.redisConn.live (sessionKey userID) = sm2.redisConn.live (sessionKey userID)) :
    (sm1.Check userID).2 = (sm2.Check userID).2 := by
  rw [Check_result, Check_result, hb, hl]

theorem live_filter_other (c : RedisConn) (ka kb : String) (h : ka ≠ kb) :
    (c.entries.filter (fun e => e.key ≠ ka)).find? (fun e => e.key = kb ∧ c.now < e.expireAt) =
      c.entries.find? (fun e => e.key = kb ∧ c.now < e.expireAt) := by
  generalize c.entries = l
  induction l with
  | nil => rfl
  | cons x xs ih =>
    by_cases hx : x.key = ka
    · have hxb : x.key ≠ kb := fun e => h (hx.symm.trans e)
      have hf : decide (x.key ≠ ka) = false := by simp [hx]
      have hp : decide (x.key = kb ∧ c.now < x.expireAt) = false := by simp [hxb]
      rw [List.filter_cons, hf, List.find?_cons, hp]
      simp only [Bool.false_eq_true, if_false]
      exact ih
    · have hf : decide (x.key ≠ ka) = true := by simp [hx]
      rw [List.filter_cons, hf, if_pos rfl, List.find?_cons, List.find?_cons, ih]

theorem Create_other (sm : SessionRedisManager) (JWTToken : String) (a b : Int)
    (h : a ≠ b) :
    (sm.Create JWTToken a).1.redisConn.broken = sm.redisConn.broken ∧
    (sm.Create JWTToken a).1.redisConn.live (sessionKey b) =
      sm.redisConn.live (sessionKey b) := by
  have hk : sessionKey a ≠ sessionKey b := fun e => h (sessionKey_injective a b e)
  by_cases hb : sm.redisConn.broken = true
  · have : (sm.Create JWTToken a).1 = sm := by
      unfold SessionRedisManager.Create RedisConn.Do
      simp [hb, redisString]
    rw [this]
    exact ⟨rfl, rfl⟩
  · have hb2 : sm.redisConn.broken = false := by simpa using hb
    rw [Create_of_working sm JWTToken a hb2]
    refine ⟨rfl, ?_⟩
    unfold RedisConn.live
    simp only [List.find?_cons]
    have hne : decide ((createdEntry sm JWTToken a).key = sessionKey b ∧
        sm.redisConn.now < (createdEntry sm JWTToken a).expireAt) = false := by
      simp [createdEntry, hk]
    rw [hne]
    exact live_filter_other sm.redisConn (sessionKey a) (sessionKey b) hk

theorem Delete_other (sm : SessionRedisManager) (a b : Int) (h : a ≠ b) :
    (sm.Delete a).1.redisConn.broken = sm.redisConn.broken ∧
    (sm.Delete a).1.redisConn.live (sessionKey b) = sm.redisConn.live (sessionKey b) := by
  have hk : sessionKey a ≠ sessionKey b := fun e => h (sessionKey_injective a b e)
  by_cases hb : sm.redisConn.broken = true
  · have : (sm.Delete a).1 = sm := by
      unfold SessionRedisManager.Delete RedisConn.Do
      simp [hb, redisInt]
    rw [this]
    exact ⟨rfl, rfl⟩
  · have hb2 : sm.redisConn.broken = false := by simpa using hb
    rw [Delete_of_working sm a hb2]
    refine ⟨rfl, ?_⟩
    unfold RedisConn.live
    exact live_filter_other sm.redisConn (sessionKey a) (sessionKey b) hk

/-- C29. Sessions of different identities do not interfere: the key
`"sessions:" + strconv.Itoa(userID)` is injective in `userID`, and for all
identities `a ≠ b`, `Create(t, a)` and `Delete(a)` leave the result of
`Check(b)` unchanged. -/
theorem sessions_do_not_interfere (sm : SessionRedisManager) (JWTToken : String) (a b : Int)
    (h : a ≠ b) :
    sessionKey a ≠ sessionKey b ∧
    ((sm.Create JWTToken a).1.Check b).2 = (sm.Check b).2 ∧
    ((sm.Delete a).1.Check b).2 = (sm.Check b).2 := by
  refine ⟨fun e => h (sessionKey_injective a b e), ?_, ?_⟩
  · exact Check_congr _ _ b (Create_other sm JWTToken a b h).1 (Create_other sm JWTToken a b h).2
  · exact Check_congr _ _ b (Delete_other sm a b h).1 (Delete_other sm a b h).2

theorem sessions_do_not_interfere_witness :
    (2 : Int) ≠ 1 ∧ sessionKey 2 ≠ sessionKey 1 ∧
    ((otherTokenSessions.Create "t" 2).1.Check 1).2 = (otherTokenSessions.Check 1).2 ∧
    ((otherTokenSessions.Delete 2).1.Check 1).2 = (otherTokenSessions.Check 1).2 :=
  ⟨by decide, sessions_do_not_interfere otherTokenSessions "t" 2 1 (by decide)⟩

/-! ## The filter of `GetAllPosts` -/

theorem validPostCategories_lookup (category : String) :
    (validPostCategories.lookup category).isNone = true ↔
      category ∉ ["music", "funny", "videos", "programming", "news", "fashion"] := by
  unfold validPostCategories
  simp only [List.lookup, List.mem_cons, List.mem_singleton, List.not_mem_nil, or_false,
    not_or]
  by_cases h1 : category = "music"
  · simp [h1]
  by_cases h2 : category = "funny"
  · simp [h2]
  by_cases h3 : category = "videos"
  · simp [h3]
  by_cases h4 : category = "programming"
  · simp [h4]
  by_cases h5 : category = "news"
  · simp [h5]
  by_cases h6 : category = "fashion"
  · simp [h6]
  have b1 : (category == "music") = false := by simpa using h1
  have b2 : (category == "funny") = false := by simpa using h2
  have b3 : (category == "videos") = false := by simpa using h3
  have b4 : (category == "programming") = false := by simpa using h4
  have b5 : (category == "news") = false := by simpa using h5
  have b6 : (category == "fashion") = false := by simpa using h6
  simp [h1, h2, h3, h4, h5, h6, b1, b2, b3, b4, b5, b6]

/-- What `GetAllPosts.query` returns is what `Find` returns for the filter. -/
theorem GetAllPosts_query_result (repo : PostMongoDBRepository) (filter : Filter) :
    (GetAllPosts.query repo filter).queries = [filter] ∧
    (∀ posts : List Post, repo.DB.Find filter = .ok posts →
      GetAllPosts.query repo filter = { posts := some posts, err := none, queries := [filter] }) ∧
    (∀ err : GoError, repo.DB.Find filter = .error err →
      GetAllPosts.query repo filter = { posts := none, err := some err, queries := [filter] }) ∧
    (repo.DB.failing = false →
      GetAllPosts.query repo filter =
        { posts := some (repo.DB.docs.filter (matchesFilter filter)), err := none,
          queries := [filter] }) := by
  refine ⟨?_, ?_, ?_, ?_⟩
  · unfold GetAllPosts.query
    split <;> rfl
  · intro posts hf
    unfold GetAllPosts.query
    rw [hf]
  · intro err hf
    unfold GetAllPosts.query
    rw [hf]
  · intro hw
    unfold GetAllPosts.query Collection.Find
    rw [hw]
    rfl

theorem matchesFilter_category (category : String) (d : Post) :
    matchesFilter [("category", category)] d = (d.Category == category) := by
  simp [matchesFilter, Post.field]

theorem matchesFilter_username (username : String) (d : Post) :
    matchesFilter [("author.username", username)] d = (d.Author.Login == username) := by
  simp [matchesFilter, Post.field]

theorem matchesFilter_empty (d : Post) : matchesFilter [] d = true := rfl

/-- C23. `GetAllPosts` filter selection: for every category and username, a
non-empty category outside music, funny, videos, programming, news, fashion
yields `ErrIncorrectPostCategory` and no query; a valid non-empty category
queries with the filter `category` only, whatever the username; an empty
category with a non-empty username queries with the filter `author.username`
only; both empty query with the empty filter.  In each of the three cases the
posts and the error returned are those `Find` returns for that filter: on a
working collection, the stored posts of the category, those whose author has
the username, and all stored posts. -/
theorem GetAllPosts_filter (repo : PostMongoDBRepository) (category username : String) :
    (category ≠ "" →
      category ∉ ["music", "funny", "videos", "programming", "news", "fashion"] →
      repo.GetAllPosts category username =
        { posts := none, err := some (.models .ErrIncorrectPostCategory), queries := [] }) ∧
    (category ≠ "" →
      category ∈ ["music", "funny", "videos", "programming", "news", "fashion"] →
      (repo.GetAllPosts category username).queries = [[("category", category)]] ∧
      repo.GetAllPosts category username = repo.GetAllPosts category "") ∧
    (category = "" → username ≠ "" →
      (repo.GetAllPosts category username).queries = [[("author.username", username)]]) ∧
    (category = "" → username = "" →
      (repo.GetAllPosts category username).queries = [[]]) ∧
    (category ≠ "" →
      category ∈ ["music", "funny", "videos", "programming", "news", "fashion"] →
      (∀ posts : List Post, repo.DB.Find [("category", category)] = .ok posts →
        (repo.GetAllPosts category username).posts = some posts ∧
        (repo.GetAllPosts category username).err = none) ∧
      (∀ err : GoError, repo.DB.Find [("category", category)] = .error err →
        (repo.GetAllPosts category username).posts = none ∧
        (repo.GetAllPosts category username).err = some err) ∧
      (repo.DB.failing = false →
        (repo.GetAllPosts category username).posts =
          some (repo.DB.docs.filter (fun d => d.Category == category)) ∧
        (repo.GetAllPosts category username).err = none)) ∧
    (category = "" → username ≠ "" →
      (∀ posts : List Post, repo.DB.Find [("author.username", username)] = .ok posts →
        (repo.GetAllPosts category username).posts = some posts ∧
        (repo.GetAllPosts category username).err = none) ∧
      (∀ err : GoError, repo.DB.Find [("author.username", username)] = .error err →
        (repo.GetAllPosts category username).posts = none ∧
        (repo.GetAllPosts category username).err = some err) ∧
      (repo.DB.failing = false →
        (repo.GetAllPosts category username).posts =
          some (repo.DB.docs.filter (fun d => d.Author.Login == username)) ∧
        (repo.GetAllPosts category username).err = none)) ∧
    (category = "" → username = "" →
      (∀ posts : List Post, repo.DB.Find [] = .ok posts →
        (repo.GetAllPosts category username).posts = some posts ∧
        (repo.GetAllPosts category username).err = none) ∧
      (∀ err : GoError, repo.DB.Find [] = .error err →
        (repo.GetAllPosts category username).posts = none ∧
        (repo.GetAllPosts category username).err = some err) ∧
      (repo.DB.failing = false →
        (repo.GetAllPosts category username).posts = some repo.DB.docs ∧
        (repo.GetAllPosts category username).err = none)) := by
  have hq : ∀ filter : Filter, (GetAllPosts.query repo filter).queries = [filter] :=
    fun filter => (GetAllPosts_query_result repo filter).1
  have hres : ∀ filter : Filter,
      (∀ posts : List Post, repo.DB.Find filter = .ok posts →
        (GetAllPosts.query repo filter).posts = some posts ∧
        (GetAllPosts.query repo filter).err = none) ∧
      (∀ err : GoError, repo.DB.Find filter = .error err →
        (GetAllPosts.query repo filter).posts = none ∧
        (GetAllPosts.query repo filter).err = some err) ∧
      (repo.DB.failing = false →
        (GetAllPosts.query repo filter).posts =
          some (repo.DB.docs.filter (matchesFilter filter)) ∧
        (GetAllPosts.query repo filter).err = none) := by
    intro filter
    obtain ⟨_, h1, h2, h3⟩ := GetAllPosts_query_result repo filter
    refine ⟨?_, ?_, ?_⟩
    · intro posts hf
      rw [h1 posts hf]
      exact ⟨rfl, rfl⟩
    · intro err hf
      rw [h2 err hf]
      exact ⟨rfl, rfl⟩
    · intro hw
      rw [h3 hw]
      exact ⟨rfl, rfl⟩
  have hcat : category ≠ "" →
      category ∈ ["music", "funny", "videos", "programming", "news", "fashion"] →
      repo.GetAllPosts category username = GetAllPosts.query repo [("category", category)] := by
    intro hne hok
    have hb : (category != "") = true := by simpa using hne
    have hv : ¬ (validPostCategories.lookup category).isNone = true := by
      rw [validPostCategories_lookup]
      exact fun h => h hok
    unfold PostMongoDBRepository.GetAllPosts
    rw [hb, if_pos rfl, if_neg hv]
  have huser : category = "" → username ≠ "" →
      repo.GetAllPosts category username =
        GetAllPosts.query repo [("author.username", username)] := by
    intro hc hu
    have hb : (category != "") = false := by simpa using hc
    have hub : (username != "") = true := by simpa using hu
    unfold PostMongoDBRepository.GetAllPosts
    rw [hb, hub]
    rfl
  have hall : category = "" → username = "" →
      repo.GetAllPosts category username = GetAllPosts.query repo [] := by
    intro hc hu
    have hb : (category != "") = false := by simpa using hc
    have hub : (username != "") = false := by simpa using hu
    unfold PostMongoDBRepository.GetAllPosts
    rw [hb, hub]
    rfl
  refine ⟨?_, ?_, ?_, ?_, ?_, ?_, ?_⟩
  · intro hne hbad
    have hb : (category != "") = true := by simpa using hne
    unfold PostMongoDBRepository.GetAllPosts
    rw [hb, if_pos rfl, if_pos ((validPostCategories_lookup category).mpr hbad)]
  · intro hne hok
    have hb : (category != "") = true := by simpa using hne
    have hv : ¬ (validPostCategories.lookup category).isNone = true := by
      rw [validPostCategories_lookup]
      exact fun h => h hok
    unfold PostMongoDBRepository.GetAllPosts
    rw [hb, if_pos rfl, if_neg hv]
    exact ⟨hq _, rfl⟩
  · intro hc hu
    rw [huser hc hu]
    exact hq _
  · intro hc hu
    rw [hall hc hu]
    exact hq _
  · intro hne hok
    rw [hcat hne hok]
    obtain ⟨h1, h2, h3⟩ := hres [("category", category)]
    refine ⟨h1, h2, ?_⟩
    intro hw
    have h := h3 hw
    have hfun : matchesFilter [("category", category)] = fun d : Post => d.Category == category :=
      funext (matchesFilter_category category)
    rw [hfun] at h
    exact h
  · intro hc hu
    rw [huser hc hu]
    obtain ⟨h1, h2, h3⟩ := hres [("author.username", username)]
    refine ⟨h1, h2, ?_⟩
    intro hw
    have h := h3 hw
    have hfun : matchesFilter [("author.username", username)] =
        fun d : Post => d.Author.Login == username :=
      funext (matchesFilter_username username)
    rw [hfun] at h
    exact h
  · intro hc hu
    rw [hall hc hu]
    obtain ⟨h1, h2, h3⟩ := hres []
    refine ⟨h1, h2, ?_⟩
    intro hw
    have h := h3 hw
    have hfun : matchesFilter [] = fun _ : Post => true := funext matchesFilter_empty
    rw [hfun, List.filter_true] at h
    exact h

theorem GetAllPosts_filter_witness :
    ("incorrect" ≠ "" ∧
      "incorrect" ∉ ["music", "funny", "videos", "programming", "news", "fashion"] ∧
      twoPostRepo.GetAllPosts "incorrect" "alex12345" =
        { posts := none, err := some (.models .ErrIncorrectPostCategory), queries := [] }) ∧
    ("news" ≠ "" ∧ "news" ∈ ["music", "funny", "videos", "programming", "news", "fashion"] ∧
      (twoPostRepo.GetAllPosts "news" "bob").queries = [[("category", "news")]] ∧
      twoPostRepo.GetAllPosts "news" "bob" = twoPostRepo.GetAllPosts "news" "") ∧
    ("bob" ≠ "" ∧
      (twoPostRepo.GetAllPosts "" "bob").queries = [[("author.username", "bob")]]) ∧
    (twoPostRepo.GetAllPosts "" "").queries = [[]] ∧
    (twoPostRepo.DB.failing = false ∧
      (twoPostRepo.GetAllPosts "news" "bob").posts =
        some (twoPostRepo.DB.docs.filter (fun d => d.Category == "news")) ∧
      (twoPostRepo.GetAllPosts "" "bob").posts =
        some (twoPostRepo.DB.docs.filter (fun d => d.Author.Login == "bob")) ∧
      (twoPostRepo.GetAllPosts "" "").posts = some twoPostRepo.DB.docs) ∧
    ((twoPostRepo.GetAllPosts "" "bob").posts = some [secondPost] ∧
      (twoPostRepo.GetAllPosts "" "alex12345").posts = some [freshPost] ∧
      (twoPostRepo.GetAllPosts "fashion" "bob").posts = some [] ∧
      (twoPostRepo.GetAllPosts "" "").posts = some [freshPost, secondPost] ∧
      (failingRepo.GetAllPosts "news" "").posts = none ∧
      (failingRepo.GetAllPosts "news" "").err = some (.other "find failed")) :=
  ⟨⟨by decide, by decide,
     (GetAllPosts_filter twoPostRepo "incorrect" "alex12345").1 (by decide) (by decide)⟩,
   ⟨by decide, by decide,
     (GetAllPosts_filter twoPostRepo "news" "bob").2.1 (by decide) (by decide)⟩,
   ⟨by decide, (GetAllPosts_filter twoPostRepo "" "bob").2.2.1 rfl (by decide)⟩,
   (GetAllPosts_filter twoPostRepo "" "").2.2.2.1 rfl rfl,
   ⟨by decide,
     (((GetAllPosts_filter twoPostRepo "news" "bob").2.2.2.2.1 (by decide) (by decide)).2.2
       (by decide)).1,
     (((GetAllPosts_filter twoPostRepo "" "bob").2.2.2.2.2.1 rfl (by decide)).2.2
       (by decide)).1,
     (((GetAllPosts_filter twoPostRepo "" "").2.2.2.2.2.2 rfl rfl).2.2 (by decide)).1⟩,
   by decide⟩

/-! ## The aggregate of a new post -/

/-- C24. Initial aggregate of a new post: for every author and every category,
title, type, url and text, the post returned by a successful `CreateNewPost` has
`Score = 1`, `Views = 1`, `UpvotePercentage = 100` and `Votes` consisting of
exactly one record, a +1 vote by the author; it satisfies `Score` = sum of the
votes and has at most one vote per voter. -/
theorem CreateNewPost_initial_aggregate (repo : PostMongoDBRepository)
    (category title postType url text : String) (user : User) (newID : ObjectID) (now : Time)
    (hok : (repo.CreateNewPost category title postType url text user newID now).err = none) :
    ∃ p : Post,
      (repo.CreateNewPost category title postType url text user newID now).post = some p ∧
      p.Score = 1 ∧ p.Views = 1 ∧ p.UpvotePercentage = 100 ∧
      p.Votes = [{ Author := bsonUser user, AuthorID := user.ID, Vote := 1 }] ∧
      (∀ v ∈ p.Votes, v.Author.ID = user.ID ∧ v.AuthorID = user.ID ∧ v.Vote = 1) ∧
      p.Score = sumVotes p.Votes ∧ (voterIDs p.Votes).Nodup ∧
      p ∈ (repo.CreateNewPost category title postType url text user newID now).repo.DB.docs := by
  unfold PostMongoDBRepository.CreateNewPost Collection.InsertOne at hok ⊢
  by_cases hf : repo.DB.failing = true
  · simp [hf] at hok
  · by_cases hd : (repo.DB.docs.any fun d => d.ID = newID) = true
    · simp [hf, hd] at hok
    · simp only [hf, hd, Bool.false_eq_true, if_false]
      refine ⟨_, rfl, rfl, rfl, rfl, rfl, ?_, ?_, by simp [voterIDs], by simp⟩
      · intro v hv
        simp only [List.mem_singleton] at hv
        subst hv
        exact ⟨rfl, rfl, rfl⟩
      · show (1 : Int) = sumVotes [bsonVote { Author := user, AuthorID := user.ID, Vote := 1 }]
        rw [sumVotes_eq]
        show (1 : Int) = wrapInt (1 + 0)
        decide

theorem CreateNewPost_initial_aggregate_witness :
    (emptyRepo.CreateNewPost "news" "some title" "text" "" "post content" userA 7
      1641038400).err = none ∧
    (emptyRepo.CreateNewPost "news" "some title" "text" "" "post content" userA 7
      1641038400).post = some freshPost ∧
    (∃ p : Post,
      (emptyRepo.CreateNewPost "news" "some title" "text" "" "post content" userA 7
        1641038400).post = some p ∧
      p.Score = 1 ∧ p.Views = 1 ∧ p.UpvotePercentage = 100 ∧
      p.Votes = [{ Author := bsonUser userA, AuthorID := userA.ID, Vote := 1 }] ∧
      (∀ v ∈ p.Votes, v.Author.ID = userA.ID ∧ v.AuthorID = userA.ID ∧ v.Vote = 1) ∧
      p.Score = sumVotes p.Votes ∧ (voterIDs p.Votes).Nodup ∧
      p ∈ (emptyRepo.CreateNewPost "news" "some title" "text" "" "post content" userA 7
        1641038400).repo.DB.docs) :=
  ⟨by decide, by decide,
    CreateNewPost_initial_aggregate emptyRepo "news" "some title" "text" "" "post content"
      userA 7 1641038400 (by decide)⟩

/-! ## Only the author deletes a post -/

/-- C22. Only the author may delete a post: for every request to
`PostHandler.Delete` whose `GetPostByID` returns the post, if the context
carries no user ID the answer is 401, and if it carries a user ID different
from `post.Author.ID` the answer is 403 `you are not allowed to delete this
post`; in both cases the only call made is `GetPostByID`: neither
`CommentRepo.DeleteComment` nor `PostRepo.DeletePost` is called, the comment
repository is left untouched and the post repository is left as `GetPostByID`
left it (unchanged, for the MongoDB repository). -/
theorem Delete_requires_author {π κ : Type} (h : PostHandler π κ) (w : ResponseWriter)
    (posts : π) (comments : κ) (postID : String) (post : Post)
    (hpost : (h.PostRepo.GetPostByID posts postID).2 = .ok post) :
    ((h.Delete w posts comments postID none).writes =
        [.error 401 "you should authorize first"] ∧
      (h.Delete w posts comments postID none).calls = [.GetPostByID postID] ∧
      (h.Delete w posts comments postID none).posts =
        (h.PostRepo.GetPostByID posts postID).1 ∧
      (h.Delete w posts comments postID none).comments = comments) ∧
    (∀ userID : Int, userID ≠ post.Author.ID →
      (h.Delete w posts comments postID (some userID)).writes =
        [.error 403 "you are not allowed to delete this post"] ∧
      (h.Delete w posts comments postID (some userID)).calls = [.GetPostByID postID] ∧
      (h.Delete w posts comments postID (some userID)).posts =
        (h.PostRepo.GetPostByID posts postID).1 ∧
      (h.Delete w posts comments postID (some userID)).comments = comments) ∧
    (∀ (repo : PostMongoDBRepository) (id : String), (mongoPosts.GetPostByID repo id).1 = repo) := by
  rcases hres : h.PostRepo.GetPostByID posts postID with ⟨posts1, res⟩
  rw [hres] at hpost
  simp only at hpost
  subst hpost
  refine ⟨?_, ?_, ?_⟩
  · unfold PostHandler.Delete
    rw [hres]
    exact ⟨rfl, rfl, rfl, rfl⟩
  · intro userID hne
    have hb : (userID != post.Author.ID) = true := by simpa using hne
    unfold PostHandler.Delete
    rw [hres]
    simp only [hb, if_true]
    exact ⟨trivial, trivial, trivial, trivial⟩
  · intro repo id
    rfl

theorem Delete_requires_author_witness :
    (mongoPostHandler.PostRepo.GetPostByID commentedRepo "000000000000000000000007").2 =
      .ok commentedPost ∧
    (3 : Int) ≠ commentedPost.Author.ID ∧
    (mongoPostHandler.Delete { writeErr := none } commentedRepo commentStore
      "000000000000000000000007" none).writes = [.error 401 "you should authorize first"] ∧
    (mongoPostHandler.Delete { writeErr := none } commentedRepo commentStore
      "000000000000000000000007" (some 3)).writes =
        [.error 403 "you are not allowed to delete this post"] ∧
    (mongoPostHandler.Delete { writeErr := none } commentedRepo commentStore
      "000000000000000000000007" (some 3)).calls = [.GetPostByID "000000000000000000000007"] ∧
    (mongoPostHandler.Delete { writeErr := none } commentedRepo commentStore
      "000000000000000000000007" (some 3)).posts = commentedRepo ∧
    (mongoPostHandler.Delete { writeErr := none } commentedRepo commentStore
      "000000000000000000000007" (some 3)).comments = commentStore ∧
    (mongoPostHandler.Delete { writeErr := none } commentedRepo commentStore
      "000000000000000000000007" (some 1)).writes = [.success] ∧
    (mongoPostHandler.Delete { writeErr := none } commentedRepo commentStore
      "000000000000000000000007" (some 1)).posts.DB.docs = [secondPost] ∧
    (mongoPostHandler.Delete { writeErr := none } commentedRepo commentStore
      "000000000000000000000007" (some 1)).comments.DB.docs = [] :=
  ⟨rfl, by decide,
    ((Delete_requires_author mongoPostHandler { writeErr := none } commentedRepo commentStore
      "000000000000000000000007" commentedPost rfl).1).1,
    ((Delete_requires_author mongoPostHandler { writeErr := none } commentedRepo commentStore
      "000000000000000000000007" commentedPost rfl).2.1 3 (by decide)).1,
    ((Delete_requires_author mongoPostHandler { writeErr := none } commentedRepo commentStore
      "000000000000000000000007" commentedPost rfl).2.1 3 (by decide)).2.1,
    ((Delete_requires_author mongoPostHandler { writeErr := none } commentedRepo commentStore
      "000000000000000000000007" commentedPost rfl).2.1 3 (by decide)).2.2.1,
    ((Delete_requires_author mongoPostHandler { writeErr := none } commentedRepo commentStore
      "000000000000000000000007" commentedPost rfl).2.1 3 (by decide)).2.2.2,
    by decide, by decide, by decide⟩

/-! ## Votes on one post are not serialised -/

theorem inMemory_ID (user : User) (post : Post) (rate : Int) :
    (UpvotePost.inMemory user post rate).ID = post.ID := by
  have h := congrArg (fun p : Post => p.ID) (inMemory_frame user post rate)
  exact h

theorem UpdateOne_failing (c : Collection) (id : ObjectID) (s : VoteSet) :
    (c.UpdateOne id s).1.failing = c.failing := by
  unfold Collection.UpdateOne
  by_cases hf : c.failing = true
  · simp [hf]
  · simp only [hf, Bool.false_eq_true, if_false]
    split <;> rfl

theorem updateFirst_cons (id : ObjectID) (s : VoteSet) (d : Post) (ds : List Post) :
    updateFirst id s (d :: ds) =
      if d.ID = id then applySet s d :: ds else d :: updateFirst id s ds := rfl

theorem updateFirst_of_not_found (id : ObjectID) (s : VoteSet) (ds : List Post)
    (h : ds.find? (fun d => d.ID = id) = none) : updateFirst id s ds = ds := by
  induction ds with
  | nil => rfl
  | cons d ds ih =>
    by_cases hd : d.ID = id
    · simp [List.find?_cons, hd] at h
    · have h2 : ds.find? (fun d => d.ID = id) = none := by
        simpa [List.find?_cons, hd] using h
      unfold updateFirst
      rw [if_neg hd, ih h2]

theorem UpdateOne_docs (c : Collection) (id : ObjectID) (s : VoteSet)
    (hf : c.failing = false) : (c.UpdateOne id s).1.docs = updateFirst id s c.docs := by
  unfold Collection.UpdateOne
  simp only [hf, Bool.false_eq_true, if_false]
  split
  · next hnone => exact (updateFirst_of_not_found id s c.docs hnone).symm
  · rfl

theorem find_updateFirst_same (id : ObjectID) (s : VoteSet) (ds : List Post) (d : Post)
    (h : ds.find? (fun x => x.ID = id) = some d) :
    (updateFirst id s ds).find? (fun x => x.ID = id) = some (applySet s d) := by
  induction ds with
  | nil => simp at h
  | cons x xs ih =>
    by_cases hx : x.ID = id
    · have hd : x = d := by simpa [List.find?_cons, hx] using h
      subst hd
      have hid : (applySet s x).ID = id := hx
      unfold updateFirst
      rw [if_pos hx]
      simp [List.find?_cons, hid]
    · have h2 : xs.find? (fun x => x.ID = id) = some d := by
        simpa [List.find?_cons, hx] using h
      unfold updateFirst
      rw [if_neg hx]
      simp [List.find?_cons, hx, ih h2]

theorem find_updateFirst_other (id other : ObjectID) (s : VoteSet) (ds : List Post)
    (hne : other ≠ id) :
    (updateFirst id s ds).find? (fun x => x.ID = other) = ds.find? (fun x => x.ID = other) := by
  induction ds with
  | nil => rfl
  | cons x xs ih =>
    by_cases hx : x.ID = id
    · have hid : (applySet s x).ID = x.ID := rfl
      have h1 : ¬ x.ID = other := by rw [hx]; exact fun h => hne h.symm
      unfold updateFirst
      rw [if_pos hx]
      simp [List.find?_cons, hid, h1]
    · unfold updateFirst
      rw [if_neg hx]
      by_cases ho : x.ID = other
      · simp [List.find?_cons, ho]
      · simp [List.find?_cons, ho, ih]

theorem filter_updateFirst_others (id : ObjectID) (s : VoteSet) (ds : List Post) :
    (updateFirst id s ds).filter (fun x => x.ID ≠ id) = ds.filter (fun x => x.ID ≠ id) := by
  induction ds with
  | nil => rfl
  | cons x xs ih =>
    by_cases hx : x.ID = id
    · have hid : (applySet s x).ID = id := hx
      rw [updateFirst_cons, if_pos hx]
      simp [List.filter_cons, hid, hx]
    · have hd : decide (x.ID ≠ id) = true := by simpa using hx
      rw [updateFirst_cons, if_neg hx, List.filter_cons, List.filter_cons, hd, if_pos rfl,
        if_pos rfl, ih]

theorem updateFirst_comm (id1 id2 : ObjectID) (s1 s2 : VoteSet) (ds : List Post)
    (hne : id1 ≠ id2) :
    updateFirst id1 s1 (updateFirst id2 s2 ds) = updateFirst id2 s2 (updateFirst id1 s1 ds) := by
  induction ds with
  | nil => rfl
  | cons x xs ih =>
    by_cases h1 : x.ID = id1
    · have h2 : ¬ x.ID = id2 := by rw [h1]; exact hne
      have h3 : ¬ (applySet s1 x).ID = id2 := h2
      rw [updateFirst_cons id2, if_neg h2, updateFirst_cons id1, if_pos h1,
        updateFirst_cons id1 s1 x xs, if_pos h1, updateFirst_cons id2, if_neg h3]
    · by_cases h2 : x.ID = id2
      · have h3 : ¬ (applySet s2 x).ID = id1 := h1
        rw [updateFirst_cons id2, if_pos h2, updateFirst_cons id1, if_neg h3,
          updateFirst_cons id1 s1 x xs, if_neg h1, updateFirst_cons id2, if_pos h2]
      · rw [updateFirst_cons id2, if_neg h2, updateFirst_cons id1, if_neg h1,
          updateFirst_cons id1 s1 x xs, if_neg h1, updateFirst_cons id2, if_neg h2, ih]

theorem byUser_bsonVote (user : User) (v : Vote) : byUser user (bsonVote v) = byUser user v := rfl

theorem filter_others_bson (user : User) (vs : List Vote) :
    (vs.map bsonVote).filter (fun v => !byUser user v) =
      (vs.filter (fun v => !byUser user v)).map bsonVote := by
  induction vs with
  | nil => rfl
  | cons x xs ih =>
    by_cases hx : byUser user x = true
    · have hb : byUser user (bsonVote x) = true := hx
      simp [List.filter_cons, hx, hb, ih]
    · have hx2 : byUser user x = false := by simpa using hx
      have hb : byUser user (bsonVote x) = false := hx2
      simp [List.filter_cons, hx2, hb, ih]

/-- The documents left by `UpvotePost` for a valid rate on a working store. -/
theorem UpvotePost_docs (repo : PostMongoDBRepository) (user : User) (post : Post)
    (rate : Int) (hrate : rate = -1 ∨ rate = 0 ∨ rate = 1) (hf : repo.DB.failing = false) :
    (repo.UpvotePost user post rate).repo.DB.docs =
      updateFirst post.ID (voteSetOf (UpvotePost.inMemory user post rate)) repo.DB.docs ∧
    (repo.UpvotePost user post rate).repo.DB.failing = false := by
  rw [UpvotePost_repo repo user post rate hrate]
  constructor
  · show (repo.DB.UpdateOne _ _).1.docs = _
    rw [UpdateOne_docs _ _ _ hf, inMemory_ID]
  · show (repo.DB.UpdateOne _ _).1.failing = false
    rw [UpdateOne_failing, hf]

/-- C25, counterexample. Two requests vote up the post stored under `_id` 7 in
`liveRepo`, one for `userB` and one for `userC`.  Both handlers load the post
with `GetPostByID` before either persists, so both call `UpvotePost` on a copy
that holds the vote of `userA` only.  Both calls return nil, and the stored
post ends with the votes of `userA` and `userC` and the score 2: the vote of
`userB`, stored after the first call, is lost.  When the second request loads
after the first has persisted, the stored post ends with the three votes and
the score 3. -/
theorem UpvotePost_lost_update_counterexample :
    liveRepo.GetPostByID "000000000000000000000007" = .ok freshPost ∧
    (liveRepo.UpvotePost userB freshPost 1).err = none ∧
    (liveRepo.UpvotePost userB freshPost 1).repo.storedVoters 7 = [1, 2] ∧
    ((liveRepo.UpvotePost userB freshPost 1).repo.UpvotePost userC freshPost 1).err = none ∧
    ((liveRepo.UpvotePost userB freshPost 1).repo.UpvotePost userC freshPost 1).repo.storedVoters 7
      = [1, 3] ∧
    (((liveRepo.UpvotePost userB freshPost 1).repo.UpvotePost userC freshPost 1).repo.stored 7).map
      (fun d => d.Score) = some 2 ∧
    (liveRepo.UpvotePost userB freshPost 1).repo.GetPostByID "000000000000000000000007"
      = .ok votedPost ∧
    ((liveRepo.UpvotePost userB freshPost 1).repo.UpvotePost userC votedPost 1).repo.storedVoters 7
      = [1, 2, 3] ∧
    (((liveRepo.UpvotePost userB freshPost 1).repo.UpvotePost userC votedPost 1).repo.stored 7).map
      (fun d => d.Score) = some 3 :=
  ⟨rfl, by decide, by decide, by decide, by decide, by decide, rfl, by decide, by decide⟩

/-- C25 (amended). Votes on one post are not serialised: the last writer wins.
For every valid rate and every working store that holds a document `d` under
`post.ID`, `UpvotePost` replaces the `votes`, `score` and `upvotePercentage`
of `d` by the values computed from the caller's copy `post`, whatever `d`
held; the records of the other voters stored afterwards are those of the
caller's copy, hence those of `d` when the caller's copy is `d` itself.  Calls
on different posts are independent: the documents under another `_id` are left
as they are, a call on another post made before changes neither the error nor
the stored document of this call, and the two calls leave the same documents
in either order. -/
theorem UpvotePost_last_writer_wins (repo : PostMongoDBRepository) (user : User)
    (post d : Post) (rate : Int) (user2 : User) (other : Post) (rate2 : Int)
    (hrate : rate = -1 ∨ rate = 0 ∨ rate = 1)
    (hrate2 : rate2 = -1 ∨ rate2 = 0 ∨ rate2 = 1)
    (hworking : repo.DB.failing = false)
    (hstored : repo.stored post.ID = some d)
    (hother : other.ID ≠ post.ID) :
    (repo.UpvotePost user post rate).repo.stored post.ID =
      some { d with
        Votes := (UpvotePost.inMemory user post rate).Votes.map bsonVote,
        Score := (UpvotePost.inMemory user post rate).Score,
        UpvotePercentage := (UpvotePost.inMemory user post rate).UpvotePercentage } ∧
    ((UpvotePost.inMemory user post rate).Votes.map bsonVote).filter (fun v => !byUser user v) =
      (post.Votes.filter (fun v => !byUser user v)).map bsonVote ∧
    (post = d →
      ((UpvotePost.inMemory user post rate).Votes.map bsonVote).filter (fun v => !byUser user v) =
        (d.Votes.filter (fun v => !byUser user v)).map bsonVote) ∧
    (repo.UpvotePost user post rate).repo.DB.docs.filter (fun x => x.ID ≠ post.ID) =
      repo.DB.docs.filter (fun x => x.ID ≠ post.ID) ∧
    ((repo.UpvotePost user2 other rate2).repo.UpvotePost user post rate).err =
      (repo.UpvotePost user post rate).err ∧
    ((repo.UpvotePost user2 other rate2).repo.UpvotePost user post rate).repo.stored post.ID =
      (repo.UpvotePost user post rate).repo.stored post.ID ∧
    ((repo.UpvotePost user2 other rate2).repo.UpvotePost user post rate).repo.DB.docs =
      ((repo.UpvotePost user post rate).repo.UpvotePost user2 other rate2).repo.DB.docs := by
  have hd1 := UpvotePost_docs repo user post rate hrate hworking
  have hd2 := UpvotePost_docs repo user2 other rate2 hrate2 hworking
  have hd12 := UpvotePost_docs (repo.UpvotePost user2 other rate2).repo user post rate hrate hd2.2
  have hd21 := UpvotePost_docs (repo.UpvotePost user post rate).repo user2 other rate2 hrate2 hd1.2
  have hfind : (repo.UpvotePost user2 other rate2).repo.DB.docs.find? (fun x => x.ID = post.ID) =
      repo.DB.docs.find? (fun x => x.ID = post.ID) := by
    rw [hd2.1]
    exact find_updateFirst_other other.ID post.ID _ repo.DB.docs (fun h => hother h.symm)
  have hothers : ((UpvotePost.inMemory user post rate).Votes.map bsonVote).filter
      (fun v => !byUser user v) = (post.Votes.filter (fun v => !byUser user v)).map bsonVote := by
    rw [filter_others_bson, inMemory_Votes, List.filter_append, filter_eraseP_others]
    have hnew : (if rate = 1 ∨ rate = -1 then [newVote user rate] else []).filter
        (fun v => !byUser user v) = [] := by
      split
      · simp [List.filter_cons, byUser_newVote]
      · rfl
    rw [hnew, List.append_nil]
  refine ⟨?_, hothers, ?_, ?_, ?_, ?_, ?_⟩
  · show (repo.UpvotePost user post rate).repo.DB.docs.find? (fun x => x.ID = post.ID) = _
    rw [hd1.1, find_updateFirst_same post.ID _ repo.DB.docs d hstored]
    rfl
  · intro hpd
    rw [← hpd]
    exact hothers
  · rw [hd1.1]
    exact filter_updateFirst_others post.ID _ repo.DB.docs
  · rw [UpvotePost_err _ user post rate hrate, UpvotePost_err repo user post rate hrate, hd2.2,
      inMemory_ID, hfind, hworking]
  · show (_ : PostMongoDBRepository).DB.docs.find? (fun x => x.ID = post.ID) =
      (_ : PostMongoDBRepository).DB.docs.find? (fun x => x.ID = post.ID)
    rw [hd12.1, hd1.1, hd2.1]
    have hd : (updateFirst other.ID (voteSetOf (UpvotePost.inMemory user2 other rate2))
        repo.DB.docs).find? (fun x => x.ID = post.ID) = some d := by
      rw [find_updateFirst_other other.ID post.ID _ repo.DB.docs (fun h => hother h.symm)]
      exact hstored
    rw [find_updateFirst_same post.ID _ _ d hd, find_updateFirst_same post.ID _ _ d hstored]
  · rw [hd12.1, hd21.1, hd1.1, hd2.1]
    exact updateFirst_comm post.ID other.ID _ _ repo.DB.docs (fun h => hother h.symm)

theorem UpvotePost_last_writer_wins_witness :
    twoPostRepo.DB.failing = false ∧
    twoPostRepo.stored freshPost.ID = some freshPost ∧
    secondPost.ID ≠ freshPost.ID ∧
    (twoPostRepo.UpvotePost userB freshPost 1).repo.stored freshPost.ID = some votedPost ∧
    (twoPostRepo.UpvotePost userB freshPost 1).repo.DB.docs.filter
      (fun x => x.ID ≠ freshPost.ID) = [secondPost] ∧
    ((twoPostRepo.UpvotePost userC secondPost 1).repo.UpvotePost userB freshPost 1).err = none ∧
    ((twoPostRepo.UpvotePost userC secondPost 1).repo.UpvotePost userB freshPost 1).repo.DB.docs =
      ((twoPostRepo.UpvotePost userB freshPost 1).repo.UpvotePost userC secondPost 1).repo.DB.docs :=
  ⟨by decide, by decide, by decide,
    (UpvotePost_last_writer_wins twoPostRepo userB freshPost freshPost 1 userC secondPost 1
      (by decide) (by decide) (by decide) (by decide) (by decide)).1.trans (by decide),
    (UpvotePost_last_writer_wins twoPostRepo userB freshPost freshPost 1 userC secondPost 1
      (by decide) (by decide) (by decide) (by decide) (by decide)).2.2.2.1.trans (by decide),
    (UpvotePost_last_writer_wins twoPostRepo userB freshPost freshPost 1 userC secondPost 1
      (by decide) (by decide) (by decide) (by decide) (by decide)).2.2.2.2.1.trans (by decide),
    (UpvotePost_last_writer_wins twoPostRepo userB freshPost freshPost 1 userC secondPost 1
      (by decide) (by decide) (by decide) (by decide) (by decide)).2.2.2.2.2.2⟩

end RedditClone
